import Mathlib

/-!
Verification development for the DualPipe pipeline-parallel scheduler
(src/dualpipe/dualpipe.py).  The scheduler is embedded shallowly: the
eight-phase program of `step()` is rendered as a list of primitive
operations (receive / compute / send / weight-pop / commit), and the
per-phase cursors together with the deferred weight-gradient queue are an
explicit state threaded through an executable interpreter.
-/

namespace DualPipeModel

/-- Static configuration of one rank's scheduler, as fixed by
`DualPipe.__init__` and the arguments of `step()`:  group size, this
rank's logical pipeline rank, the number of micro-batch chunks, whether
gradient tracking is off (`forward_only`), and whether the two modules
support the fused overlapped forward-backward call. -/
structure Config where
  numRanks : Nat
  rank : Nat
  numChunks : Nat
  forwardOnly : Bool
  overlaped : Bool
deriving Repr, DecidableEq

/-- `self.is_first_rank = self.rank == 0` (line 51). -/
def is_first_rank (c : Config) : Bool := c.rank == 0

/-- `self.is_last_rank = self.rank == self.num_ranks - 1` (line 52). -/
def is_last_rank (c : Config) : Bool := c.rank == c.numRanks - 1

/-- `self.is_in_second_half = self.rank >= self.num_ranks // 2` (line 53). -/
def is_in_second_half (c : Config) : Bool := decide (c.numRanks / 2 ≤ c.rank)

/-- `self.is_middle_rank = self.num_ranks > 2 and ((self.rank == self.num_ranks // 2 - 1)
or (self.rank == self.num_ranks // 2))` (line 55). -/
def is_middle_rank (c : Config) : Bool :=
  decide (2 < c.numRanks) && (c.rank == c.numRanks / 2 - 1 || c.rank == c.numRanks / 2)

/-- The loop `for i in range(num_ranks): rank_inverse_mapping[rank_mapping[i]] = i`
over a list initialised to `[None] * (num_ranks + 1)` (lines 41-43). -/
def rank_inverse_mapping (mapping : List Nat) (n : Nat) : List (Option Nat) :=
  (List.range n).foldl (fun acc i => acc.set (mapping.getD i 0) (some i)) (List.replicate (n + 1) none)

/-- The inverse mapping for the default `rank_mapping = list(range(num_ranks))`
(line 40). -/
def inv_map_default (n : Nat) : List (Option Nat) := rank_inverse_mapping (List.range n) n

/-- `self.prev_rank = rank_inverse_mapping[self.rank - 1]` (line 47); Python's
`-1` indexes the final slot `num_ranks` of the length-`num_ranks + 1` list. -/
def prev_rank (c : Config) : Option Nat :=
  (inv_map_default c.numRanks).getD (if c.rank = 0 then c.numRanks else c.rank - 1) none

/-- `self.next_rank = rank_inverse_mapping[self.rank + 1]` (line 48). -/
def next_rank (c : Config) : Option Nat :=
  (inv_map_default c.numRanks).getD (c.rank + 1) none

/-- `phase ^= self.is_in_second_half`: the physical phase used on this rank. -/
def phys_phase (c : Config) (p : Nat) : Nat := if is_in_second_half c then 1 - p else p

/-- `(self.is_first_rank and phase == 0) or (self.is_last_rank and phase == 1)`,
the guard of `_recv_forward` / `_send_backward` (lines 239, 336). -/
def is_first_stage (c : Config) (q : Nat) : Bool :=
  (is_first_rank c && q == 0) || (is_last_rank c && q == 1)

/-- `(self.is_first_rank and phase == 1) or (self.is_last_rank and phase == 0)`,
the guard of `_send_forward` / `_recv_backward` (lines 305, 323). -/
def is_last_stage (c : Config) (q : Nat) : Bool :=
  (is_first_rank c && q == 1) || (is_last_rank c && q == 0)

/-- Primitive scheduler operations, each corresponding to one cursor
increment, deferred-weight event, or batched-communication commit point in
the source.  Communication operations record the peer they are posted to. -/
inductive Op where
  | recvF (q : Nat) (peer : Option Nat)
  | recvB (q : Nat) (peer : Option Nat)
  | compF (q : Nat)
  | compB (q : Nat) (zb : Bool)
  | compFB (q0 q1 : Nat)
  | sendF (q : Nat) (peer : Option Nat)
  | sendB (q : Nat) (peer : Option Nat)
  | weightPop
  | commit
deriving Repr, DecidableEq

/-- `_recv_forward` (lines 233-250): early return on the first stage,
otherwise post a receive from `prev_rank` (physical phase 0) or `next_rank`
(physical phase 1) and advance `current_recv_f_chunk_id`. -/
def recv_forward_ops (c : Config) (p : Nat) : List Op :=
  let q := phys_phase c p
  if is_first_stage c q then []
  else [Op.recvF q (if q = 0 then prev_rank c else next_rank c)]

/-- `_send_forward` (lines 303-316): early return on the last stage,
otherwise post a send to `next_rank` (physical phase 0) or `prev_rank`
(physical phase 1) and advance `current_send_f_chunk_id`. -/
def send_forward_ops (c : Config) (p : Nat) : List Op :=
  let q := phys_phase c p
  if is_last_stage c q then []
  else [Op.sendF q (if q = 0 then next_rank c else prev_rank c)]

/-- `_recv_backward` (lines 318-329): no-op in forward-only mode, early
return on the last stage, else post a receive and advance
`current_recv_b_chunk_id`. -/
def recv_backward_ops (c : Config) (p : Nat) : List Op :=
  if c.forwardOnly then []
  else
    let q := phys_phase c p
    if is_last_stage c q then []
    else [Op.recvB q (if q = 0 then next_rank c else prev_rank c)]

/-- `_send_backward` (lines 331-345): no-op in forward-only mode, early
return on the first stage, else post a send and advance
`current_send_b_chunk_id`. -/
def send_backward_ops (c : Config) (p : Nat) : List Op :=
  if c.forwardOnly then []
  else
    let q := phys_phase c p
    if is_first_stage c q then []
    else [Op.sendB q (if q = 0 then prev_rank c else next_rank c)]

/-- `_forward_compute_chunk` (lines 77-112): advances
`current_f_chunk_id[phase ^ is_in_second_half]`. -/
def forward_compute_ops (c : Config) (p : Nat) : List Op :=
  [Op.compF (phys_phase c p)]

/-- `_backward_compute_chunk` (lines 114-146): returns immediately in
forward-only mode; otherwise advances `current_b_chunk_id` and, when
`enable_zb`, flushes one deferred weight-gradient group. -/
def backward_compute_ops (c : Config) (p : Nat) (zb : Bool) : List Op :=
  if c.forwardOnly then [] else [Op.compB (phys_phase c p) zb]

/-- `_forward_backward_compute_chunk` (lines 148-210): forward-only runs
just the forward compute; without the overlapped capability it runs plain
forward then plain backward; otherwise one fused call. -/
def forward_backward_compute_ops (c : Config) (p0 p1 : Nat) : List Op :=
  if c.forwardOnly then forward_compute_ops c p0
  else if !c.overlaped then forward_compute_ops c p0 ++ backward_compute_ops c p1 false
  else [Op.compFB (phys_phase c p0) (phys_phase c p1)]

/-- `_forward_chunk` (lines 212-231). -/
def forward_chunk_ops (c : Config) (p : Nat) (recv send : Bool) : List Op :=
  (if recv then recv_forward_ops c p else []) ++ [Op.commit]
    ++ forward_compute_ops c p
    ++ (if send then send_forward_ops c p else [])

/-- `_backward_chunk` (lines 252-260). -/
def backward_chunk_ops (c : Config) (p : Nat) (zb recv send : Bool) : List Op :=
  (if recv then recv_backward_ops c p else []) ++ [Op.commit]
    ++ backward_compute_ops c p zb
    ++ (if send then send_backward_ops c p else [])

/-- `_forward_backward_chunk` (lines 262-286). -/
def forward_backward_chunk_ops (c : Config) (p0 p1 : Nat) (recv0 : Bool) : List Op :=
  (if recv0 then recv_forward_ops c p0 else []) ++ recv_backward_ops c p1
    ++ [Op.commit] ++ forward_backward_compute_ops c p0 p1
    ++ send_forward_ops c p0 ++ send_backward_ops c p1

/-- `_weight_chunk` (lines 288-295): no-op in forward-only mode, else a
commit point followed by `WeightGradStore.pop()`. -/
def weight_chunk_ops (c : Config) : List Op :=
  if c.forwardOnly then [] else [Op.commit, Op.weightPop]

/-- `num_half_ranks = num_ranks // 2` (line 380). -/
def num_half_ranks (c : Config) : Nat := c.numRanks / 2

/-- `half_rank = min(rank, num_ranks - 1 - rank)` (line 381). -/
def half_rank (c : Config) : Nat := min c.rank (c.numRanks - 1 - c.rank)

/-- `half_num_chunks = num_chunks // 2` (line 382). -/
def half_num_chunks (c : Config) : Nat := c.numChunks / 2

/-- `step_1 = (num_half_ranks - half_rank - 1) * 2` (line 407). -/
def step_1 (c : Config) : Nat := (num_half_ranks c - half_rank c - 1) * 2

/-- `step_2 = half_rank + 1` (line 416). -/
def step_2 (c : Config) : Nat := half_rank c + 1

/-- `step_3 = num_half_ranks - half_rank - 1` (line 446). -/
def step_3 (c : Config) : Nat := num_half_ranks c - half_rank c - 1

/-- `step_4 = half_num_chunks - num_ranks + half_rank + 1` (line 456). -/
def step_4 (c : Config) : Nat := half_num_chunks c - c.numRanks + half_rank c + 1

/-- `step_5 = num_half_ranks - half_rank - 1` (line 475). -/
def step_5 (c : Config) : Nat := num_half_ranks c - half_rank c - 1

/-- `step_6 = half_rank + 1` (line 483). -/
def step_6 (c : Config) : Nat := half_rank c + 1

/-- `step_7 = num_half_ranks - half_rank - 1` (line 498). -/
def step_7 (c : Config) : Nat := num_half_ranks c - half_rank c - 1

/-- `step_8 = half_rank + 1` (line 506). -/
def step_8 (c : Config) : Nat := half_rank c + 1

/-- The eight per-phase iteration counts of `step()`, in execution order. -/
def phase_iteration_counts (c : Config) : List Nat :=
  [step_1 c, step_2 c, step_3 c, step_4 c, step_5 c, step_6 c, step_7 c, step_8 c]

/-- Step 1 `nF0` (lines 406-411). -/
def step1_ops (c : Config) : List Op :=
  (List.range (step_1 c)).flatMap fun _ => forward_chunk_ops c 0 true true

/-- One iteration of step 2 `nF0F1` (lines 422-443): forward chunk of
phase 0 with eager send only on middle ranks, a fresh phase-0 receive, a
phase-1 forward chunk whose send is suppressed on a middle rank's last
iteration, then the staggered phase-0 send on non-middle ranks. -/
def step2_iter_ops (c : Config) (i : Nat) : List Op :=
  forward_chunk_ops c 0 false (is_middle_rank c)
    ++ recv_forward_ops c 0
    ++ forward_chunk_ops c 1 true (!is_middle_rank c || decide (i < step_2 c - 1))
    ++ (if !is_middle_rank c then send_forward_ops c 0 else [])

/-- Step 2 `nF0F1` (lines 413-443), including the pre-loop `_recv_forward(0)`. -/
def step2_ops (c : Config) : List Op :=
  recv_forward_ops c 0 ++ (List.range (step_2 c)).flatMap (step2_iter_ops c)

/-- One iteration of step 3 `nB1W1F1` (lines 448-453). -/
def step3_iter_ops (c : Config) : List Op :=
  backward_chunk_ops c 1 true true true ++ recv_forward_ops c 1
    ++ weight_chunk_ops c ++ forward_chunk_ops c 1 false true

/-- Step 3 `nB1W1F1` (lines 445-453). -/
def step3_ops (c : Config) : List Op :=
  (List.range (step_3 c)).flatMap fun _ => step3_iter_ops c

/-- One iteration of step 4 `nF0B1F1B0` (lines 458-472): the first
iteration on a middle rank uses the non-fused fallback sequence, the first
iteration elsewhere skips the phase-0 receive. -/
def step4_iter_ops (c : Config) (i : Nat) : List Op :=
  (if i = 0 then
    (if is_middle_rank c then
      forward_chunk_ops c 0 false false ++ send_forward_ops c 1
        ++ backward_chunk_ops c 1 false true false
        ++ send_forward_ops c 0 ++ send_backward_ops c 1
    else forward_backward_chunk_ops c 0 1 false)
  else forward_backward_chunk_ops c 0 1 true)
    ++ forward_backward_chunk_ops c 1 0 true

/-- Step 4 `nF0B1F1B0` (lines 455-472). -/
def step4_ops (c : Config) : List Op :=
  (List.range (step_4 c)).flatMap (step4_iter_ops c)

/-- One iteration of step 5 `nB1F1B0` (lines 477-480). -/
def step5_iter_ops (c : Config) : List Op :=
  backward_chunk_ops c 1 false true true ++ forward_backward_chunk_ops c 1 0 true

/-- Step 5 `nB1F1B0` (lines 474-480). -/
def step5_ops (c : Config) : List Op :=
  (List.range (step_5 c)).flatMap fun _ => step5_iter_ops c

/-- The body of one step-6 iteration (lines 486-495), carrying the mutable
`enable_zb` flag: the flag is raised before the direction-1 backward when
`i == step_6 // 2` and `half_rank` is odd, and before the direction-0
backward when `i == step_6 // 2` and `half_rank` is even. -/
def step6_body (c : Config) (i : Nat) (zb : Bool) : List Op × Bool :=
  let zb1 := if i = step_6 c / 2 ∧ half_rank c % 2 = 1 then true else zb
  let zb0 := if i = step_6 c / 2 ∧ half_rank c % 2 = 0 then true else zb1
  (backward_chunk_ops c 1 zb1 true true ++ backward_chunk_ops c 0 zb0 true true, zb0)

/-- Step 6 `nB1B0` (lines 482-495), with `enable_zb` initially `False`. -/
def step6_ops (c : Config) : List Op :=
  ((List.range (step_6 c)).foldl
    (fun acc i =>
      let r := step6_body c i acc.2
      (acc.1 ++ r.1, r.2))
    ([], false)).1

/-- One iteration of step 7 `nWB0` (lines 500-503). -/
def step7_iter_ops (c : Config) : List Op :=
  weight_chunk_ops c ++ backward_chunk_ops c 0 true true true

/-- Step 7 `nWB0` (lines 497-503). -/
def step7_ops (c : Config) : List Op :=
  (List.range (step_7 c)).flatMap fun _ => step7_iter_ops c

/-- Step 8 `nW` (lines 505-510). -/
def step8_ops (c : Config) : List Op :=
  (List.range (step_8 c)).flatMap fun _ => weight_chunk_ops c

/-- The full operation sequence of one `step()` after the preamble:
eight phases (lines 406-510) followed by the final `_commit_and_wait_comm`
(line 514). -/
def sched_ops (c : Config) : List Op :=
  step1_ops c ++ step2_ops c ++ step3_ops c ++ step4_ops c ++ step5_ops c
    ++ step6_ops c ++ step7_ops c ++ step8_ops c ++ [Op.commit]

/-- The six cursors of one physical phase: `current_recv_f_chunk_id`,
`current_f_chunk_id`, `current_send_f_chunk_id` and their backward
counterparts (lines 68-73). -/
structure Cursors where
  rf : Nat
  cf : Nat
  sf : Nat
  rb : Nat
  cb : Nat
  sb : Nat
deriving Repr, DecidableEq

/-- Per-step scheduler state: the cursors of the two physical phases, the
length of the deferred weight-gradient queue, and whether a
`WeightGradStore.pop()` ever fired on an empty queue.

Modelled from the spec: the `WeightGradStore` component itself lives in
`dualpipe/utils.py`, which is not part of the given sources; following
spec §4.4, each zero-bubble backward chunk flushes exactly one deferred
weight-gradient group onto a strict FIFO queue, `pop` drains one group and
asserts the queue is non-empty, and `clear` empties it at step start. -/
structure DPState where
  c0 : Cursors
  c1 : Cursors
  wq : Nat
  popFail : Bool
deriving Repr, DecidableEq

/-- All-zero cursors. -/
def zeroCursors : Cursors := ⟨0, 0, 0, 0, 0, 0⟩

/-- State at the start of scheduling, after `_reset_states` (lines 57-75)
has zeroed every cursor and cleared the weight-gradient store. -/
def resetState : DPState := ⟨zeroCursors, zeroCursors, 0, false⟩

/-- Apply a cursor update to the record of physical phase `q`. -/
def onPhase (q : Nat) (g : Cursors → Cursors) (s : DPState) : DPState :=
  if q = 0 then { s with c0 := g s.c0 } else { s with c1 := g s.c1 }

/-- Interpret one scheduler operation on the cursor / queue state. -/
def execOp (s : DPState) : Op → DPState
  | .recvF q _ => onPhase q (fun x => { x with rf := x.rf + 1 }) s
  | .recvB q _ => onPhase q (fun x => { x with rb := x.rb + 1 }) s
  | .compF q => onPhase q (fun x => { x with cf := x.cf + 1 }) s
  | .compB q zb =>
      let t := onPhase q (fun x => { x with cb := x.cb + 1 }) s
      if zb then { t with wq := t.wq + 1 } else t
  | .compFB q0 q1 =>
      onPhase q1 (fun x => { x with cb := x.cb + 1 })
        (onPhase q0 (fun x => { x with cf := x.cf + 1 }) s)
  | .sendF q _ => onPhase q (fun x => { x with sf := x.sf + 1 }) s
  | .sendB q _ => onPhase q (fun x => { x with sb := x.sb + 1 }) s
  | .weightPop => if s.wq = 0 then { s with popFail := true } else { s with wq := s.wq - 1 }
  | .commit => s

/-- Run a list of operations left to right. -/
def execOps (l : List Op) (s : DPState) : DPState := l.foldl execOp s

theorem execOps_nil (s : DPState) : execOps [] s = s := rfl

theorem execOps_cons (o : Op) (l : List Op) (s : DPState) :
    execOps (o :: l) s = execOps l (execOp s o) := rfl

theorem execOps_append (l1 l2 : List Op) (s : DPState) :
    execOps (l1 ++ l2) s = execOps l2 (execOps l1 s) :=
  List.foldl_append ..

/-- The cursor-ordering invariant `send ≤ compute ≤ recv` of one phase
(spec §3), for both the forward and the backward operation type. -/
def cInv (x : Cursors) : Prop :=
  x.sf ≤ x.cf ∧ x.cf ≤ x.rf ∧ x.sb ≤ x.cb ∧ x.cb ≤ x.rb

instance (x : Cursors) : Decidable (cInv x) := by unfold cInv; infer_instance

/-- The invariant for both physical phases of a scheduler state. -/
def cursorInv (s : DPState) : Prop := cInv s.c0 ∧ cInv s.c1

instance (s : DPState) : Decidable (cursorInv s) := by unfold cursorInv; infer_instance

/-- `SafeAll s l`: starting from `s`, the cursor invariant holds after
every prefix of the operation list `l`, i.e. throughout its execution. -/
def SafeAll (s : DPState) (l : List Op) : Prop :=
  ∀ n, n ≤ l.length → cursorInv (execOps (l.take n) s)

instance (s : DPState) (l : List Op) : Decidable (SafeAll s l) := by
  unfold SafeAll; exact Nat.decidableBallLE _ _

theorem safeAll_nil (s : DPState) (h : cursorInv s) : SafeAll s [] := by
  intro n _
  simpa [execOps] using h

theorem safeAll_cons (s : DPState) (o : Op) (l : List Op) (h0 : cursorInv s)
    (h1 : SafeAll (execOp s o) l) : SafeAll s (o :: l) := by
  intro n hn
  match n with
  | 0 => simpa [execOps]
  | Nat.succ m =>
    simp only [List.take_succ_cons, execOps_cons]
    exact h1 m (by simpa using hn)

theorem safeAll_append (s : DPState) (l1 l2 : List Op) (h1 : SafeAll s l1)
    (h2 : SafeAll (execOps l1 s) l2) : SafeAll s (l1 ++ l2) := by
  intro n hn
  rw [List.take_append_eq_append_take]
  by_cases hc : n ≤ l1.length
  · rw [Nat.sub_eq_zero_of_le hc, List.take_zero, List.append_nil]
    exact h1 n hc
  · rw [List.take_of_length_le (le_of_lt (lt_of_not_le hc)), execOps_append]
    exact h2 (n - l1.length) (by simp at hn ⊢; omega)

theorem safeAll_singleton (s : DPState) (o : Op) (h0 : cursorInv s)
    (h1 : cursorInv (execOp s o)) : SafeAll s [o] :=
  safeAll_cons s o [] h0 (safeAll_nil _ h1)

/-- Running a loop `for i in range(n): body i` when the state after `i`
iterations is described by `E i`. -/
theorem loop_run (f : Nat → List Op) (E : Nat → DPState) (n : Nat)
    (h : ∀ i, i < n → execOps (f i) (E i) = E (i + 1)) :
    execOps ((List.range n).flatMap f) (E 0) = E n := by
  induction n with
  | zero => simp [execOps]
  | succ m ih =>
    rw [List.range_succ, List.flatMap_append, execOps_append,
      ih (fun i hi => h i (Nat.lt_succ_of_lt hi))]
    simpa using h m (Nat.lt_succ_self m)

/-- A loop is safe throughout when each iteration is safe from its entry
state and re-establishes the entry state of the next iteration. -/
theorem loop_safe (f : Nat → List Op) (E : Nat → DPState) (n : Nat)
    (hrun : ∀ i, i < n → execOps (f i) (E i) = E (i + 1))
    (hsafe : ∀ i, i < n → SafeAll (E i) (f i))
    (hn : cursorInv (E n)) :
    SafeAll (E 0) ((List.range n).flatMap f) := by
  induction n with
  | zero =>
    simpa using safeAll_nil _ hn
  | succ m ih =>
    rw [List.range_succ, List.flatMap_append]
    have hEm : cursorInv (E m) := by
      simpa [execOps] using hsafe m (Nat.lt_succ_self m) 0 (Nat.zero_le _)
    refine safeAll_append _ _ _
      (ih (fun i hi => hrun i (Nat.lt_succ_of_lt hi))
          (fun i hi => hsafe i (Nat.lt_succ_of_lt hi)) hEm) ?_
    rw [loop_run f E m (fun i hi => hrun i (Nat.lt_succ_of_lt hi))]
    simpa using hsafe m (Nat.lt_succ_self m)

/-- Element lookup through the index-writing fold that builds the rank
inverse mapping. -/
theorem foldl_set_getD (m : Nat) (L : List (Option Nat)) (hm : m ≤ L.length) (j : Nat) :
    ((List.range m).foldl (fun acc i => acc.set i (some i)) L).getD j none
      = if j < m then some j else L.getD j none := by
  induction m with
  | zero => simp
  | succ k ih =>
    rw [List.range_succ, List.foldl_append]
    simp only [List.foldl_cons, List.foldl_nil]
    have hlen : ((List.range k).foldl (fun acc i => acc.set i (some i)) L).length = L.length := by
      clear ih hm
      induction k with
      | zero => simp
      | succ k2 ih2 => rw [List.range_succ, List.foldl_append]; simpa using ih2
    rw [List.getD_eq_getElem?_getD, List.getElem?_set]
    by_cases hjk : k = j
    · subst hjk
      rw [if_pos rfl, hlen, if_pos (by omega)]
      simp [Nat.lt_succ_self]
    · rw [if_neg hjk, ← List.getD_eq_getElem?_getD, ih (by omega)]
      by_cases hj : j < k
      · rw [if_pos hj, if_pos (by omega)]
      · rw [if_neg hj, if_neg (by omega)]

/-- `List.range n` reads back the identity below `n`. -/
theorem range_getD (n i : Nat) (hi : i < n) : (List.range n).getD i 0 = i := by
  rw [List.getD_eq_getElem?_getD, List.getElem?_range hi]
  rfl

/-- The default inverse rank mapping sends `j < n` to `some j` and the
sentinel slots to `none`. -/
theorem inv_map_default_getD (n j : Nat) :
    (inv_map_default n).getD j none = if j < n then some j else none := by
  unfold inv_map_default rank_inverse_mapping
  have hfun : ∀ m, m ≤ n → ∀ L : List (Option Nat),
      (List.range m).foldl (fun acc i => acc.set ((List.range n).getD i 0) (some i)) L
        = (List.range m).foldl (fun acc i => acc.set i (some i)) L := by
    intro m
    induction m with
    | zero => intro _ _; simp
    | succ k ih2 =>
      intro hk L
      rw [List.range_succ, List.foldl_append, List.foldl_append, ih2 (by omega)]
      simp only [List.foldl_cons, List.foldl_nil]
      rw [range_getD n k (by omega)]
  rw [hfun n le_rfl, foldl_set_getD n _ (by simp) j]
  by_cases hj : j < n
  · rw [if_pos hj, if_pos hj]
  · rw [if_neg hj, if_neg hj]
    rw [List.getD_eq_getElem?_getD, List.getElem?_replicate]
    by_cases hj2 : j < n + 1 <;> simp [hj2]

/-- `prev_rank` is `None` exactly on logical rank 0 (and otherwise the
next-lower logical rank). -/
theorem prev_rank_eq (c : Config) (hr : c.rank < c.numRanks) :
    prev_rank c = if c.rank = 0 then none else some (c.rank - 1) := by
  unfold prev_rank
  by_cases h0 : c.rank = 0
  · rw [if_pos h0, if_pos h0, inv_map_default_getD, if_neg (by omega)]
  · rw [if_neg h0, if_neg h0, inv_map_default_getD, if_pos (by omega)]

/-- `next_rank` is `None` exactly on logical rank `numRanks - 1` (and
otherwise the next-higher logical rank). -/
theorem next_rank_eq (c : Config) (hr : c.rank < c.numRanks) :
    next_rank c = if c.rank = c.numRanks - 1 then none else some (c.rank + 1) := by
  unfold next_rank
  by_cases h0 : c.rank = c.numRanks - 1
  · rw [if_pos h0, inv_map_default_getD, if_neg (by omega)]
  · rw [if_neg h0, inv_map_default_getD, if_pos (by omega)]

/-- The distinct failure modes raised by `step()`. -/
inductive StepError where
  | shapesUnset
  | oddRanks
  | badNumChunks
  | missingCriterion
  | wgQueueNonEmpty
deriving Repr, DecidableEq

/-- The assertion sequence at the head of `step()` (lines 371-387), in
source order: tensor shapes/dtype configured, even rank count,
`num_chunks > 0 and num_chunks % 2 == 0 and num_chunks >= num_ranks * 2`,
and a criterion on the first/last rank when gradients are tracked. -/
def step_precheck (shapesSet : Bool) (c : Config) (criterionGiven : Bool) : Option StepError :=
  if !shapesSet then some .shapesUnset
  else if c.numRanks % 2 ≠ 0 then some .oddRanks
  else if ¬(0 < c.numChunks ∧ c.numChunks % 2 = 0 ∧ c.numRanks * 2 ≤ c.numChunks) then
    some .badNumChunks
  else if ¬c.forwardOnly ∧ (is_first_rank c || is_last_rank c) = true ∧ ¬criterionGiven then
    some .missingCriterion
  else none

/-- `step()` as a whole: the precondition asserts run before `_reset_states`
and before any schedule operation is executed; only when they all pass is
the eight-phase schedule run from the freshly reset state, after which the
`WeightGradStore.funcs_queue.empty()` assertion (line 512) must hold. -/
def step_run (shapesSet : Bool) (c : Config) (criterionGiven : Bool) : Except StepError DPState :=
  match step_precheck shapesSet c criterionGiven with
  | some e => .error e
  | none =>
    let st := execOps (sched_ops c) resetState
    if st.wq ≠ 0 ∨ st.popFail then .error .wgQueueNonEmpty else .ok st

/-- `self.overlaped_forward_backward = type(modules[0]) == type(modules[1])
and hasattr(type(modules[0]), "overlaped_forward_backward")` (line 32), with
module types represented by identifiers and the attribute lookup by a
predicate on type identifiers. -/
def overlaped_forward_backward (hasAttr : Nat → Bool) (ty0 ty1 : Nat) : Bool :=
  (ty0 == ty1) && hasAttr ty0

/-- C2: for every configuration, `step()` runs eight phases and their
iteration counts are, in order, `(numHalfRanks-halfRank-1)*2`, `halfRank+1`,
`numHalfRanks-halfRank-1`, `halfNumChunks-numRanks+halfRank+1`,
`numHalfRanks-halfRank-1`, `halfRank+1`, `numHalfRanks-halfRank-1`,
`halfRank+1`. -/
theorem phase_counts_formula (c : Config) :
    (phase_iteration_counts c).length = 8
    ∧ phase_iteration_counts c =
      [(num_half_ranks c - half_rank c - 1) * 2,
       half_rank c + 1,
       num_half_ranks c - half_rank c - 1,
       half_num_chunks c - c.numRanks + half_rank c + 1,
       num_half_ranks c - half_rank c - 1,
       half_rank c + 1,
       num_half_ranks c - half_rank c - 1,
       half_rank c + 1] :=
  ⟨rfl, rfl⟩

/-- C1 counterexample: with `numRanks = 4`, `numChunks = 8`, a rank with
`halfRank = 1` (logical rank 1) does not execute the phase iteration
counts `[0,2,0,1,1,2,0,2]` claimed by the spec: phases 4 and 5 run 2 and 0
iterations, not 1 and 1. -/
theorem phase_counts_4_8_counterexample :
    half_rank ⟨4, 1, 8, false, false⟩ = 1
    ∧ phase_iteration_counts ⟨4, 1, 8, false, false⟩ ≠ [0, 2, 0, 1, 1, 2, 0, 2] := by
  decide

/-- C1 amended: with `numRanks = 4`, `numChunks = 8`, the ranks with
`halfRank = 0` (logical ranks 0 and 3) execute phase iteration counts
`[2,1,1,1,1,1,1,1]`, and the ranks with `halfRank = 1` (logical ranks 1
and 2) execute `[0,2,0,2,0,2,0,2]`. -/
theorem phase_counts_4_8 :
    half_rank ⟨4, 0, 8, false, false⟩ = 0
    ∧ half_rank ⟨4, 3, 8, false, false⟩ = 0
    ∧ half_rank ⟨4, 1, 8, false, false⟩ = 1
    ∧ half_rank ⟨4, 2, 8, false, false⟩ = 1
    ∧ phase_iteration_counts ⟨4, 0, 8, false, false⟩ = [2, 1, 1, 1, 1, 1, 1, 1]
    ∧ phase_iteration_counts ⟨4, 3, 8, false, false⟩ = [2, 1, 1, 1, 1, 1, 1, 1]
    ∧ phase_iteration_counts ⟨4, 1, 8, false, false⟩ = [0, 2, 0, 2, 0, 2, 0, 2]
    ∧ phase_iteration_counts ⟨4, 2, 8, false, false⟩ = [0, 2, 0, 2, 0, 2, 0, 2] := by
  decide

/-- C6: `step()` fails fast, returning the precondition error before any
schedule operation runs and before any per-step state is touched, whenever
the tensor shapes are unset, `numRanks` is odd, `numChunks` is not a
positive even number at least `2*numRanks`, or the criterion is missing on
the first/last rank while gradient tracking is active. -/
theorem step_fails_fast (shapesSet : Bool) (c : Config) (criterionGiven : Bool)
    (hviol : shapesSet = false
      ∨ c.numRanks % 2 ≠ 0
      ∨ ¬(0 < c.numChunks ∧ c.numChunks % 2 = 0 ∧ c.numRanks * 2 ≤ c.numChunks)
      ∨ (c.forwardOnly = false ∧ (is_first_rank c || is_last_rank c) = true
          ∧ criterionGiven = false)) :
    ∃ e, step_precheck shapesSet c criterionGiven = some e
      ∧ step_run shapesSet c criterionGiven = Except.error e := by
  have h : ∃ e, step_precheck shapesSet c criterionGiven = some e := by
    unfold step_precheck
    by_cases h1 : (!shapesSet) = true
    · rw [if_pos h1]; exact ⟨_, rfl⟩
    · rw [if_neg h1]
      by_cases h2 : c.numRanks % 2 ≠ 0
      · rw [if_pos h2]; exact ⟨_, rfl⟩
      · rw [if_neg h2]
        by_cases h3 : ¬(0 < c.numChunks ∧ c.numChunks % 2 = 0 ∧ c.numRanks * 2 ≤ c.numChunks)
        · rw [if_pos h3]; exact ⟨_, rfl⟩
        · rw [if_neg h3]
          by_cases h4 : ¬c.forwardOnly ∧ (is_first_rank c || is_last_rank c) = true
              ∧ ¬criterionGiven
          · rw [if_pos h4]; exact ⟨_, rfl⟩
          · exfalso
            simp only [Bool.not_eq_true'] at h1
            rcases hviol with h | h | h | h
            · rw [h] at h1; exact absurd h1 (by simp)
            · exact h2 h
            · exact h3 h
            · exact h4 ⟨by simp [h.1], h.2.1, by simp [h.2.2]⟩
  obtain ⟨e, he⟩ := h
  exact ⟨e, he, by unfold step_run; rw [he]⟩

/-- Witness for `step_fails_fast` at a concrete invalid configuration
(odd rank count). -/
theorem step_fails_fast_witness :
    ∃ e, step_precheck true ⟨3, 0, 12, false, false⟩ true = some e
      ∧ step_run true ⟨3, 0, 12, false, false⟩ true = Except.error e :=
  step_fails_fast true ⟨3, 0, 12, false, false⟩ true (by decide)

/-- C7 counterexample: two modules of different types that each expose the
overlapped forward-backward operation do not enable the fused path: the
capability flag also requires the two module types to be equal. -/
theorem overlap_flag_counterexample :
    (fun _ : Nat => true) 0 = true
    ∧ (fun _ : Nat => true) 1 = true
    ∧ overlaped_forward_backward (fun _ => true) 0 1 = false :=
  ⟨rfl, rfl, rfl⟩

/-- C7 amended: the fused path is enabled exactly when the two shard
modules have the same type and that type exposes the overlapped operation;
without the capability `_forward_backward_compute_chunk` degrades to plain
forward compute followed by plain backward compute, and in forward-only
mode it performs only the forward compute. -/
theorem overlap_capability_and_fallback (hasAttr : Nat → Bool) (ty0 ty1 : Nat)
    (c : Config) (p0 p1 : Nat) :
    (overlaped_forward_backward hasAttr ty0 ty1 = true ↔ (ty0 = ty1 ∧ hasAttr ty0 = true))
    ∧ (c.forwardOnly = true →
        forward_backward_compute_ops c p0 p1 = [Op.compF (phys_phase c p0)])
    ∧ (c.forwardOnly = false → c.overlaped = false →
        forward_backward_compute_ops c p0 p1 =
          [Op.compF (phys_phase c p0), Op.compB (phys_phase c p1) false])
    ∧ (c.forwardOnly = false → c.overlaped = true →
        forward_backward_compute_ops c p0 p1 =
          [Op.compFB (phys_phase c p0) (phys_phase c p1)]) := by
  refine ⟨?_, ?_, ?_, ?_⟩
  · simp [overlaped_forward_backward]
  · intro h
    simp [forward_backward_compute_ops, h, forward_compute_ops]
  · intro h1 h2
    simp [forward_backward_compute_ops, h1, h2, forward_compute_ops, backward_compute_ops]
  · intro h1 h2
    simp [forward_backward_compute_ops, h1, h2]

/-- Witness for `overlap_capability_and_fallback` at concrete module types
and configurations exercising each branch. -/
theorem overlap_capability_and_fallback_witness :
    overlaped_forward_backward (fun _ => true) 5 5 = true
    ∧ forward_backward_compute_ops ⟨4, 1, 8, true, false⟩ 0 1 = [Op.compF 0]
    ∧ forward_backward_compute_ops ⟨4, 1, 8, false, false⟩ 0 1 = [Op.compF 0, Op.compB 1 false]
    ∧ forward_backward_compute_ops ⟨4, 1, 8, false, true⟩ 0 1 = [Op.compFB 0 1] := by
  refine ⟨?_, ?_, ?_, ?_⟩
  · exact (overlap_capability_and_fallback (fun _ => true) 5 5 ⟨4, 1, 8, true, false⟩ 0 1).1.mpr
      ⟨rfl, rfl⟩
  · exact (overlap_capability_and_fallback (fun _ => true) 5 5 ⟨4, 1, 8, true, false⟩ 0 1).2.1 rfl
  · exact (overlap_capability_and_fallback (fun _ => true) 5 5 ⟨4, 1, 8, false, false⟩ 0 1).2.2.1
      rfl rfl
  · exact (overlap_capability_and_fallback (fun _ => true) 5 5 ⟨4, 1, 8, false, true⟩ 0 1).2.2.2
      rfl rfl

/-- C9: a rank is middle exactly when `numRanks > 2` and its logical rank
is `numRanks/2 - 1` or `numRanks/2`; in a two-rank group no rank is middle,
so step 2 uses the non-middle staggered sends and the first iteration of
step 4 uses the fused (non-middle) sequence. -/
theorem middle_rank_classification (c : Config) :
    (is_middle_rank c = true
      ↔ (2 < c.numRanks ∧ (c.rank = c.numRanks / 2 - 1 ∨ c.rank = c.numRanks / 2)))
    ∧ (c.numRanks = 2 →
        is_middle_rank c = false
        ∧ (∀ i, step2_iter_ops c i =
            forward_chunk_ops c 0 false false ++ recv_forward_ops c 0
              ++ forward_chunk_ops c 1 true true ++ send_forward_ops c 0)
        ∧ step4_iter_ops c 0 =
            forward_backward_chunk_ops c 0 1 false ++ forward_backward_chunk_ops c 1 0 true) := by
  constructor
  · simp [is_middle_rank]
  · intro h2
    have hmid : is_middle_rank c = false := by
      simp [is_middle_rank, h2]
    refine ⟨hmid, ?_, ?_⟩
    · intro i
      simp [step2_iter_ops, hmid, forward_chunk_ops]
    · simp [step4_iter_ops, hmid]

/-- Witness for `middle_rank_classification` in a two-rank group. -/
theorem middle_rank_classification_witness :
    is_middle_rank ⟨2, 0, 4, false, false⟩ = false
    ∧ is_middle_rank ⟨2, 1, 4, false, false⟩ = false :=
  ⟨((middle_rank_classification ⟨2, 0, 4, false, false⟩).2 rfl).1,
   ((middle_rank_classification ⟨2, 1, 4, false, false⟩).2 rfl).1⟩

/-- Closed form of the `enable_zb` flag seen by the direction-1 backward of
iteration `i` of step 6. -/
def zb1_flag (c : Config) (i : Nat) : Bool :=
  decide (step_6 c / 2 < i ∨ (i = step_6 c / 2 ∧ half_rank c % 2 = 1))

/-- Closed form of the `enable_zb` flag seen by the direction-0 backward of
iteration `i` of step 6. -/
def zb0_flag (c : Config) (i : Nat) : Bool :=
  decide (step_6 c / 2 ≤ i)

theorem step6_fold_eq (c : Config) (m : Nat) :
    (List.range m).foldl
      (fun acc i =>
        let r := step6_body c i acc.2
        (acc.1 ++ r.1, r.2)) ([], false)
    = ((List.range m).flatMap (fun i =>
         backward_chunk_ops c 1 (zb1_flag c i) true true
           ++ backward_chunk_ops c 0 (zb0_flag c i) true true),
       decide (step_6 c / 2 < m)) := by
  induction m with
  | zero => simp
  | succ k ih =>
    rw [List.range_succ, List.foldl_append, List.flatMap_append, ih]
    simp only [List.foldl_cons, List.foldl_nil, List.flatMap_cons, List.flatMap_nil,
      List.append_nil]
    simp only [step6_body]
    have hzb1 : (if k = step_6 c / 2 ∧ half_rank c % 2 = 1 then true
        else decide (step_6 c / 2 < k)) = zb1_flag c k := by
      unfold zb1_flag
      split_ifs with h
      · simp [h]
      · simp only [decide_eq_decide]
        constructor
        · intro hk; exact Or.inl hk
        · rintro (hk | hk)
          · exact hk
          · exact absurd hk h
    have hzb0 : (if k = step_6 c / 2 ∧ half_rank c % 2 = 0 then true
        else zb1_flag c k) = zb0_flag c k := by
      unfold zb1_flag zb0_flag
      split_ifs with h
      · simp [h.1]
      · simp only [decide_eq_decide]
        omega
    rw [hzb1, hzb0]
    refine Prod.ext rfl ?_
    show zb0_flag c k = decide (step_6 c / 2 < k + 1)
    unfold zb0_flag
    simp only [decide_eq_decide]
    omega

/-- Step 6 as a loop over closed-form per-iteration zero-bubble flags. -/
theorem step6_ops_eq (c : Config) :
    step6_ops c = (List.range (step_6 c)).flatMap (fun i =>
      backward_chunk_ops c 1 (zb1_flag c i) true true
        ++ backward_chunk_ops c 0 (zb0_flag c i) true true) := by
  unfold step6_ops
  rw [step6_fold_eq]

/-- The sequence of `enable_zb` flags passed to the backward computes of an
operation list, in execution order. -/
def backward_zb_flags (l : List Op) : List Bool :=
  l.filterMap fun o =>
    match o with
    | .compB _ z => some z
    | _ => none

theorem backward_zb_flags_append (l1 l2 : List Op) :
    backward_zb_flags (l1 ++ l2) = backward_zb_flags l1 ++ backward_zb_flags l2 :=
  List.filterMap_append ..

theorem backward_zb_flags_backward_chunk (c : Config) (hfo : c.forwardOnly = false)
    (p : Nat) (z recv send : Bool) :
    backward_zb_flags (backward_chunk_ops c p z recv send) = [z] := by
  unfold backward_chunk_ops recv_backward_ops send_backward_ops backward_compute_ops
  rw [hfo]
  simp only [Bool.false_eq_true, if_false]
  split_ifs <;> simp [backward_zb_flags]

/-- C8: in step 6 (`halfRank + 1` iterations of one direction-1 backward
followed by one direction-0 backward), the zero-bubble flag starts off and
switches on exactly once, at midpoint iteration `(halfRank+1)/2`: counting
the backward calls of the phase as `j = 0, 1, ...`, the flag of call `j` is
on exactly for `j ≥ 2*((halfRank+1)/2)` when `halfRank` is odd (that
iteration's direction-1 backward) and for `j ≥ 2*((halfRank+1)/2) + 1` when
`halfRank` is even (that iteration's direction-0 backward), and it stays on
for every later backward call of the phase. -/
theorem step6_zero_bubble_toggle (c : Config) (hfo : c.forwardOnly = false) :
    backward_zb_flags (step6_ops c) =
      (List.range (2 * (half_rank c + 1))).map fun j =>
        decide ((if half_rank c % 2 = 1
          then 2 * ((half_rank c + 1) / 2)
          else 2 * ((half_rank c + 1) / 2) + 1) ≤ j) := by
  rw [step6_ops_eq]
  have hpair : backward_zb_flags ((List.range (step_6 c)).flatMap (fun i =>
      backward_chunk_ops c 1 (zb1_flag c i) true true
        ++ backward_chunk_ops c 0 (zb0_flag c i) true true))
      = (List.range (step_6 c)).flatMap (fun i => [zb1_flag c i, zb0_flag c i]) := by
    induction (step_6 c) with
    | zero => simp [backward_zb_flags]
    | succ k ih =>
      rw [List.range_succ, List.flatMap_append, List.flatMap_append,
        backward_zb_flags_append, ih]
      simp only [List.flatMap_cons, List.flatMap_nil, List.append_nil]
      rw [backward_zb_flags_append,
        backward_zb_flags_backward_chunk c hfo 1 _ true true,
        backward_zb_flags_backward_chunk c hfo 0 _ true true]
      simp
  rw [hpair]
  have hexpand : ∀ m : Nat, (List.range m).flatMap (fun i => [zb1_flag c i, zb0_flag c i])
      = (List.range (2 * m)).map fun j =>
          if j % 2 = 0 then zb1_flag c (j / 2) else zb0_flag c (j / 2) := by
    intro m
    induction m with
    | zero => simp
    | succ k ih =>
      rw [List.range_succ, List.flatMap_append, ih]
      have h2 : 2 * (k + 1) = (2 * k + 1) + 1 := by omega
      rw [h2, List.range_succ, List.range_succ, List.map_append, List.map_append]
      simp only [List.flatMap_cons, List.flatMap_nil, List.append_nil, List.map_cons,
        List.map_nil, List.append_assoc]
      have e1 : (2 * k) % 2 = 0 := by omega
      have e2 : (2 * k) / 2 = k := by omega
      have e3 : (2 * k + 1) % 2 = 1 := by omega
      have e4 : (2 * k + 1) / 2 = k := by omega
      rw [e1, e3, e2, e4]
      simp
  rw [hexpand (step_6 c)]
  show (List.range (2 * step_6 c)).map _ = (List.range (2 * (half_rank c + 1))).map _
  have hs6 : step_6 c = half_rank c + 1 := rfl
  rw [hs6]
  apply List.map_congr_left
  intro j hj
  rw [List.mem_range] at hj
  unfold zb1_flag zb0_flag
  have hs6' : step_6 c = half_rank c + 1 := rfl
  rw [hs6']
  split_ifs <;> (simp only [decide_eq_decide]; omega)

/-- Deferred weight-gradient queue actions: a zero-bubble backward chunk
flushes one group onto the FIFO queue, `_weight_chunk` pops one. -/
inductive WAct where
  | push
  | pop
deriving Repr, DecidableEq

/-- Project an operation onto its effect on the weight-gradient queue. -/
def w_proj : Op → Option WAct
  | .compB _ z => if z then some .push else none
  | .weightPop => some .pop
  | _ => none

/-- The weight-gradient queue actions of an operation list, in order. -/
def weight_trace (l : List Op) : List WAct := l.filterMap w_proj

theorem weight_trace_append (l1 l2 : List Op) :
    weight_trace (l1 ++ l2) = weight_trace l1 ++ weight_trace l2 :=
  List.filterMap_append ..

/-- Run queue actions on (queue length, pop-on-empty failure flag). -/
def w_exec (l : List WAct) (s : Nat × Bool) : Nat × Bool :=
  l.foldl
    (fun t a =>
      match a with
      | .push => (t.1 + 1, t.2)
      | .pop => if t.1 = 0 then (t.1, true) else (t.1 - 1, t.2))
    s

theorem w_exec_nil (s : Nat × Bool) : w_exec [] s = s := rfl

theorem w_exec_append (l1 l2 : List WAct) (s : Nat × Bool) :
    w_exec (l1 ++ l2) s = w_exec l2 (w_exec l1 s) :=
  List.foldl_append ..

theorem onPhase_wq (q : Nat) (g : Cursors → Cursors) (s : DPState) :
    (onPhase q g s).wq = s.wq ∧ (onPhase q g s).popFail = s.popFail := by
  unfold onPhase
  split <;> exact ⟨rfl, rfl⟩

/-- The queue length and failure flag of the full interpreter agree with
the projected queue-action interpreter. -/
theorem execOps_weight (l : List Op) : ∀ s : DPState,
    (execOps l s).wq = (w_exec (weight_trace l) (s.wq, s.popFail)).1
    ∧ (execOps l s).popFail = (w_exec (weight_trace l) (s.wq, s.popFail)).2 := by
  induction l with
  | nil => intro s; exact ⟨rfl, rfl⟩
  | cons o t ih =>
    intro s
    rw [execOps_cons]
    have hwt : weight_trace (o :: t) = weight_trace [o] ++ weight_trace t := by
      rw [show o :: t = [o] ++ t from rfl, weight_trace_append]
    rw [hwt, w_exec_append]
    have hone : w_exec (weight_trace [o]) (s.wq, s.popFail)
        = ((execOp s o).wq, (execOp s o).popFail) := by
      cases o with
      | recvF q peer => simp [execOp, weight_trace, w_proj, w_exec, onPhase_wq]
      | recvB q peer => simp [execOp, weight_trace, w_proj, w_exec, onPhase_wq]
      | compF q => simp [execOp, weight_trace, w_proj, w_exec, onPhase_wq]
      | compB q z =>
        cases z with
        | false => simp [execOp, weight_trace, w_proj, w_exec, onPhase_wq]
        | true =>
          simp only [execOp, weight_trace, w_proj, List.filterMap_cons, List.filterMap_nil,
            if_true, if_pos]
          simp [w_exec, onPhase_wq]
      | compFB q0 q1 =>
        have h1 := onPhase_wq q0 (fun x => { x with cf := x.cf + 1 }) s
        have h2 := onPhase_wq q1 (fun x => { x with cb := x.cb + 1 })
          (onPhase q0 (fun x => { x with cf := x.cf + 1 }) s)
        simp [execOp, weight_trace, w_proj, w_exec, h1.1, h1.2, h2.1, h2.2]
      | sendF q peer => simp [execOp, weight_trace, w_proj, w_exec, onPhase_wq]
      | sendB q peer => simp [execOp, weight_trace, w_proj, w_exec, onPhase_wq]
      | weightPop =>
        by_cases h : s.wq = 0 <;> simp [execOp, h, weight_trace, w_proj, w_exec]
      | commit => simp [execOp, weight_trace, w_proj, w_exec]
    rw [hone]
    exact ih (execOp s o)

theorem weight_trace_flatMap (n : Nat) (f : Nat → List Op) :
    weight_trace ((List.range n).flatMap f)
      = (List.range n).flatMap fun i => weight_trace (f i) :=
  List.filterMap_flatMap ..

theorem weight_trace_commit : weight_trace [Op.commit] = [] := rfl

theorem weight_trace_commit_cons (t : List Op) :
    weight_trace (Op.commit :: t) = weight_trace t := rfl

theorem weight_trace_forward_compute (c : Config) (p : Nat) :
    weight_trace (forward_compute_ops c p) = [] := rfl

theorem weight_trace_compFB (q0 q1 : Nat) : weight_trace [Op.compFB q0 q1] = [] := rfl

theorem weight_trace_recv_forward (c : Config) (p : Nat) :
    weight_trace (recv_forward_ops c p) = [] := by
  simp only [recv_forward_ops]
  split_ifs <;> simp [weight_trace, w_proj]

theorem weight_trace_send_forward (c : Config) (p : Nat) :
    weight_trace (send_forward_ops c p) = [] := by
  simp only [send_forward_ops]
  split_ifs <;> simp [weight_trace, w_proj]

theorem weight_trace_recv_backward (c : Config) (p : Nat) :
    weight_trace (recv_backward_ops c p) = [] := by
  simp only [recv_backward_ops]
  split_ifs <;> simp [weight_trace, w_proj]

theorem weight_trace_send_backward (c : Config) (p : Nat) :
    weight_trace (send_backward_ops c p) = [] := by
  simp only [send_backward_ops]
  split_ifs <;> simp [weight_trace, w_proj]

theorem weight_trace_forward_chunk (c : Config) (p : Nat) (r s : Bool) :
    weight_trace (forward_chunk_ops c p r s) = [] := by
  unfold forward_chunk_ops
  cases r <;> cases s <;>
    simp [weight_trace_append, weight_trace_recv_forward, weight_trace_send_forward,
      weight_trace_commit, weight_trace_commit_cons, weight_trace_forward_compute]

theorem weight_trace_backward_compute (c : Config) (p : Nat) (z : Bool) :
    weight_trace (backward_compute_ops c p z)
      = if c.forwardOnly then [] else if z then [WAct.push] else [] := by
  unfold backward_compute_ops
  by_cases h : c.forwardOnly <;> cases z <;> simp [h, weight_trace, w_proj]

theorem weight_trace_backward_chunk (c : Config) (p : Nat) (z r s : Bool) :
    weight_trace (backward_chunk_ops c p z r s)
      = if c.forwardOnly then [] else if z then [WAct.push] else [] := by
  unfold backward_chunk_ops
  cases r <;> cases s <;>
    simp [weight_trace_append, weight_trace_recv_backward, weight_trace_send_backward,
      weight_trace_backward_compute, weight_trace_commit, weight_trace_commit_cons]

theorem weight_trace_weight_chunk (c : Config) :
    weight_trace (weight_chunk_ops c) = if c.forwardOnly then [] else [WAct.pop] := by
  unfold weight_chunk_ops
  split_ifs <;> simp [weight_trace, w_proj]

theorem weight_trace_forward_backward_compute (c : Config) (p0 p1 : Nat) :
    weight_trace (forward_backward_compute_ops c p0 p1) = [] := by
  unfold forward_backward_compute_ops
  by_cases hfo : c.forwardOnly <;> by_cases hov : c.overlaped <;>
    simp [hfo, hov, weight_trace_append, weight_trace_forward_compute,
      weight_trace_backward_compute, weight_trace_compFB]

theorem weight_trace_forward_backward_chunk (c : Config) (p0 p1 : Nat) (r : Bool) :
    weight_trace (forward_backward_chunk_ops c p0 p1 r) = [] := by
  unfold forward_backward_chunk_ops
  cases r <;>
    simp [weight_trace_append, weight_trace_recv_forward, weight_trace_recv_backward,
      weight_trace_send_forward, weight_trace_send_backward, weight_trace_commit,
      weight_trace_commit_cons, weight_trace_forward_backward_compute]

theorem w_loop_run (f : Nat → List WAct) (E : Nat → Nat × Bool) (n : Nat)
    (h : ∀ i, i < n → w_exec (f i) (E i) = E (i + 1)) :
    w_exec ((List.range n).flatMap f) (E 0) = E n := by
  induction n with
  | zero => simp [w_exec]
  | succ m ih =>
    rw [List.range_succ, List.flatMap_append, w_exec_append,
      ih (fun i hi => h i (Nat.lt_succ_of_lt hi))]
    simpa using h m (Nat.lt_succ_self m)

theorem weight_trace_step2_iter (c : Config) (i : Nat) :
    weight_trace (step2_iter_ops c i) = [] := by
  unfold step2_iter_ops
  by_cases hm : is_middle_rank c <;>
    simp [hm, weight_trace_append, weight_trace_forward_chunk, weight_trace_recv_forward,
      weight_trace_send_forward]

theorem weight_trace_step3_iter (c : Config) (hfo : c.forwardOnly = false) :
    weight_trace (step3_iter_ops c) = [WAct.push, WAct.pop] := by
  unfold step3_iter_ops
  simp [weight_trace_append, weight_trace_backward_chunk, weight_trace_recv_forward,
    weight_trace_weight_chunk, weight_trace_forward_chunk, hfo]

theorem weight_trace_step4_iter (c : Config) (hfo : c.forwardOnly = false) (i : Nat) :
    weight_trace (step4_iter_ops c i) = [] := by
  unfold step4_iter_ops
  by_cases h0 : i = 0 <;> by_cases hm : is_middle_rank c <;>
    simp [h0, hm, weight_trace_append, weight_trace_forward_chunk, weight_trace_send_forward,
      weight_trace_backward_chunk, weight_trace_send_backward,
      weight_trace_forward_backward_chunk, hfo]

theorem weight_trace_step5_iter (c : Config) (hfo : c.forwardOnly = false) :
    weight_trace (step5_iter_ops c) = [] := by
  unfold step5_iter_ops
  simp [weight_trace_append, weight_trace_backward_chunk,
    weight_trace_forward_backward_chunk, hfo]

theorem weight_trace_step7_iter (c : Config) (hfo : c.forwardOnly = false) :
    weight_trace (step7_iter_ops c) = [WAct.pop, WAct.push] := by
  unfold step7_iter_ops
  simp [weight_trace_append, weight_trace_weight_chunk, weight_trace_backward_chunk, hfo]

theorem weight_trace_step3_iter_fo (c : Config) (hfo : c.forwardOnly = true) :
    weight_trace (step3_iter_ops c) = [] := by
  unfold step3_iter_ops
  simp [weight_trace_append, weight_trace_backward_chunk, weight_trace_recv_forward,
    weight_trace_weight_chunk, weight_trace_forward_chunk, hfo]

theorem weight_trace_step4_iter_fo (c : Config) (hfo : c.forwardOnly = true) (i : Nat) :
    weight_trace (step4_iter_ops c i) = [] := by
  unfold step4_iter_ops
  by_cases h0 : i = 0 <;> by_cases hm : is_middle_rank c <;>
    simp [h0, hm, weight_trace_append, weight_trace_forward_chunk, weight_trace_send_forward,
      weight_trace_backward_chunk, weight_trace_send_backward,
      weight_trace_forward_backward_chunk, hfo]

theorem weight_trace_step5_iter_fo (c : Config) (hfo : c.forwardOnly = true) :
    weight_trace (step5_iter_ops c) = [] := by
  unfold step5_iter_ops
  simp [weight_trace_append, weight_trace_backward_chunk,
    weight_trace_forward_backward_chunk, hfo]

theorem weight_trace_step7_iter_fo (c : Config) (hfo : c.forwardOnly = true) :
    weight_trace (step7_iter_ops c) = [] := by
  unfold step7_iter_ops
  simp [weight_trace_append, weight_trace_weight_chunk, weight_trace_backward_chunk, hfo]

theorem flatMap_const_nil {β : Type} (n : Nat) :
    ((List.range n).flatMap fun _ => ([] : List β)) = [] := by
  induction n with
  | zero => simp
  | succ k ih => rw [List.range_succ, List.flatMap_append, ih]; rfl

/-- The weight-gradient queue actions of a full gradient-tracking step:
one flush-then-pop pair per step-3 iteration, the parity-staggered flushes
of step 6, one pop-then-flush pair per step-7 iteration, and the final
drain of step 8. -/
theorem weight_trace_sched (c : Config) (hfo : c.forwardOnly = false) :
    weight_trace (sched_ops c)
      = ((List.range (step_3 c)).flatMap fun _ => [WAct.push, WAct.pop])
        ++ (((List.range (step_6 c)).flatMap fun i =>
              (if zb1_flag c i then [WAct.push] else [])
                ++ (if zb0_flag c i then [WAct.push] else []))
        ++ (((List.range (step_7 c)).flatMap fun _ => [WAct.pop, WAct.push])
        ++ ((List.range (step_8 c)).flatMap fun _ => [WAct.pop]))) := by
  unfold sched_ops step1_ops step2_ops step3_ops step4_ops step5_ops step7_ops step8_ops
  rw [step6_ops_eq]
  simp only [weight_trace_append, weight_trace_flatMap]
  simp [weight_trace_forward_chunk, weight_trace_recv_forward, weight_trace_step2_iter,
    weight_trace_step3_iter c hfo, weight_trace_step4_iter c hfo,
    weight_trace_step5_iter c hfo, weight_trace_step7_iter c hfo,
    weight_trace_weight_chunk, weight_trace_backward_chunk, weight_trace_commit, hfo,
    flatMap_const_nil]

/-- Whatever the queue already holds, a flush immediately followed by a pop
leaves it unchanged and cannot fire the empty-pop assertion. -/
theorem w_exec_push_pop (s : Nat × Bool) :
    w_exec [WAct.push, WAct.pop] s = s := by
  simp [w_exec]

/-- A pop immediately followed by a flush preserves a non-empty queue. -/
theorem w_exec_pop_push (w : Nat) (b : Bool) (hw : w ≠ 0) :
    w_exec [WAct.pop, WAct.push] (w, b) = (w, b) := by
  simp only [w_exec, List.foldl_cons, List.foldl_nil, if_neg hw]
  refine Prod.ext ?_ rfl
  show w - 1 + 1 = w
  omega

/-- Two conditional flushes append their unit counts to the queue. -/
theorem w_exec_pushes (b1 b0 : Bool) (w : Nat) (f : Bool) :
    w_exec ((if b1 then [WAct.push] else []) ++ (if b0 then [WAct.push] else [])) (w, f)
      = (w + (if b1 then 1 else 0) + (if b0 then 1 else 0), f) := by
  cases b1 <;> cases b0 <;> simp [w_exec]

/-- After the eight phases the weight-gradient queue is empty and no pop
ever found it empty. -/
theorem w_exec_sched (c : Config) (hfo : c.forwardOnly = false) :
    w_exec (weight_trace (sched_ops c)) (0, false) = (0, false) := by
  rw [weight_trace_sched c hfo, w_exec_append, w_exec_append, w_exec_append]
  have h3 : w_exec ((List.range (step_3 c)).flatMap fun _ => [WAct.push, WAct.pop]) (0, false)
      = (0, false) := by
    exact w_loop_run _ (fun _ => (0, false)) _ (fun i _ => w_exec_push_pop _)
  have h6 : w_exec ((List.range (step_6 c)).flatMap fun i =>
        (if zb1_flag c i then [WAct.push] else [])
          ++ (if zb0_flag c i then [WAct.push] else [])) (0, false)
      = (half_rank c + 1, false) := by
    have hrun := w_loop_run
      (fun i => (if zb1_flag c i then [WAct.push] else [])
        ++ (if zb0_flag c i then [WAct.push] else []))
      (fun i => (2 * i - (half_rank c + 1), false)) (step_6 c) ?_
    · have hend : 2 * step_6 c - (half_rank c + 1) = half_rank c + 1 := by
        show 2 * (half_rank c + 1) - (half_rank c + 1) = half_rank c + 1
        omega
      simpa [hend] using hrun
    · intro i hi
      rw [w_exec_pushes]
      refine Prod.ext ?_ rfl
      show 2 * i - (half_rank c + 1) + (if zb1_flag c i = true then 1 else 0)
          + (if zb0_flag c i = true then 1 else 0) = 2 * (i + 1) - (half_rank c + 1)
      have hi' : i < half_rank c + 1 := hi
      have hs : step_6 c = half_rank c + 1 := rfl
      simp only [zb1_flag, zb0_flag, hs, decide_eq_true_eq]
      split_ifs <;> omega
  have h7 : w_exec ((List.range (step_7 c)).flatMap fun _ => [WAct.pop, WAct.push])
        (half_rank c + 1, false)
      = (half_rank c + 1, false) := by
    exact w_loop_run _ (fun _ => (half_rank c + 1, false)) _
      (fun i _ => w_exec_pop_push _ _ (Nat.succ_ne_zero _))
  have h8 : w_exec ((List.range (step_8 c)).flatMap fun _ => [WAct.pop])
        (half_rank c + 1, false)
      = (0, false) := by
    have hrun := w_loop_run (fun _ => [WAct.pop])
      (fun i => (half_rank c + 1 - i, false)) (step_8 c) ?_
    · have hend : half_rank c + 1 - step_8 c = 0 := by
        show half_rank c + 1 - (half_rank c + 1) = 0
        omega
      simpa [hend] using hrun
    · intro i hi
      have hi' : i < half_rank c + 1 := hi
      have hne : half_rank c + 1 - i ≠ 0 := by omega
      simp only [w_exec, List.foldl_cons, List.foldl_nil, if_neg hne]
      refine Prod.ext ?_ rfl
      show half_rank c + 1 - i - 1 = half_rank c + 1 - (i + 1)
      omega
  rw [h3, h6, h7, h8]

/-- C5: the weight-gradient queue is empty at the start of every `step()`
(`_reset_states` clears it before scheduling begins) and empty again when
phase 8 completes, so the fatal `WeightGradStore.funcs_queue.empty()`
assertion after phase 8 — which would abort the step on a non-empty
queue — never fires, and no pop ever finds the queue empty. -/
theorem weight_grad_queue_empty (c : Config) :
    resetState.wq = 0
    ∧ (execOps (sched_ops c) resetState).wq = 0
    ∧ (execOps (sched_ops c) resetState).popFail = false
    ∧ (∀ shapesSet criterionGiven,
        step_precheck shapesSet c criterionGiven = none →
        step_run shapesSet c criterionGiven
          = Except.ok (execOps (sched_ops c) resetState)) := by
  have hw : (execOps (sched_ops c) resetState).wq = 0
      ∧ (execOps (sched_ops c) resetState).popFail = false := by
    have hproj := execOps_weight (sched_ops c) resetState
    have hreset : (resetState.wq, resetState.popFail) = ((0 : Nat), false) := rfl
    rw [hreset] at hproj
    cases hfo : c.forwardOnly with
    | false =>
      rw [w_exec_sched c hfo] at hproj
      exact hproj
    | true =>
      have hnil : weight_trace (sched_ops c) = [] := by
        unfold sched_ops step1_ops step2_ops step3_ops step4_ops step5_ops step7_ops step8_ops
        rw [step6_ops_eq]
        simp only [weight_trace_append, weight_trace_flatMap]
        simp [weight_trace_forward_chunk, weight_trace_recv_forward, weight_trace_step2_iter,
          weight_trace_step3_iter_fo c hfo, weight_trace_step4_iter_fo c hfo,
          weight_trace_step5_iter_fo c hfo, weight_trace_step7_iter_fo c hfo,
          weight_trace_weight_chunk, weight_trace_backward_chunk, weight_trace_commit, hfo,
          flatMap_const_nil]
      rw [hnil] at hproj
      exact hproj
  refine ⟨rfl, hw.1, hw.2, ?_⟩
  intro shapesSet criterionGiven hok
  unfold step_run
  rw [hok]
  simp [hw.1, hw.2]

/-- Erase the peer annotation of a communication operation; the cursor
interpreter never reads peers, so execution is invariant under this. -/
def stripPeers : Op → Op
  | .recvF q _ => .recvF q none
  | .recvB q _ => .recvB q none
  | .sendF q _ => .sendF q none
  | .sendB q _ => .sendB q none
  | o => o

theorem execOp_strip (s : DPState) (o : Op) : execOp s (stripPeers o) = execOp s o := by
  cases o <;> rfl

theorem execOps_strip (l : List Op) : ∀ s : DPState,
    execOps (l.map stripPeers) s = execOps l s := by
  induction l with
  | nil => intro s; rfl
  | cons o t ih =>
    intro s
    rw [List.map_cons, execOps_cons, execOps_cons, execOp_strip]
    exact ih (execOp s o)

theorem safeAll_strip (s : DPState) (l : List Op) :
    SafeAll s (l.map stripPeers) ↔ SafeAll s l := by
  unfold SafeAll
  rw [List.length_map]
  constructor <;> intro h n hn <;> have h2 := h n hn
  · rwa [← List.map_take, execOps_strip] at h2
  · rwa [← List.map_take, execOps_strip]

/-- `(a, b)` is the pair of physical phases of logical phases `(0, 1)`. -/
def PhasePair (a b : Nat) : Prop := (a = 0 ∧ b = 1) ∨ (a = 1 ∧ b = 0)

theorem phys_phase_pair (c : Config) : PhasePair (phys_phase c 0) (phys_phase c 1) := by
  unfold phys_phase PhasePair
  by_cases h : is_in_second_half c = true <;> simp [h]

/-- Place logical-phase-0 cursors `X` and logical-phase-1 cursors `Y` at
their physical slots when logical phase 0 is physical phase `a`. -/
def mkSt (a : Nat) (X Y : Cursors) (w : Nat) : DPState :=
  if a = 0 then ⟨X, Y, w, false⟩ else ⟨Y, X, w, false⟩

theorem mkSt_reset (a : Nat) : mkSt a zeroCursors zeroCursors 0 = resetState := by
  unfold mkSt resetState
  split <;> rfl

theorem onPhase_mkSt_a (a b : Nat) (hab : PhasePair a b) (g : Cursors → Cursors)
    (X Y : Cursors) (w : Nat) :
    onPhase a g (mkSt a X Y w) = mkSt a (g X) Y w := by
  rcases hab with ⟨ha, hb⟩ | ⟨ha, hb⟩ <;> subst ha <;> simp [onPhase, mkSt]

theorem onPhase_mkSt_b (a b : Nat) (hab : PhasePair a b) (g : Cursors → Cursors)
    (X Y : Cursors) (w : Nat) :
    onPhase b g (mkSt a X Y w) = mkSt a X (g Y) w := by
  rcases hab with ⟨ha, hb⟩ | ⟨ha, hb⟩ <;> subst ha <;> subst hb <;> simp [onPhase, mkSt]

theorem cursorInv_mkSt (a : Nat) (X Y : Cursors) (w : Nat) :
    cursorInv (mkSt a X Y w) ↔ cInv X ∧ cInv Y := by
  unfold mkSt cursorInv
  split <;> simp <;> exact And.comm

theorem mkSt_wq (a : Nat) (X Y : Cursors) (w : Nat) : (mkSt a X Y w).wq = w := by
  unfold mkSt; split <;> rfl

theorem mkSt_popFail (a : Nat) (X Y : Cursors) (w : Nat) : (mkSt a X Y w).popFail = false := by
  unfold mkSt; split <;> rfl

theorem mkSt_congr (a : Nat) {X X' Y Y' : Cursors} {w w' : Nat}
    (hX : X = X') (hY : Y = Y') (hw : w = w') : mkSt a X Y w = mkSt a X' Y' w' := by
  rw [hX, hY, hw]

theorem mkSt_set_wq (a : Nat) (X Y : Cursors) (w w2 : Nat) :
    (⟨(mkSt a X Y w).c0, (mkSt a X Y w).c1, w2, (mkSt a X Y w).popFail⟩ : DPState)
      = mkSt a X Y w2 := by
  unfold mkSt
  split <;> rfl

/-- A forward chunk on physical phase `x`, peers erased: optional receive,
commit, compute, send. -/
def fchunk_blk (x : Nat) (recv : Bool) : List Op :=
  (if recv then [Op.recvF x none] else []) ++ [Op.commit, Op.compF x, Op.sendF x none]

/-- One step-3 iteration on an interior rank, peers erased. -/
def iter3_blk (b : Nat) : List Op :=
  [Op.recvB b none, Op.commit, Op.compB b true, Op.sendB b none, Op.recvF b none,
   Op.commit, Op.weightPop, Op.commit, Op.compF b, Op.sendF b none]

theorem commit_run (s : DPState) : execOps [Op.commit] s = s := rfl

theorem commit_safe (s : DPState) (h : cursorInv s) : SafeAll s [Op.commit] :=
  safeAll_singleton s Op.commit h h

theorem fchunk_run_a (a b : Nat) (hab : PhasePair a b) (r : Bool) (X Y : Cursors) (w : Nat) :
    execOps (fchunk_blk a r) (mkSt a X Y w)
      = mkSt a ⟨X.rf + (if r then 1 else 0), X.cf + 1, X.sf + 1, X.rb, X.cb, X.sb⟩ Y w := by
  cases r <;>
    simp [fchunk_blk, execOps, execOp, onPhase_mkSt_a a b hab, onPhase_mkSt_b a b hab]

theorem fchunk_run_b (a b : Nat) (hab : PhasePair a b) (r : Bool) (X Y : Cursors) (w : Nat) :
    execOps (fchunk_blk b r) (mkSt a X Y w)
      = mkSt a X ⟨Y.rf + (if r then 1 else 0), Y.cf + 1, Y.sf + 1, Y.rb, Y.cb, Y.sb⟩ w := by
  cases r <;>
    simp [fchunk_blk, execOps, execOp, onPhase_mkSt_a a b hab, onPhase_mkSt_b a b hab]

theorem fchunk_safe_a (a b : Nat) (hab : PhasePair a b) (r : Bool) (X Y : Cursors) (w : Nat)
    (hX : cInv X) (hY : cInv Y) (hr : r = false → X.cf < X.rf) :
    SafeAll (mkSt a X Y w) (fchunk_blk a r) := by
  obtain ⟨hx1, hx2, hx3, hx4⟩ := hX
  obtain ⟨hy1, hy2, hy3, hy4⟩ := hY
  cases r with
  | false =>
    have hr' := hr rfl
    intro n hn
    have hn' : n ≤ 3 := by simpa [fchunk_blk] using hn
    clear hn
    interval_cases n <;>
      simp [fchunk_blk, execOps, execOp, onPhase_mkSt_a a b hab, onPhase_mkSt_b a b hab,
        cursorInv_mkSt, cInv] <;>
      omega
  | true =>
    intro n hn
    have hn' : n ≤ 4 := by simpa [fchunk_blk] using hn
    clear hn
    interval_cases n <;>
      simp [fchunk_blk, execOps, execOp, onPhase_mkSt_a a b hab, onPhase_mkSt_b a b hab,
        cursorInv_mkSt, cInv] <;>
      omega

theorem fchunk_safe_b (a b : Nat) (hab : PhasePair a b) (r : Bool) (X Y : Cursors) (w : Nat)
    (hX : cInv X) (hY : cInv Y) (hr : r = false → Y.cf < Y.rf) :
    SafeAll (mkSt a X Y w) (fchunk_blk b r) := by
  obtain ⟨hx1, hx2, hx3, hx4⟩ := hX
  obtain ⟨hy1, hy2, hy3, hy4⟩ := hY
  cases r with
  | false =>
    have hr' := hr rfl
    intro n hn
    have hn' : n ≤ 3 := by simpa [fchunk_blk] using hn
    clear hn
    interval_cases n <;>
      simp [fchunk_blk, execOps, execOp, onPhase_mkSt_a a b hab, onPhase_mkSt_b a b hab,
        cursorInv_mkSt, cInv] <;>
      omega
  | true =>
    intro n hn
    have hn' : n ≤ 4 := by simpa [fchunk_blk] using hn
    clear hn
    interval_cases n <;>
      simp [fchunk_blk, execOps, execOp, onPhase_mkSt_a a b hab, onPhase_mkSt_b a b hab,
        cursorInv_mkSt, cInv] <;>
      omega

theorem iter3_run (a b : Nat) (hab : PhasePair a b) (X Y : Cursors) (w : Nat) :
    execOps (iter3_blk b) (mkSt a X Y w)
      = mkSt a X ⟨Y.rf + 1, Y.cf + 1, Y.sf + 1, Y.rb + 1, Y.cb + 1, Y.sb + 1⟩ w := by
  simp [iter3_blk, execOps, execOp, onPhase_mkSt_a a b hab, onPhase_mkSt_b a b hab,
    mkSt_wq, mkSt_set_wq]

theorem iter3_safe (a b : Nat) (hab : PhasePair a b) (X Y : Cursors) (w : Nat)
    (hX : cInv X) (hY : cInv Y) :
    SafeAll (mkSt a X Y w) (iter3_blk b) := by
  obtain ⟨hx1, hx2, hx3, hx4⟩ := hX
  obtain ⟨hy1, hy2, hy3, hy4⟩ := hY
  intro n hn
  have hn' : n ≤ 10 := by simpa [iter3_blk] using hn
  clear hn
  interval_cases n <;>
    simp [iter3_blk, execOps, execOp, onPhase_mkSt_a a b hab, onPhase_mkSt_b a b hab,
      cursorInv_mkSt, cInv, mkSt_wq, mkSt_set_wq] <;>
    omega

/-- One step-2 iteration on an interior rank, peers erased: phase-0 forward
chunk (eager send only on middle ranks), fresh phase-0 receive, phase-1
forward chunk, staggered phase-0 send on non-middle ranks. -/
def iter2_blk (a b : Nat) (mid flag : Bool) : List Op :=
  [Op.commit, Op.compF a] ++ (if mid then [Op.sendF a none] else [])
    ++ [Op.recvF a none, Op.recvF b none, Op.commit, Op.compF b]
    ++ (if flag then [Op.sendF b none] else [])
    ++ (if mid then [] else [Op.sendF a none])

/-- A fused (or fallback) forward-backward chunk, forward on physical phase
`x`, backward on physical phase `y`, peers erased. -/
def fb_blk (x y : Nat) (ov recv0 : Bool) : List Op :=
  (if recv0 then [Op.recvF x none] else []) ++ [Op.recvB y none, Op.commit]
    ++ (if ov then [Op.compFB x y] else [Op.compF x, Op.compB y false])
    ++ [Op.sendF x none, Op.sendB y none]

/-- The first step-4 iteration on a middle rank: the non-fused fallback
sequence followed by the reverse fused chunk. -/
def iter4_mid0_blk (a b : Nat) (ov : Bool) : List Op :=
  [Op.commit, Op.compF a, Op.sendF b none, Op.recvB b none, Op.commit, Op.compB b false,
   Op.sendF a none, Op.sendB b none] ++ fb_blk b a ov true

/-- A regular step-4 iteration: forward-0/backward-1 chunk (no phase-0
receive on the first iteration) then forward-1/backward-0 chunk. -/
def iter4_blk (a b : Nat) (ov first : Bool) : List Op :=
  fb_blk a b ov (!first) ++ fb_blk b a ov true

/-- One step-5 iteration: backward-1 chunk then forward-1/backward-0 chunk. -/
def iter5_blk (a b : Nat) (ov : Bool) : List Op :=
  [Op.recvB b none, Op.commit, Op.compB b false, Op.sendB b none] ++ fb_blk b a ov true

/-- One step-6 iteration with its two zero-bubble flags. -/
def iter6_blk (a b : Nat) (z1 z0 : Bool) : List Op :=
  [Op.recvB b none, Op.commit, Op.compB b z1, Op.sendB b none,
   Op.recvB a none, Op.commit, Op.compB a z0, Op.sendB a none]

/-- One step-7 iteration: weight chunk then zero-bubble backward-0 chunk. -/
def iter7_blk (a : Nat) : List Op :=
  [Op.commit, Op.weightPop, Op.recvB a none, Op.commit, Op.compB a true, Op.sendB a none]

/-- One step-8 iteration: a weight chunk. -/
def iter8_blk : List Op := [Op.commit, Op.weightPop]

/-- One forward-only step-3 iteration on an interior rank. -/
def iter3_fo_blk (b : Nat) : List Op :=
  [Op.commit, Op.recvF b none, Op.commit, Op.compF b, Op.sendF b none]

/-- The forward-only remnant of the first step-4 iteration on a middle
rank, before the reverse forward chunk. -/
def iter4_fo_mid0_blk (a b : Nat) : List Op :=
  [Op.commit, Op.compF a, Op.sendF b none, Op.commit, Op.sendF a none]

/-- A forward-only step-1 iteration on a first/last rank (its boundary
stage neither receives nor double-sends). -/
def iter1_bd_blk (a : Nat) : List Op := [Op.commit, Op.compF a, Op.sendF a none]

/-- A forward-only step-2 iteration on a first/last rank. -/
def iter2_bd_blk (a b : Nat) : List Op :=
  [Op.commit, Op.compF a, Op.recvF b none, Op.commit, Op.compF b, Op.sendF a none]

/-- A forward-only step-3 (and step-5) iteration on a first/last rank. -/
def iter3_bd_blk (b : Nat) : List Op := [Op.commit, Op.recvF b none, Op.commit, Op.compF b]

/-- A forward-only step-4 iteration on a first/last rank. -/
def iter4_bd_blk (a b : Nat) : List Op :=
  [Op.commit, Op.compF a, Op.sendF a none, Op.recvF b none, Op.commit, Op.compF b]

theorem iter2_run (a b : Nat) (hab : PhasePair a b) (mid flag : Bool) (X Y : Cursors)
    (w : Nat) :
    execOps (iter2_blk a b mid flag) (mkSt a X Y w)
      = mkSt a ⟨X.rf + 1, X.cf + 1, X.sf + 1, X.rb, X.cb, X.sb⟩
          ⟨Y.rf + 1, Y.cf + 1, Y.sf + (if flag then 1 else 0), Y.rb, Y.cb, Y.sb⟩ w := by
  cases mid <;> cases flag <;>
    simp [iter2_blk, execOps, execOp, onPhase_mkSt_a a b hab, onPhase_mkSt_b a b hab]

theorem iter2_safe (a b : Nat) (hab : PhasePair a b) (mid flag : Bool) (X Y : Cursors)
    (w : Nat) (hX : cInv X) (hY : cInv Y) (hstrict : X.cf < X.rf) :
    SafeAll (mkSt a X Y w) (iter2_blk a b mid flag) := by
  obtain ⟨hx1, hx2, hx3, hx4⟩ := hX
  obtain ⟨hy1, hy2, hy3, hy4⟩ := hY
  intro n hn
  have hn' : n ≤ 8 := le_trans hn (by cases mid <;> cases flag <;> simp [iter2_blk])
  clear hn
  interval_cases n <;> cases mid <;> cases flag <;>
    simp [iter2_blk, execOps, execOp, onPhase_mkSt_a a b hab, onPhase_mkSt_b a b hab,
      cursorInv_mkSt, cInv] <;>
    omega

theorem iter4_mid0_run (a b : Nat) (hab : PhasePair a b) (ov : Bool) (X Y : Cursors)
    (w : Nat) :
    execOps (iter4_mid0_blk a b ov) (mkSt a X Y w)
      = mkSt a ⟨X.rf, X.cf + 1, X.sf + 1, X.rb + 1, X.cb + 1, X.sb + 1⟩
          ⟨Y.rf + 1, Y.cf + 1, Y.sf + 2, Y.rb + 1, Y.cb + 1, Y.sb + 1⟩ w := by
  cases ov <;>
    simp [iter4_mid0_blk, fb_blk, execOps, execOp, onPhase_mkSt_a a b hab,
      onPhase_mkSt_b a b hab]

theorem iter4_mid0_safe (a b : Nat) (hab : PhasePair a b) (ov : Bool) (X Y : Cursors)
    (w : Nat) (hX : cInv X) (hY : cInv Y) (hs1 : X.cf < X.rf) (hs2 : Y.sf < Y.cf) :
    SafeAll (mkSt a X Y w) (iter4_mid0_blk a b ov) := by
  obtain ⟨hx1, hx2, hx3, hx4⟩ := hX
  obtain ⟨hy1, hy2, hy3, hy4⟩ := hY
  intro n hn
  have hn' : n ≤ 15 := le_trans hn (by cases ov <;> simp [iter4_mid0_blk, fb_blk])
  clear hn
  interval_cases n <;> cases ov <;>
    simp [iter4_mid0_blk, fb_blk, execOps, execOp, onPhase_mkSt_a a b hab,
      onPhase_mkSt_b a b hab, cursorInv_mkSt, cInv] <;>
    omega

theorem iter4_run (a b : Nat) (hab : PhasePair a b) (ov first : Bool) (X Y : Cursors)
    (w : Nat) :
    execOps (iter4_blk a b ov first) (mkSt a X Y w)
      = mkSt a ⟨X.rf + (if first then 0 else 1), X.cf + 1, X.sf + 1,
            X.rb + 1, X.cb + 1, X.sb + 1⟩
          ⟨Y.rf + 1, Y.cf + 1, Y.sf + 1, Y.rb + 1, Y.cb + 1, Y.sb + 1⟩ w := by
  cases ov <;> cases first <;>
    simp [iter4_blk, fb_blk, execOps, execOp, onPhase_mkSt_a a b hab, onPhase_mkSt_b a b hab]

theorem iter4_safe (a b : Nat) (hab : PhasePair a b) (ov first : Bool) (X Y : Cursors)
    (w : Nat) (hX : cInv X) (hY : cInv Y) (hfirst : first = true → X.cf < X.rf) :
    SafeAll (mkSt a X Y w) (iter4_blk a b ov first) := by
  obtain ⟨hx1, hx2, hx3, hx4⟩ := hX
  obtain ⟨hy1, hy2, hy3, hy4⟩ := hY
  intro n hn
  have hn' : n ≤ 14 := le_trans hn (by cases ov <;> cases first <;> simp [iter4_blk, fb_blk])
  clear hn
  cases first with
  | false =>
    interval_cases n <;> cases ov <;>
      simp [iter4_blk, fb_blk, execOps, execOp, onPhase_mkSt_a a b hab,
        onPhase_mkSt_b a b hab, cursorInv_mkSt, cInv] <;>
      omega
  | true =>
    have hf' := hfirst rfl
    interval_cases n <;> cases ov <;>
      simp [iter4_blk, fb_blk, execOps, execOp, onPhase_mkSt_a a b hab,
        onPhase_mkSt_b a b hab, cursorInv_mkSt, cInv] <;>
      omega

theorem iter5_run (a b : Nat) (hab : PhasePair a b) (ov : Bool) (X Y : Cursors) (w : Nat) :
    execOps (iter5_blk a b ov) (mkSt a X Y w)
      = mkSt a ⟨X.rf, X.cf, X.sf, X.rb + 1, X.cb + 1, X.sb + 1⟩
          ⟨Y.rf + 1, Y.cf + 1, Y.sf + 1, Y.rb + 1, Y.cb + 1, Y.sb + 1⟩ w := by
  cases ov <;>
    simp [iter5_blk, fb_blk, execOps, execOp, onPhase_mkSt_a a b hab, onPhase_mkSt_b a b hab]

theorem iter5_safe (a b : Nat) (hab : PhasePair a b) (ov : Bool) (X Y : Cursors) (w : Nat)
    (hX : cInv X) (hY : cInv Y) :
    SafeAll (mkSt a X Y w) (iter5_blk a b ov) := by
  obtain ⟨hx1, hx2, hx3, hx4⟩ := hX
  obtain ⟨hy1, hy2, hy3, hy4⟩ := hY
  intro n hn
  have hn' : n ≤ 11 := le_trans hn (by cases ov <;> simp [iter5_blk, fb_blk])
  clear hn
  interval_cases n <;> cases ov <;>
    simp [iter5_blk, fb_blk, execOps, execOp, onPhase_mkSt_a a b hab,
      onPhase_mkSt_b a b hab, cursorInv_mkSt, cInv] <;>
    omega

theorem iter6_run (a b : Nat) (hab : PhasePair a b) (z1 z0 : Bool) (X Y : Cursors)
    (w : Nat) :
    execOps (iter6_blk a b z1 z0) (mkSt a X Y w)
      = mkSt a ⟨X.rf, X.cf, X.sf, X.rb + 1, X.cb + 1, X.sb + 1⟩
          ⟨Y.rf, Y.cf, Y.sf, Y.rb + 1, Y.cb + 1, Y.sb + 1⟩
          (w + (if z1 then 1 else 0) + (if z0 then 1 else 0)) := by
  cases z1 <;> cases z0 <;>
    simp [iter6_blk, execOps, execOp, onPhase_mkSt_a a b hab, onPhase_mkSt_b a b hab,
      mkSt_wq, mkSt_set_wq]

theorem iter6_safe (a b : Nat) (hab : PhasePair a b) (z1 z0 : Bool) (X Y : Cursors)
    (w : Nat) (hX : cInv X) (hY : cInv Y) :
    SafeAll (mkSt a X Y w) (iter6_blk a b z1 z0) := by
  obtain ⟨hx1, hx2, hx3, hx4⟩ := hX
  obtain ⟨hy1, hy2, hy3, hy4⟩ := hY
  intro n hn
  have hn' : n ≤ 8 := le_trans hn (by simp [iter6_blk])
  clear hn
  interval_cases n <;> cases z1 <;> cases z0 <;>
    simp [iter6_blk, execOps, execOp, onPhase_mkSt_a a b hab, onPhase_mkSt_b a b hab,
      cursorInv_mkSt, cInv, mkSt_wq, mkSt_set_wq] <;>
    omega

theorem iter7_run (a b : Nat) (hab : PhasePair a b) (X Y : Cursors) (w : Nat) (hw : w ≠ 0) :
    execOps (iter7_blk a) (mkSt a X Y w)
      = mkSt a ⟨X.rf, X.cf, X.sf, X.rb + 1, X.cb + 1, X.sb + 1⟩ Y w := by
  have h1 : execOps (iter7_blk a) (mkSt a X Y w)
      = mkSt a ⟨X.rf, X.cf, X.sf, X.rb + 1, X.cb + 1, X.sb + 1⟩ Y (w - 1 + 1) := by
    simp [iter7_blk, execOps, execOp, onPhase_mkSt_a a b hab, onPhase_mkSt_b a b hab,
      mkSt_wq, mkSt_set_wq, hw]
  rw [h1]
  exact mkSt_congr a rfl rfl (by omega)

theorem iter7_safe (a b : Nat) (hab : PhasePair a b) (X Y : Cursors) (w : Nat)
    (hX : cInv X) (hY : cInv Y) (hw : w ≠ 0) :
    SafeAll (mkSt a X Y w) (iter7_blk a) := by
  obtain ⟨hx1, hx2, hx3, hx4⟩ := hX
  obtain ⟨hy1, hy2, hy3, hy4⟩ := hY
  intro n hn
  have hn' : n ≤ 6 := le_trans hn (by simp [iter7_blk])
  clear hn
  interval_cases n <;>
    simp [iter7_blk, execOps, execOp, onPhase_mkSt_a a b hab, onPhase_mkSt_b a b hab,
      cursorInv_mkSt, cInv, mkSt_wq, mkSt_set_wq, hw] <;>
    omega

theorem iter8_run (a : Nat) (X Y : Cursors) (w : Nat) (hw : w ≠ 0) :
    execOps iter8_blk (mkSt a X Y w) = mkSt a X Y (w - 1) := by
  simp [iter8_blk, execOps, execOp, mkSt_wq, mkSt_set_wq, hw]

theorem iter8_safe (a : Nat) (X Y : Cursors) (w : Nat) (hX : cInv X) (hY : cInv Y)
    (hw : w ≠ 0) :
    SafeAll (mkSt a X Y w) iter8_blk := by
  intro n hn
  have hn' : n ≤ 2 := le_trans hn (by simp [iter8_blk])
  clear hn
  interval_cases n <;>
    simp [iter8_blk, execOps, execOp, cursorInv_mkSt, cInv, mkSt_wq, mkSt_set_wq, hw] <;>
    simp_all [cursorInv_mkSt, cInv]

theorem iter3_fo_run (a b : Nat) (hab : PhasePair a b) (X Y : Cursors) (w : Nat) :
    execOps (iter3_fo_blk b) (mkSt a X Y w)
      = mkSt a X ⟨Y.rf + 1, Y.cf + 1, Y.sf + 1, Y.rb, Y.cb, Y.sb⟩ w := by
  simp [iter3_fo_blk, execOps, execOp, onPhase_mkSt_a a b hab, onPhase_mkSt_b a b hab]

theorem iter3_fo_safe (a b : Nat) (hab : PhasePair a b) (X Y : Cursors) (w : Nat)
    (hX : cInv X) (hY : cInv Y) :
    SafeAll (mkSt a X Y w) (iter3_fo_blk b) := by
  obtain ⟨hx1, hx2, hx3, hx4⟩ := hX
  obtain ⟨hy1, hy2, hy3, hy4⟩ := hY
  intro n hn
  have hn' : n ≤ 5 := le_trans hn (by simp [iter3_fo_blk])
  clear hn
  interval_cases n <;>
    simp [iter3_fo_blk, execOps, execOp, onPhase_mkSt_a a b hab, onPhase_mkSt_b a b hab,
      cursorInv_mkSt, cInv] <;>
    omega

theorem iter4_fo_mid0_run (a b : Nat) (hab : PhasePair a b) (X Y : Cursors) (w : Nat) :
    execOps (iter4_fo_mid0_blk a b) (mkSt a X Y w)
      = mkSt a ⟨X.rf, X.cf + 1, X.sf + 1, X.rb, X.cb, X.sb⟩
          ⟨Y.rf, Y.cf, Y.sf + 1, Y.rb, Y.cb, Y.sb⟩ w := by
  simp [iter4_fo_mid0_blk, execOps, execOp, onPhase_mkSt_a a b hab, onPhase_mkSt_b a b hab]

theorem iter4_fo_mid0_safe (a b : Nat) (hab : PhasePair a b) (X Y : Cursors) (w : Nat)
    (hX : cInv X) (hY : cInv Y) (hs1 : X.cf < X.rf) (hs2 : Y.sf < Y.cf) :
    SafeAll (mkSt a X Y w) (iter4_fo_mid0_blk a b) := by
  obtain ⟨hx1, hx2, hx3, hx4⟩ := hX
  obtain ⟨hy1, hy2, hy3, hy4⟩ := hY
  intro n hn
  have hn' : n ≤ 5 := le_trans hn (by simp [iter4_fo_mid0_blk])
  clear hn
  interval_cases n <;>
    simp [iter4_fo_mid0_blk, execOps, execOp, onPhase_mkSt_a a b hab, onPhase_mkSt_b a b hab,
      cursorInv_mkSt, cInv] <;>
    omega

theorem iter1_bd_run (a b : Nat) (hab : PhasePair a b) (X Y : Cursors) (w : Nat) :
    execOps (iter1_bd_blk a) (mkSt a X Y w)
      = mkSt a ⟨X.rf, X.cf + 1, X.sf + 1, X.rb, X.cb, X.sb⟩ Y w := by
  simp [iter1_bd_blk, execOps, execOp, onPhase_mkSt_a a b hab, onPhase_mkSt_b a b hab]

theorem iter2_bd_run (a b : Nat) (hab : PhasePair a b) (X Y : Cursors) (w : Nat) :
    execOps (iter2_bd_blk a b) (mkSt a X Y w)
      = mkSt a ⟨X.rf, X.cf + 1, X.sf + 1, X.rb, X.cb, X.sb⟩
          ⟨Y.rf + 1, Y.cf + 1, Y.sf, Y.rb, Y.cb, Y.sb⟩ w := by
  simp [iter2_bd_blk, execOps, execOp, onPhase_mkSt_a a b hab, onPhase_mkSt_b a b hab]

theorem iter3_bd_run (a b : Nat) (hab : PhasePair a b) (X Y : Cursors) (w : Nat) :
    execOps (iter3_bd_blk b) (mkSt a X Y w)
      = mkSt a X ⟨Y.rf + 1, Y.cf + 1, Y.sf, Y.rb, Y.cb, Y.sb⟩ w := by
  simp [iter3_bd_blk, execOps, execOp, onPhase_mkSt_a a b hab, onPhase_mkSt_b a b hab]

theorem iter4_bd_run (a b : Nat) (hab : PhasePair a b) (X Y : Cursors) (w : Nat) :
    execOps (iter4_bd_blk a b) (mkSt a X Y w)
      = mkSt a ⟨X.rf, X.cf + 1, X.sf + 1, X.rb, X.cb, X.sb⟩
          ⟨Y.rf + 1, Y.cf + 1, Y.sf, Y.rb, Y.cb, Y.sb⟩ w := by
  simp [iter4_bd_blk, execOps, execOp, onPhase_mkSt_a a b hab, onPhase_mkSt_b a b hab]

/-- An interior rank: neither the first nor the last logical rank, so no
stage of it is a boundary stage and every receive/send guard is open. -/
def Interior (c : Config) : Prop := 0 < c.rank ∧ c.rank + 1 < c.numRanks

theorem interior_first_rank (c : Config) (hi : Interior c) : is_first_rank c = false := by
  obtain ⟨hi1, hi2⟩ := hi
  unfold is_first_rank
  simp only [beq_eq_false_iff_ne, ne_eq]
  omega

theorem interior_last_rank (c : Config) (hi : Interior c) : is_last_rank c = false := by
  obtain ⟨hi1, hi2⟩ := hi
  unfold is_last_rank
  simp only [beq_eq_false_iff_ne, ne_eq]
  omega

theorem interior_first_stage (c : Config) (hi : Interior c) (q : Nat) :
    is_first_stage c q = false := by
  unfold is_first_stage
  rw [interior_first_rank c hi, interior_last_rank c hi]
  rfl

theorem interior_last_stage (c : Config) (hi : Interior c) (q : Nat) :
    is_last_stage c q = false := by
  unfold is_last_stage
  rw [interior_first_rank c hi, interior_last_rank c hi]
  rfl

theorem strip_recv_forward_int (c : Config) (hi : Interior c) (p : Nat) :
    (recv_forward_ops c p).map stripPeers = [Op.recvF (phys_phase c p) none] := by
  simp only [recv_forward_ops, interior_first_stage c hi]
  simp [stripPeers]

theorem strip_send_forward_int (c : Config) (hi : Interior c) (p : Nat) :
    (send_forward_ops c p).map stripPeers = [Op.sendF (phys_phase c p) none] := by
  simp only [send_forward_ops, interior_last_stage c hi]
  simp [stripPeers]

theorem strip_recv_backward_int (c : Config) (hi : Interior c)
    (hfo : c.forwardOnly = false) (p : Nat) :
    (recv_backward_ops c p).map stripPeers = [Op.recvB (phys_phase c p) none] := by
  simp only [recv_backward_ops, interior_last_stage c hi, hfo]
  simp [stripPeers]

theorem strip_send_backward_int (c : Config) (hi : Interior c)
    (hfo : c.forwardOnly = false) (p : Nat) :
    (send_backward_ops c p).map stripPeers = [Op.sendB (phys_phase c p) none] := by
  simp only [send_backward_ops, interior_first_stage c hi, hfo]
  simp [stripPeers]

theorem strip_forward_chunk_int (c : Config) (hi : Interior c) (p : Nat) (r s : Bool) :
    (forward_chunk_ops c p r s).map stripPeers
      = (if r then [Op.recvF (phys_phase c p) none] else [])
        ++ [Op.commit, Op.compF (phys_phase c p)]
        ++ (if s then [Op.sendF (phys_phase c p) none] else []) := by
  unfold forward_chunk_ops forward_compute_ops
  cases r <;> cases s <;>
    simp [strip_recv_forward_int c hi, strip_send_forward_int c hi, stripPeers]

theorem strip_fchunk_int (c : Config) (hi : Interior c) (p : Nat) (r : Bool) :
    (forward_chunk_ops c p r true).map stripPeers = fchunk_blk (phys_phase c p) r := by
  rw [strip_forward_chunk_int c hi p r true]
  cases r <;> simp [fchunk_blk]

theorem strip_backward_chunk_int (c : Config) (hi : Interior c)
    (hfo : c.forwardOnly = false) (p : Nat) (z r s : Bool) :
    (backward_chunk_ops c p z r s).map stripPeers
      = (if r then [Op.recvB (phys_phase c p) none] else [])
        ++ [Op.commit, Op.compB (phys_phase c p) z]
        ++ (if s then [Op.sendB (phys_phase c p) none] else []) := by
  unfold backward_chunk_ops backward_compute_ops
  rw [hfo]
  cases r <;> cases s <;>
    simp [strip_recv_backward_int c hi hfo, strip_send_backward_int c hi hfo, stripPeers]

theorem strip_fb_chunk_int (c : Config) (hi : Interior c) (hfo : c.forwardOnly = false)
    (r0 : Bool) :
    (forward_backward_chunk_ops c 0 1 r0).map stripPeers
      = fb_blk (phys_phase c 0) (phys_phase c 1) c.overlaped r0 := by
  unfold forward_backward_chunk_ops forward_backward_compute_ops forward_compute_ops
    backward_compute_ops fb_blk
  rw [hfo]
  cases hov : c.overlaped <;> cases r0 <;>
    simp [strip_recv_forward_int c hi, strip_send_forward_int c hi,
      strip_recv_backward_int c hi hfo, strip_send_backward_int c hi hfo, stripPeers]

theorem strip_fb_chunk_int_rev (c : Config) (hi : Interior c) (hfo : c.forwardOnly = false)
    (r0 : Bool) :
    (forward_backward_chunk_ops c 1 0 r0).map stripPeers
      = fb_blk (phys_phase c 1) (phys_phase c 0) c.overlaped r0 := by
  unfold forward_backward_chunk_ops forward_backward_compute_ops forward_compute_ops
    backward_compute_ops fb_blk
  rw [hfo]
  cases hov : c.overlaped <;> cases r0 <;>
    simp [strip_recv_forward_int c hi, strip_send_forward_int c hi,
      strip_recv_backward_int c hi hfo, strip_send_backward_int c hi hfo, stripPeers]

theorem strip_weight_chunk (c : Config) (hfo : c.forwardOnly = false) :
    (weight_chunk_ops c).map stripPeers = iter8_blk := by
  unfold weight_chunk_ops iter8_blk
  rw [hfo]
  simp [stripPeers]

/-- The step-4 iteration shapes on an interior rank, by iteration index. -/
def iter4_full_blk (a b : Nat) (ov mid : Bool) (i : Nat) : List Op :=
  if i = 0 then (if mid then iter4_mid0_blk a b ov else iter4_blk a b ov true)
  else iter4_blk a b ov false

/-- The forward-only step-4 iteration shapes on an interior rank. -/
def iter4_fo_full_blk (a b : Nat) (mid : Bool) (i : Nat) : List Op :=
  if i = 0 then
    (if mid then iter4_fo_mid0_blk a b ++ fchunk_blk b true
     else fchunk_blk a false ++ fchunk_blk b true)
  else fchunk_blk a true ++ fchunk_blk b true

theorem strip_step1_int (c : Config) (hi : Interior c) :
    (step1_ops c).map stripPeers
      = (List.range (step_1 c)).flatMap fun _ => fchunk_blk (phys_phase c 0) true := by
  unfold step1_ops
  rw [List.map_flatMap]
  simp [strip_fchunk_int c hi]

theorem strip_step2_iter_int (c : Config) (hi : Interior c) (i : Nat) :
    (step2_iter_ops c i).map stripPeers
      = iter2_blk (phys_phase c 0) (phys_phase c 1) (is_middle_rank c)
          (!is_middle_rank c || decide (i < step_2 c - 1)) := by
  unfold step2_iter_ops iter2_blk
  cases hm : is_middle_rank c <;>
    simp [List.map_append, strip_forward_chunk_int c hi, strip_recv_forward_int c hi,
      strip_send_forward_int c hi, hm]

theorem strip_step2_int (c : Config) (hi : Interior c) :
    (step2_ops c).map stripPeers
      = [Op.recvF (phys_phase c 0) none]
        ++ ((List.range (step_2 c)).flatMap fun i =>
             iter2_blk (phys_phase c 0) (phys_phase c 1) (is_middle_rank c)
               (!is_middle_rank c || decide (i < step_2 c - 1))) := by
  unfold step2_ops
  rw [List.map_append, strip_recv_forward_int c hi, List.map_flatMap]
  simp [strip_step2_iter_int c hi]

theorem strip_step3_int (c : Config) (hi : Interior c) (hfo : c.forwardOnly = false) :
    (step3_ops c).map stripPeers
      = (List.range (step_3 c)).flatMap fun _ => iter3_blk (phys_phase c 1) := by
  unfold step3_ops step3_iter_ops
  rw [List.map_flatMap]
  simp [List.map_append, strip_backward_chunk_int c hi hfo, strip_recv_forward_int c hi,
    strip_weight_chunk c hfo, strip_forward_chunk_int c hi, iter3_blk, iter8_blk]

theorem strip_step4_iter_int (c : Config) (hi : Interior c) (hfo : c.forwardOnly = false)
    (i : Nat) :
    (step4_iter_ops c i).map stripPeers
      = iter4_full_blk (phys_phase c 0) (phys_phase c 1) c.overlaped (is_middle_rank c) i := by
  unfold step4_iter_ops iter4_full_blk iter4_mid0_blk iter4_blk
  by_cases h0 : i = 0 <;> cases hm : is_middle_rank c <;> cases hov : c.overlaped <;>
    simp [h0, hm, hov, List.map_append, strip_forward_chunk_int c hi,
      strip_send_forward_int c hi, strip_backward_chunk_int c hi hfo,
      strip_send_backward_int c hi hfo, strip_fb_chunk_int c hi hfo,
      strip_fb_chunk_int_rev c hi hfo, fb_blk]

theorem strip_step4_int (c : Config) (hi : Interior c) (hfo : c.forwardOnly = false) :
    (step4_ops c).map stripPeers
      = (List.range (step_4 c)).flatMap
          (iter4_full_blk (phys_phase c 0) (phys_phase c 1) c.overlaped (is_middle_rank c)) := by
  unfold step4_ops
  rw [List.map_flatMap]
  simp [strip_step4_iter_int c hi hfo]

theorem strip_step5_int (c : Config) (hi : Interior c) (hfo : c.forwardOnly = false) :
    (step5_ops c).map stripPeers
      = (List.range (step_5 c)).flatMap fun _ =>
          iter5_blk (phys_phase c 0) (phys_phase c 1) c.overlaped := by
  unfold step5_ops step5_iter_ops
  rw [List.map_flatMap]
  simp [List.map_append, strip_backward_chunk_int c hi hfo, strip_fb_chunk_int_rev c hi hfo,
    iter5_blk]

theorem strip_step6_int (c : Config) (hi : Interior c) (hfo : c.forwardOnly = false) :
    (step6_ops c).map stripPeers
      = (List.range (step_6 c)).flatMap fun i =>
          iter6_blk (phys_phase c 0) (phys_phase c 1) (zb1_flag c i) (zb0_flag c i) := by
  rw [step6_ops_eq, List.map_flatMap]
  simp [List.map_append, strip_backward_chunk_int c hi hfo, iter6_blk]

theorem strip_step7_int (c : Config) (hi : Interior c) (hfo : c.forwardOnly = false) :
    (step7_ops c).map stripPeers
      = (List.range (step_7 c)).flatMap fun _ => iter7_blk (phys_phase c 0) := by
  unfold step7_ops step7_iter_ops
  rw [List.map_flatMap]
  simp [List.map_append, strip_weight_chunk c hfo, strip_backward_chunk_int c hi hfo,
    iter7_blk, iter8_blk]

theorem strip_step8_grad (c : Config) (hfo : c.forwardOnly = false) :
    (step8_ops c).map stripPeers
      = (List.range (step_8 c)).flatMap fun _ => iter8_blk := by
  unfold step8_ops
  rw [List.map_flatMap]
  simp [strip_weight_chunk c hfo]

/-- The full stripped schedule of a gradient-tracking step on an interior
rank, phase by phase. -/
theorem strip_sched_int (c : Config) (hi : Interior c) (hfo : c.forwardOnly = false) :
    (sched_ops c).map stripPeers
      = ((List.range (step_1 c)).flatMap fun _ => fchunk_blk (phys_phase c 0) true)
        ++ ([Op.recvF (phys_phase c 0) none]
        ++ ((List.range (step_2 c)).flatMap fun i =>
             iter2_blk (phys_phase c 0) (phys_phase c 1) (is_middle_rank c)
               (!is_middle_rank c || decide (i < step_2 c - 1)))
        ++ (((List.range (step_3 c)).flatMap fun _ => iter3_blk (phys_phase c 1))
        ++ (((List.range (step_4 c)).flatMap
              (iter4_full_blk (phys_phase c 0) (phys_phase c 1) c.overlaped
                (is_middle_rank c)))
        ++ (((List.range (step_5 c)).flatMap fun _ =>
              iter5_blk (phys_phase c 0) (phys_phase c 1) c.overlaped)
        ++ (((List.range (step_6 c)).flatMap fun i =>
              iter6_blk (phys_phase c 0) (phys_phase c 1) (zb1_flag c i) (zb0_flag c i))
        ++ (((List.range (step_7 c)).flatMap fun _ => iter7_blk (phys_phase c 0))
        ++ (((List.range (step_8 c)).flatMap fun _ => iter8_blk)
        ++ [Op.commit]))))))) := by
  unfold sched_ops
  simp only [List.map_append, List.append_assoc]
  rw [strip_step1_int c hi, strip_step2_int c hi, strip_step3_int c hi hfo,
    strip_step4_int c hi hfo, strip_step5_int c hi hfo, strip_step6_int c hi hfo,
    strip_step7_int c hi hfo, strip_step8_grad c hfo]
  simp [stripPeers]

theorem run_safe_append (s s1 s2 : DPState) (l1 l2 : List Op)
    (h1 : execOps l1 s = s1 ∧ SafeAll s l1)
    (h2 : execOps l2 s1 = s2 ∧ SafeAll s1 l2) :
    execOps (l1 ++ l2) s = s2 ∧ SafeAll s (l1 ++ l2) := by
  constructor
  · rw [execOps_append, h1.1, h2.1]
  · exact safeAll_append s l1 l2 h1.2 (by rw [h1.1]; exact h2.2)

theorem loop_run_safe (f : Nat → List Op) (E : Nat → DPState) (n : Nat)
    (hrun : ∀ i, i < n → execOps (f i) (E i) = E (i + 1))
    (hsafe : ∀ i, i < n → SafeAll (E i) (f i))
    (hn : cursorInv (E n)) :
    execOps ((List.range n).flatMap f) (E 0) = E n
      ∧ SafeAll (E 0) ((List.range n).flatMap f) :=
  ⟨loop_run f E n hrun, loop_safe f E n hrun hsafe hn⟩

theorem recvF_a_run (a b : Nat) (hab : PhasePair a b) (X Y : Cursors) (w : Nat) :
    execOps [Op.recvF a none] (mkSt a X Y w)
      = mkSt a ⟨X.rf + 1, X.cf, X.sf, X.rb, X.cb, X.sb⟩ Y w := by
  simp [execOps, execOp, onPhase_mkSt_a a b hab]

theorem recvF_a_safe (a b : Nat) (hab : PhasePair a b) (X Y : Cursors) (w : Nat)
    (hX : cInv X) (hY : cInv Y) :
    SafeAll (mkSt a X Y w) [Op.recvF a none] := by
  apply safeAll_singleton
  · rw [cursorInv_mkSt]; exact ⟨hX, hY⟩
  · have h1 : execOp (mkSt a X Y w) (Op.recvF a none)
        = mkSt a ⟨X.rf + 1, X.cf, X.sf, X.rb, X.cb, X.sb⟩ Y w := by
      have := recvF_a_run a b hab X Y w
      simpa [execOps] using this
    rw [h1, cursorInv_mkSt]
    obtain ⟨ha1, ha2, ha3, ha4⟩ := hX
    refine ⟨?_, hY⟩
    simp [cInv] <;> omega

theorem mkSt_same (a : Nat) (X : Cursors) (w : Nat) :
    mkSt a X X w = ⟨X, X, w, false⟩ := by
  unfold mkSt
  split <;> rfl

theorem run_safe_entry_eq {s s' t t' : DPState} {l : List Op}
    (h : execOps l s' = t' ∧ SafeAll s' l) (hs : s = s') (ht : t' = t) :
    execOps l s = t ∧ SafeAll s l := by
  subst hs
  exact ⟨h.1.trans ht, h.2⟩

theorem commit2_run (s : DPState) : execOps [Op.commit, Op.commit] s = s := rfl

theorem commit2_safe (s : DPState) (h : cursorInv s) : SafeAll s [Op.commit, Op.commit] :=
  safeAll_cons s Op.commit [Op.commit] h (safeAll_singleton _ _ h h)

theorem strip_backward_chunk_fo (c : Config) (hfo : c.forwardOnly = true)
    (p : Nat) (z r s : Bool) :
    (backward_chunk_ops c p z r s).map stripPeers = [Op.commit] := by
  unfold backward_chunk_ops recv_backward_ops send_backward_ops backward_compute_ops
  cases r <;> cases s <;> simp [hfo, stripPeers]

theorem strip_weight_chunk_fo (c : Config) (hfo : c.forwardOnly = true) :
    (weight_chunk_ops c).map stripPeers = [] := by
  unfold weight_chunk_ops
  simp [hfo]

theorem strip_fb_chunk_fo_int (c : Config) (hi : Interior c) (hfo : c.forwardOnly = true)
    (p0 p1 : Nat) (r0 : Bool) :
    (forward_backward_chunk_ops c p0 p1 r0).map stripPeers
      = fchunk_blk (phys_phase c p0) r0 := by
  unfold forward_backward_chunk_ops forward_backward_compute_ops forward_compute_ops
    recv_backward_ops send_backward_ops fchunk_blk
  cases r0 <;>
    simp [hfo, List.map_append, strip_recv_forward_int c hi, strip_send_forward_int c hi,
      stripPeers]

theorem strip_step3_fo_int (c : Config) (hi : Interior c) (hfo : c.forwardOnly = true) :
    (step3_ops c).map stripPeers
      = (List.range (step_3 c)).flatMap fun _ => iter3_fo_blk (phys_phase c 1) := by
  unfold step3_ops step3_iter_ops
  rw [List.map_flatMap]
  simp [List.map_append, strip_backward_chunk_fo c hfo, strip_recv_forward_int c hi,
    strip_weight_chunk_fo c hfo, strip_forward_chunk_int c hi, iter3_fo_blk]

theorem strip_step4_iter_fo_int (c : Config) (hi : Interior c) (hfo : c.forwardOnly = true)
    (i : Nat) :
    (step4_iter_ops c i).map stripPeers
      = iter4_fo_full_blk (phys_phase c 0) (phys_phase c 1) (is_middle_rank c) i := by
  unfold step4_iter_ops iter4_fo_full_blk iter4_fo_mid0_blk
  by_cases h0 : i = 0 <;> cases hm : is_middle_rank c <;>
    simp [h0, hm, List.map_append, strip_forward_chunk_int c hi, strip_send_forward_int c hi,
      strip_backward_chunk_fo c hfo, strip_fb_chunk_fo_int c hi hfo, fchunk_blk,
      send_backward_ops, hfo]

theorem strip_step4_fo_int (c : Config) (hi : Interior c) (hfo : c.forwardOnly = true) :
    (step4_ops c).map stripPeers
      = (List.range (step_4 c)).flatMap
          (iter4_fo_full_blk (phys_phase c 0) (phys_phase c 1) (is_middle_rank c)) := by
  unfold step4_ops
  rw [List.map_flatMap]
  simp [strip_step4_iter_fo_int c hi hfo]

theorem strip_step5_fo_int (c : Config) (hi : Interior c) (hfo : c.forwardOnly = true) :
    (step5_ops c).map stripPeers
      = (List.range (step_5 c)).flatMap fun _ =>
          Op.commit :: fchunk_blk (phys_phase c 1) true := by
  unfold step5_ops step5_iter_ops
  rw [List.map_flatMap]
  simp [List.map_append, strip_backward_chunk_fo c hfo, strip_fb_chunk_fo_int c hi hfo]

theorem strip_step6_fo (c : Config) (hfo : c.forwardOnly = true) :
    (step6_ops c).map stripPeers
      = (List.range (step_6 c)).flatMap fun _ => [Op.commit, Op.commit] := by
  rw [step6_ops_eq, List.map_flatMap]
  simp [List.map_append, strip_backward_chunk_fo c hfo]

theorem strip_step7_fo (c : Config) (hfo : c.forwardOnly = true) :
    (step7_ops c).map stripPeers
      = (List.range (step_7 c)).flatMap fun _ => [Op.commit] := by
  unfold step7_ops step7_iter_ops
  rw [List.map_flatMap]
  simp [List.map_append, strip_weight_chunk_fo c hfo, strip_backward_chunk_fo c hfo]

theorem strip_step8_fo (c : Config) (hfo : c.forwardOnly = true) :
    (step8_ops c).map stripPeers = [] := by
  unfold step8_ops
  rw [List.map_flatMap]
  simp [strip_weight_chunk_fo c hfo, flatMap_const_nil]

/-- The full cursor trajectory of a gradient-tracking `step()` on an
interior rank: the `send ≤ compute ≤ recv` invariant holds after every
prefix of the schedule, and at the end all twelve cursors equal
`numChunks/2`, the weight-gradient queue is empty and no pop ever found it
empty. -/
theorem interior_grad_master (c : Config) (hi : Interior c)
    (hev : c.numRanks % 2 = 0) (hge : c.numRanks * 2 ≤ c.numChunks)
    (hfo : c.forwardOnly = false) :
    SafeAll resetState (sched_ops c)
    ∧ execOps (sched_ops c) resetState
        = ⟨⟨half_num_chunks c, half_num_chunks c, half_num_chunks c, half_num_chunks c,
            half_num_chunks c, half_num_chunks c⟩,
           ⟨half_num_chunks c, half_num_chunks c, half_num_chunks c, half_num_chunks c,
            half_num_chunks c, half_num_chunks c⟩, 0, false⟩ := by
  have hmain : execOps ((sched_ops c).map stripPeers) resetState
      = ⟨⟨half_num_chunks c, half_num_chunks c, half_num_chunks c, half_num_chunks c,
          half_num_chunks c, half_num_chunks c⟩,
         ⟨half_num_chunks c, half_num_chunks c, half_num_chunks c, half_num_chunks c,
          half_num_chunks c, half_num_chunks c⟩, 0, false⟩
      ∧ SafeAll resetState ((sched_ops c).map stripPeers) := by
    rw [strip_sched_int c hi hfo]
    have hab : PhasePair (phys_phase c 0) (phys_phase c 1) := phys_phase_pair c
    set a := phys_phase c 0
    set b := phys_phase c 1
    set H := num_half_ranks c with hH0
    set h := half_rank c with hh0
    set K := half_num_chunks c with hK0
    set mid := is_middle_rank c with hmid0
    have hH : h + 1 ≤ H := by
      rw [hH0, hh0]
      unfold half_rank num_half_ranks
      obtain ⟨hi1, hi2⟩ := hi
      rw [Nat.min_def]
      split_ifs <;> omega
    have hK : 2 * H ≤ K := by
      rw [hH0, hK0]
      unfold num_half_ranks half_num_chunks
      omega
    have hs1 : step_1 c = (H - h - 1) * 2 := rfl
    have hs2 : step_2 c = h + 1 := rfl
    have hs3 : step_3 c = H - h - 1 := rfl
    have hs4 : step_4 c = K - 2 * H + h + 1 := by
      show half_num_chunks c - c.numRanks + half_rank c + 1 = K - 2 * H + h + 1
      rw [← hh0, ← hK0]
      have : c.numRanks = 2 * H := by rw [hH0]; unfold num_half_ranks; omega
      rw [this]
    have hs5 : step_5 c = H - h - 1 := rfl
    have hs6 : step_6 c = h + 1 := rfl
    have hs7 : step_7 c = H - h - 1 := rfl
    have hs8 : step_8 c = h + 1 := rfl
    set S1 : Nat := (H - h - 1) * 2 with hS1v
    set S3 : Nat := H - h - 1 with hS3v
    set S4 : Nat := K - 2 * H + h + 1 with hS4v
    set m01 : Nat := if mid = true then 1 else 0 with hm01
    have hm01le : m01 ≤ 1 := by rw [hm01]; split_ifs <;> omega
    -- phase 1: nF0 warm-up
    have h1 : execOps ((List.range (step_1 c)).flatMap fun _ => fchunk_blk a true) resetState
          = mkSt a ⟨S1, S1, S1, 0, 0, 0⟩ zeroCursors 0
        ∧ SafeAll resetState ((List.range (step_1 c)).flatMap fun _ => fchunk_blk a true) := by
      refine run_safe_entry_eq
        (loop_run_safe _ (fun i => mkSt a ⟨i, i, i, 0, 0, 0⟩ zeroCursors 0) (step_1 c)
          (fun i _ => by
            rw [fchunk_run_a a b hab]
            exact mkSt_congr a (by simp) rfl rfl)
          (fun i _ => fchunk_safe_a a b hab true _ _ _ (by simp [cInv])
            (by simp [cInv, zeroCursors]) (by simp))
          (by rw [cursorInv_mkSt]; exact ⟨by simp [cInv], by simp [cInv, zeroCursors]⟩))
        (mkSt_reset a).symm ?_
      refine mkSt_congr a ?_ rfl rfl
      rw [hs1]
    -- the lone receive before the step-2 loop
    have h1r : execOps [Op.recvF a none] (mkSt a ⟨S1, S1, S1, 0, 0, 0⟩ zeroCursors 0)
          = mkSt a ⟨S1 + 1, S1, S1, 0, 0, 0⟩ zeroCursors 0
        ∧ SafeAll (mkSt a ⟨S1, S1, S1, 0, 0, 0⟩ zeroCursors 0) [Op.recvF a none] := by
      constructor
      · rw [recvF_a_run a b hab]
      · exact recvF_a_safe a b hab _ _ _ (by simp [cInv]) (by simp [cInv, zeroCursors])
    -- phase 2: nF0F1
    have h2 : execOps ((List.range (step_2 c)).flatMap fun i =>
            iter2_blk a b mid (!mid || decide (i < step_2 c - 1)))
          (mkSt a ⟨S1 + 1, S1, S1, 0, 0, 0⟩ zeroCursors 0)
          = mkSt a ⟨S1 + (h + 1) + 1, S1 + (h + 1), S1 + (h + 1), 0, 0, 0⟩
              ⟨h + 1, h + 1, h + 1 - m01, 0, 0, 0⟩ 0
        ∧ SafeAll (mkSt a ⟨S1 + 1, S1, S1, 0, 0, 0⟩ zeroCursors 0)
          ((List.range (step_2 c)).flatMap fun i =>
            iter2_blk a b mid (!mid || decide (i < step_2 c - 1))) := by
      refine run_safe_entry_eq
        (loop_run_safe _
          (fun i => mkSt a ⟨S1 + 1 + i, S1 + i, S1 + i, 0, 0, 0⟩
            ⟨i, i, i - (if mid = true ∧ i = h + 1 then 1 else 0), 0, 0, 0⟩ 0)
          (step_2 c)
          (fun i hilt => by
            rw [iter2_run a b hab]
            rw [hs2] at hilt
            refine mkSt_congr a (by simp [Cursors.mk.injEq, zeroCursors] <;> first | omega | (split_ifs <;> omega)) ?_ rfl
            simp only [Cursors.mk.injEq, hs2]
            cases hmc : mid <;> simp [hmc, decide_eq_true_eq] <;>
              first | omega | (split_ifs <;> omega))
          (fun i hilt => by
            refine iter2_safe a b hab mid _ _ _ _ ?_ ?_ (by simp)
            · simp [cInv]
            · simp [cInv] <;> first | omega | (split_ifs <;> omega))
          (by
            rw [cursorInv_mkSt]
            refine ⟨by simp [cInv], ?_⟩
            simp [cInv] <;> first | omega | (split_ifs <;> omega)))
        ?_ ?_
      · refine mkSt_congr a (by simp [Cursors.mk.injEq, zeroCursors] <;> first | omega | (split_ifs <;> omega)) ?_ rfl
        simp [Cursors.mk.injEq, zeroCursors] <;> first | omega | (split_ifs <;> omega)
      · rw [hs2]
        refine mkSt_congr a (by simp [Cursors.mk.injEq, zeroCursors] <;> first | omega | (split_ifs <;> omega)) ?_ rfl
        simp [Cursors.mk.injEq, hm01] <;> first | omega | (split_ifs <;> omega)
    -- phase 3: nB1W1F1
    have h3 : execOps ((List.range (step_3 c)).flatMap fun _ => iter3_blk b)
          (mkSt a ⟨S1 + (h + 1) + 1, S1 + (h + 1), S1 + (h + 1), 0, 0, 0⟩
            ⟨h + 1, h + 1, h + 1 - m01, 0, 0, 0⟩ 0)
          = mkSt a ⟨S1 + (h + 1) + 1, S1 + (h + 1), S1 + (h + 1), 0, 0, 0⟩
              ⟨h + 1 + S3, h + 1 + S3, h + 1 - m01 + S3, S3, S3, S3⟩ 0
        ∧ SafeAll (mkSt a ⟨S1 + (h + 1) + 1, S1 + (h + 1), S1 + (h + 1), 0, 0, 0⟩
            ⟨h + 1, h + 1, h + 1 - m01, 0, 0, 0⟩ 0)
          ((List.range (step_3 c)).flatMap fun _ => iter3_blk b) := by
      refine run_safe_entry_eq
        (loop_run_safe _
          (fun i => mkSt a ⟨S1 + (h + 1) + 1, S1 + (h + 1), S1 + (h + 1), 0, 0, 0⟩
            ⟨h + 1 + i, h + 1 + i, h + 1 - m01 + i, i, i, i⟩ 0)
          (step_3 c)
          (fun i hilt => by
            rw [iter3_run a b hab]
            exact mkSt_congr a rfl (by simp [Cursors.mk.injEq, zeroCursors] <;> first | omega | (split_ifs <;> omega)) rfl)
          (fun i hilt =>
            iter3_safe a b hab _ _ _ (by simp [cInv])
              (by simp [cInv] <;> omega))
          (by
            rw [cursorInv_mkSt]
            exact ⟨by simp [cInv], by simp [cInv] <;> omega⟩))
        ?_ ?_
      · exact mkSt_congr a rfl (by simp [Cursors.mk.injEq, zeroCursors] <;> first | omega | (split_ifs <;> omega)) rfl
      · rw [hs3]
    -- phase 4: nF0B1F1B0
    have h4 : execOps ((List.range (step_4 c)).flatMap (iter4_full_blk a b c.overlaped mid))
          (mkSt a ⟨S1 + (h + 1) + 1, S1 + (h + 1), S1 + (h + 1), 0, 0, 0⟩
            ⟨h + 1 + S3, h + 1 + S3, h + 1 - m01 + S3, S3, S3, S3⟩ 0)
          = mkSt a ⟨S1 + (h + 1) + S4, S1 + (h + 1) + S4, S1 + (h + 1) + S4, S4, S4, S4⟩
              ⟨h + 1 + S3 + S4, h + 1 + S3 + S4, h + 1 + S3 + S4, S3 + S4, S3 + S4, S3 + S4⟩ 0
        ∧ SafeAll (mkSt a ⟨S1 + (h + 1) + 1, S1 + (h + 1), S1 + (h + 1), 0, 0, 0⟩
            ⟨h + 1 + S3, h + 1 + S3, h + 1 - m01 + S3, S3, S3, S3⟩ 0)
          ((List.range (step_4 c)).flatMap (iter4_full_blk a b c.overlaped mid)) := by
      have hS4pos : 1 ≤ S4 := by omega
      refine run_safe_entry_eq
        (loop_run_safe _
          (fun i => mkSt a
            ⟨S1 + (h + 1) + max 1 i, S1 + (h + 1) + i, S1 + (h + 1) + i, i, i, i⟩
            ⟨h + 1 + S3 + i, h + 1 + S3 + i,
              h + 1 + S3 + i - (if mid = true ∧ i = 0 then 1 else 0), S3 + i, S3 + i, S3 + i⟩
            0)
          (step_4 c)
          (fun i hilt => by
            by_cases hi0 : i = 0
            · subst hi0
              cases hmc : mid with
              | true =>
                have hblk : iter4_full_blk a b c.overlaped true 0
                    = iter4_mid0_blk a b c.overlaped := by
                  simp [iter4_full_blk]
                rw [hblk, iter4_mid0_run a b hab]
                refine mkSt_congr a
                  (by simp [Cursors.mk.injEq, zeroCursors] <;> first | omega | (split_ifs <;> omega)) ?_ rfl
                simp [hmc, Cursors.mk.injEq] <;> first | omega | (split_ifs <;> omega)
              | false =>
                have hblk : iter4_full_blk a b c.overlaped false 0
                    = iter4_blk a b c.overlaped true := by
                  simp [iter4_full_blk]
                rw [hblk, iter4_run a b hab]
                refine mkSt_congr a
                  (by simp [Cursors.mk.injEq, zeroCursors] <;> first | omega | (split_ifs <;> omega)) ?_ rfl
                simp [hmc, Cursors.mk.injEq] <;> first | omega | (split_ifs <;> omega)
            · have hblk : iter4_full_blk a b c.overlaped mid i
                  = iter4_blk a b c.overlaped false := by
                simp [iter4_full_blk, hi0]
              rw [hblk, iter4_run a b hab]
              refine mkSt_congr a
                (by simp [Cursors.mk.injEq, zeroCursors] <;> first | omega | (split_ifs <;> omega)) ?_ rfl
              simp [hi0, Cursors.mk.injEq] <;> first | omega | (split_ifs <;> omega))
          (fun i hilt => by
            by_cases hi0 : i = 0
            · subst hi0
              cases hmc : mid with
              | true =>
                have hblk : iter4_full_blk a b c.overlaped true 0
                    = iter4_mid0_blk a b c.overlaped := by
                  simp [iter4_full_blk]
                rw [hblk]
                refine iter4_mid0_safe a b hab _ _ _ _ ?_ ?_ (by simp <;> omega) ?_
                · simp [cInv] <;> omega
                · simp [cInv] <;> first | omega | (split_ifs <;> omega)
                · simp [hmc] <;> first | omega | (split_ifs <;> omega)
              | false =>
                have hblk : iter4_full_blk a b c.overlaped false 0
                    = iter4_blk a b c.overlaped true := by
                  simp [iter4_full_blk]
                rw [hblk]
                refine iter4_safe a b hab _ true _ _ _ ?_ ?_ ?_
                · simp [cInv] <;> omega
                · simp [cInv] <;> first | omega | (split_ifs <;> omega)
                · intro _
                  simp <;> omega
            · have hblk : iter4_full_blk a b c.overlaped mid i
                  = iter4_blk a b c.overlaped false := by
                simp [iter4_full_blk, hi0]
              rw [hblk]
              refine iter4_safe a b hab _ false _ _ _ ?_ ?_ ?_
              · simp [cInv] <;> omega
              · simp [cInv] <;> first | omega | (split_ifs <;> omega)
              · intro hcon
                exact absurd hcon (by simp))
          (by
            rw [cursorInv_mkSt]
            refine ⟨by simp [cInv] <;> omega, ?_⟩
            simp [cInv] <;> first | omega | (split_ifs <;> omega)))
        ?_ ?_
      · refine mkSt_congr a (by simp [Cursors.mk.injEq, zeroCursors] <;> first | omega | (split_ifs <;> omega)) ?_ rfl
        simp [Cursors.mk.injEq, hm01] <;> first | omega | (split_ifs <;> omega)
      · rw [hs4]
        refine mkSt_congr a (by simp [Cursors.mk.injEq, zeroCursors] <;> first | omega | (split_ifs <;> omega)) ?_ rfl
        simp [Cursors.mk.injEq] <;> first | omega | (split_ifs <;> omega)
    -- phase 5: nB1F1B0
    have h5 : execOps ((List.range (step_5 c)).flatMap fun _ => iter5_blk a b c.overlaped)
          (mkSt a ⟨S1 + (h + 1) + S4, S1 + (h + 1) + S4, S1 + (h + 1) + S4, S4, S4, S4⟩
            ⟨h + 1 + S3 + S4, h + 1 + S3 + S4, h + 1 + S3 + S4, S3 + S4, S3 + S4, S3 + S4⟩ 0)
          = mkSt a ⟨S1 + (h + 1) + S4, S1 + (h + 1) + S4, S1 + (h + 1) + S4,
              S4 + S3, S4 + S3, S4 + S3⟩
              ⟨h + 1 + S3 + S4 + S3, h + 1 + S3 + S4 + S3, h + 1 + S3 + S4 + S3,
                S3 + S4 + S3, S3 + S4 + S3, S3 + S4 + S3⟩ 0
        ∧ SafeAll (mkSt a ⟨S1 + (h + 1) + S4, S1 + (h + 1) + S4, S1 + (h + 1) + S4,
              S4, S4, S4⟩
            ⟨h + 1 + S3 + S4, h + 1 + S3 + S4, h + 1 + S3 + S4, S3 + S4, S3 + S4, S3 + S4⟩ 0)
          ((List.range (step_5 c)).flatMap fun _ => iter5_blk a b c.overlaped) := by
      refine run_safe_entry_eq
        (loop_run_safe _
          (fun i => mkSt a ⟨S1 + (h + 1) + S4, S1 + (h + 1) + S4, S1 + (h + 1) + S4,
              S4 + i, S4 + i, S4 + i⟩
            ⟨h + 1 + S3 + S4 + i, h + 1 + S3 + S4 + i, h + 1 + S3 + S4 + i,
              S3 + S4 + i, S3 + S4 + i, S3 + S4 + i⟩ 0)
          (step_5 c)
          (fun i hilt => by
            rw [iter5_run a b hab]
            exact mkSt_congr a (by simp [Cursors.mk.injEq, zeroCursors] <;> first | omega | (split_ifs <;> omega))
              (by simp [Cursors.mk.injEq, zeroCursors] <;> first | omega | (split_ifs <;> omega)) rfl)
          (fun i hilt =>
            iter5_safe a b hab _ _ _ _ (by simp [cInv] <;> omega) (by simp [cInv] <;> omega))
          (by
            rw [cursorInv_mkSt]
            exact ⟨by simp [cInv] <;> omega, by simp [cInv] <;> omega⟩))
        ?_ ?_
      · exact mkSt_congr a (by simp [Cursors.mk.injEq, zeroCursors] <;> first | omega | (split_ifs <;> omega))
          (by simp [Cursors.mk.injEq, zeroCursors] <;> first | omega | (split_ifs <;> omega)) rfl
      · rw [hs5]
    -- phase 6: nB1B0 with the zero-bubble toggle
    have h6 : execOps ((List.range (step_6 c)).flatMap fun i =>
            iter6_blk a b (zb1_flag c i) (zb0_flag c i))
          (mkSt a ⟨S1 + (h + 1) + S4, S1 + (h + 1) + S4, S1 + (h + 1) + S4,
              S4 + S3, S4 + S3, S4 + S3⟩
            ⟨h + 1 + S3 + S4 + S3, h + 1 + S3 + S4 + S3, h + 1 + S3 + S4 + S3,
              S3 + S4 + S3, S3 + S4 + S3, S3 + S4 + S3⟩ 0)
          = mkSt a ⟨S1 + (h + 1) + S4, S1 + (h + 1) + S4, S1 + (h + 1) + S4,
              S4 + S3 + (h + 1), S4 + S3 + (h + 1), S4 + S3 + (h + 1)⟩
              ⟨h + 1 + S3 + S4 + S3, h + 1 + S3 + S4 + S3, h + 1 + S3 + S4 + S3,
                S3 + S4 + S3 + (h + 1), S3 + S4 + S3 + (h + 1), S3 + S4 + S3 + (h + 1)⟩
              (h + 1)
        ∧ SafeAll (mkSt a ⟨S1 + (h + 1) + S4, S1 + (h + 1) + S4, S1 + (h + 1) + S4,
              S4 + S3, S4 + S3, S4 + S3⟩
            ⟨h + 1 + S3 + S4 + S3, h + 1 + S3 + S4 + S3, h + 1 + S3 + S4 + S3,
              S3 + S4 + S3, S3 + S4 + S3, S3 + S4 + S3⟩ 0)
          ((List.range (step_6 c)).flatMap fun i =>
            iter6_blk a b (zb1_flag c i) (zb0_flag c i)) := by
      refine run_safe_entry_eq
        (loop_run_safe _
          (fun i => mkSt a ⟨S1 + (h + 1) + S4, S1 + (h + 1) + S4, S1 + (h + 1) + S4,
              S4 + S3 + i, S4 + S3 + i, S4 + S3 + i⟩
            ⟨h + 1 + S3 + S4 + S3, h + 1 + S3 + S4 + S3, h + 1 + S3 + S4 + S3,
              S3 + S4 + S3 + i, S3 + S4 + S3 + i, S3 + S4 + S3 + i⟩ (2 * i - (h + 1)))
          (step_6 c)
          (fun i hilt => by
            rw [iter6_run a b hab]
            rw [hs6] at hilt
            refine mkSt_congr a (by simp [Cursors.mk.injEq, zeroCursors] <;> first | omega | (split_ifs <;> omega))
              (by simp [Cursors.mk.injEq, zeroCursors] <;> first | omega | (split_ifs <;> omega)) ?_
            have hs6d : step_6 c = h + 1 := hs6
            simp only [zb1_flag, zb0_flag, hs6d, decide_eq_true_eq]
            split_ifs <;> omega)
          (fun i hilt =>
            iter6_safe a b hab _ _ _ _ _ (by simp [cInv] <;> omega)
              (by simp [cInv] <;> omega))
          (by
            rw [cursorInv_mkSt]
            exact ⟨by simp [cInv] <;> omega, by simp [cInv] <;> omega⟩))
        ?_ ?_
      · exact mkSt_congr a (by simp [Cursors.mk.injEq, zeroCursors] <;> first | omega | (split_ifs <;> omega))
          (by simp [Cursors.mk.injEq, zeroCursors] <;> first | omega | (split_ifs <;> omega)) (by omega)
      · rw [hs6]
        exact mkSt_congr a (by simp [Cursors.mk.injEq, zeroCursors] <;> first | omega | (split_ifs <;> omega))
          (by simp [Cursors.mk.injEq, zeroCursors] <;> first | omega | (split_ifs <;> omega)) (by omega)
    -- phase 7: nWB0
    have h7 : execOps ((List.range (step_7 c)).flatMap fun _ => iter7_blk a)
          (mkSt a ⟨S1 + (h + 1) + S4, S1 + (h + 1) + S4, S1 + (h + 1) + S4,
              S4 + S3 + (h + 1), S4 + S3 + (h + 1), S4 + S3 + (h + 1)⟩
            ⟨h + 1 + S3 + S4 + S3, h + 1 + S3 + S4 + S3, h + 1 + S3 + S4 + S3,
              S3 + S4 + S3 + (h + 1), S3 + S4 + S3 + (h + 1), S3 + S4 + S3 + (h + 1)⟩
            (h + 1))
          = mkSt a ⟨S1 + (h + 1) + S4, S1 + (h + 1) + S4, S1 + (h + 1) + S4,
              S4 + S3 + (h + 1) + S3, S4 + S3 + (h + 1) + S3, S4 + S3 + (h + 1) + S3⟩
              ⟨h + 1 + S3 + S4 + S3, h + 1 + S3 + S4 + S3, h + 1 + S3 + S4 + S3,
                S3 + S4 + S3 + (h + 1), S3 + S4 + S3 + (h + 1), S3 + S4 + S3 + (h + 1)⟩
              (h + 1)
        ∧ SafeAll (mkSt a ⟨S1 + (h + 1) + S4, S1 + (h + 1) + S4, S1 + (h + 1) + S4,
              S4 + S3 + (h + 1), S4 + S3 + (h + 1), S4 + S3 + (h + 1)⟩
            ⟨h + 1 + S3 + S4 + S3, h + 1 + S3 + S4 + S3, h + 1 + S3 + S4 + S3,
              S3 + S4 + S3 + (h + 1), S3 + S4 + S3 + (h + 1), S3 + S4 + S3 + (h + 1)⟩
            (h + 1))
          ((List.range (step_7 c)).flatMap fun _ => iter7_blk a) := by
      refine run_safe_entry_eq
        (loop_run_safe _
          (fun i => mkSt a ⟨S1 + (h + 1) + S4, S1 + (h + 1) + S4, S1 + (h + 1) + S4,
              S4 + S3 + (h + 1) + i, S4 + S3 + (h + 1) + i, S4 + S3 + (h + 1) + i⟩
            ⟨h + 1 + S3 + S4 + S3, h + 1 + S3 + S4 + S3, h + 1 + S3 + S4 + S3,
              S3 + S4 + S3 + (h + 1), S3 + S4 + S3 + (h + 1), S3 + S4 + S3 + (h + 1)⟩
            (h + 1))
          (step_7 c)
          (fun i hilt => by
            rw [iter7_run a b hab _ _ _ (Nat.succ_ne_zero h)]
            exact mkSt_congr a (by simp [Cursors.mk.injEq, zeroCursors] <;> first | omega | (split_ifs <;> omega)) rfl rfl)
          (fun i hilt =>
            iter7_safe a b hab _ _ _ (by simp [cInv] <;> omega)
              (by simp [cInv] <;> omega) (Nat.succ_ne_zero h))
          (by
            rw [cursorInv_mkSt]
            exact ⟨by simp [cInv] <;> omega, by simp [cInv] <;> omega⟩))
        ?_ ?_
      · exact mkSt_congr a (by simp [Cursors.mk.injEq, zeroCursors] <;> first | omega | (split_ifs <;> omega)) rfl rfl
      · rw [hs7]
    -- phase 8: nW
    have h8 : execOps ((List.range (step_8 c)).flatMap fun _ => iter8_blk)
          (mkSt a ⟨S1 + (h + 1) + S4, S1 + (h + 1) + S4, S1 + (h + 1) + S4,
              S4 + S3 + (h + 1) + S3, S4 + S3 + (h + 1) + S3, S4 + S3 + (h + 1) + S3⟩
            ⟨h + 1 + S3 + S4 + S3, h + 1 + S3 + S4 + S3, h + 1 + S3 + S4 + S3,
              S3 + S4 + S3 + (h + 1), S3 + S4 + S3 + (h + 1), S3 + S4 + S3 + (h + 1)⟩
            (h + 1))
          = mkSt a ⟨K, K, K, K, K, K⟩ ⟨K, K, K, K, K, K⟩ 0
        ∧ SafeAll (mkSt a ⟨S1 + (h + 1) + S4, S1 + (h + 1) + S4, S1 + (h + 1) + S4,
              S4 + S3 + (h + 1) + S3, S4 + S3 + (h + 1) + S3, S4 + S3 + (h + 1) + S3⟩
            ⟨h + 1 + S3 + S4 + S3, h + 1 + S3 + S4 + S3, h + 1 + S3 + S4 + S3,
              S3 + S4 + S3 + (h + 1), S3 + S4 + S3 + (h + 1), S3 + S4 + S3 + (h + 1)⟩
            (h + 1))
          ((List.range (step_8 c)).flatMap fun _ => iter8_blk) := by
      refine run_safe_entry_eq
        (loop_run_safe _
          (fun i => mkSt a ⟨S1 + (h + 1) + S4, S1 + (h + 1) + S4, S1 + (h + 1) + S4,
              S4 + S3 + (h + 1) + S3, S4 + S3 + (h + 1) + S3, S4 + S3 + (h + 1) + S3⟩
            ⟨h + 1 + S3 + S4 + S3, h + 1 + S3 + S4 + S3, h + 1 + S3 + S4 + S3,
              S3 + S4 + S3 + (h + 1), S3 + S4 + S3 + (h + 1), S3 + S4 + S3 + (h + 1)⟩
            (h + 1 - i))
          (step_8 c)
          (fun i hilt => by
            rw [hs8] at hilt
            rw [iter8_run a _ _ _ (by omega)]
            exact mkSt_congr a rfl rfl (by omega))
          (fun i hilt => by
            rw [hs8] at hilt
            exact iter8_safe a _ _ _ (by simp [cInv] <;> omega)
              (by simp [cInv] <;> omega) (by omega))
          (by
            rw [cursorInv_mkSt]
            exact ⟨by simp [cInv] <;> omega, by simp [cInv] <;> omega⟩))
        ?_ ?_
      · exact mkSt_congr a rfl rfl (by omega)
      · rw [hs8]
        exact mkSt_congr a (by simp [Cursors.mk.injEq, zeroCursors] <;> first | omega | (split_ifs <;> omega))
          (by simp [Cursors.mk.injEq, zeroCursors] <;> first | omega | (split_ifs <;> omega)) (by omega)
    -- final commit
    have hcommit : execOps [Op.commit] (mkSt a ⟨K, K, K, K, K, K⟩ ⟨K, K, K, K, K, K⟩ 0)
          = (⟨⟨K, K, K, K, K, K⟩, ⟨K, K, K, K, K, K⟩, 0, false⟩ : DPState)
        ∧ SafeAll (mkSt a ⟨K, K, K, K, K, K⟩ ⟨K, K, K, K, K, K⟩ 0) [Op.commit] := by
      constructor
      · rw [commit_run, mkSt_same]
      · exact commit_safe _ (by rw [cursorInv_mkSt]; exact ⟨by simp [cInv], by simp [cInv]⟩)
    have hall := run_safe_append _ _ _ _ _ h1 (run_safe_append _ _ _ _ _ h1r
      (run_safe_append _ _ _ _ _ h2 (run_safe_append _ _ _ _ _ h3
      (run_safe_append _ _ _ _ _ h4 (run_safe_append _ _ _ _ _ h5
      (run_safe_append _ _ _ _ _ h6 (run_safe_append _ _ _ _ _ h7
      (run_safe_append _ _ _ _ _ h8 hcommit))))))))
    exact ⟨hall.1, hall.2⟩
  constructor
  · rw [← safeAll_strip]
    exact hmain.2
  · rw [← execOps_strip]
    exact hmain.1

/-- The full stripped schedule of a forward-only step on an interior rank. -/
theorem strip_sched_fo_int (c : Config) (hi : Interior c) (hfo : c.forwardOnly = true) :
    (sched_ops c).map stripPeers
      = ((List.range (step_1 c)).flatMap fun _ => fchunk_blk (phys_phase c 0) true)
        ++ ([Op.recvF (phys_phase c 0) none]
        ++ ((List.range (step_2 c)).flatMap fun i =>
             iter2_blk (phys_phase c 0) (phys_phase c 1) (is_middle_rank c)
               (!is_middle_rank c || decide (i < step_2 c - 1)))
        ++ (((List.range (step_3 c)).flatMap fun _ => iter3_fo_blk (phys_phase c 1))
        ++ (((List.range (step_4 c)).flatMap
              (iter4_fo_full_blk (phys_phase c 0) (phys_phase c 1) (is_middle_rank c)))
        ++ (((List.range (step_5 c)).flatMap fun _ =>
              Op.commit :: fchunk_blk (phys_phase c 1) true)
        ++ (((List.range (step_6 c)).flatMap fun _ => [Op.commit, Op.commit])
        ++ (((List.range (step_7 c)).flatMap fun _ => [Op.commit])
        ++ [Op.commit])))))) := by
  unfold sched_ops
  simp only [List.map_append, List.append_assoc]
  rw [strip_step1_int c hi, strip_step2_int c hi, strip_step3_fo_int c hi hfo,
    strip_step4_fo_int c hi hfo, strip_step5_fo_int c hi hfo, strip_step6_fo c hfo,
    strip_step7_fo c hfo, strip_step8_fo c hfo]
  simp [stripPeers]

/-- The full cursor trajectory of a forward-only `step()` on an interior
rank: the invariant holds throughout, the six forward cursors reach
`numChunks/2` and the six backward cursors stay zero. -/
theorem interior_fo_master (c : Config) (hi : Interior c)
    (hev : c.numRanks % 2 = 0) (hge : c.numRanks * 2 ≤ c.numChunks)
    (hfo : c.forwardOnly = true) :
    SafeAll resetState (sched_ops c)
    ∧ execOps (sched_ops c) resetState
        = ⟨⟨half_num_chunks c, half_num_chunks c, half_num_chunks c, 0, 0, 0⟩,
           ⟨half_num_chunks c, half_num_chunks c, half_num_chunks c, 0, 0, 0⟩, 0, false⟩ := by
  have hmain : execOps ((sched_ops c).map stripPeers) resetState
      = ⟨⟨half_num_chunks c, half_num_chunks c, half_num_chunks c, 0, 0, 0⟩,
         ⟨half_num_chunks c, half_num_chunks c, half_num_chunks c, 0, 0, 0⟩, 0, false⟩
      ∧ SafeAll resetState ((sched_ops c).map stripPeers) := by
    rw [strip_sched_fo_int c hi hfo]
    have hab : PhasePair (phys_phase c 0) (phys_phase c 1) := phys_phase_pair c
    set a := phys_phase c 0
    set b := phys_phase c 1
    set H := num_half_ranks c with hH0
    set h := half_rank c with hh0
    set K := half_num_chunks c with hK0
    set mid := is_middle_rank c with hmid0
    have hH : h + 1 ≤ H := by
      rw [hH0, hh0]
      unfold half_rank num_half_ranks
      obtain ⟨hi1, hi2⟩ := hi
      rw [Nat.min_def]
      split_ifs <;> omega
    have hK : 2 * H ≤ K := by
      rw [hH0, hK0]
      unfold num_half_ranks half_num_chunks
      omega
    set S1 : Nat := (H - h - 1) * 2 with hS1v
    set S3 : Nat := H - h - 1 with hS3v
    set S4 : Nat := K - 2 * H + h + 1 with hS4v
    set m01 : Nat := if mid = true then 1 else 0 with hm01
    have hm01le : m01 ≤ 1 := by rw [hm01]; split_ifs <;> omega
    have hs1 : step_1 c = S1 := rfl
    have hs2 : step_2 c = h + 1 := rfl
    have hs3 : step_3 c = S3 := rfl
    have hs4 : step_4 c = S4 := by
      show half_num_chunks c - c.numRanks + half_rank c + 1 = S4
      rw [hS4v, ← hh0, ← hK0]
      have hn2 : c.numRanks = 2 * H := by rw [hH0]; unfold num_half_ranks; omega
      rw [hn2]
    have hs5 : step_5 c = S3 := rfl
    have hs7 : step_7 c = S3 := rfl
    -- phase 1
    have h1 : execOps ((List.range (step_1 c)).flatMap fun _ => fchunk_blk a true) resetState
          = mkSt a ⟨S1, S1, S1, 0, 0, 0⟩ zeroCursors 0
        ∧ SafeAll resetState ((List.range (step_1 c)).flatMap fun _ => fchunk_blk a true) := by
      refine run_safe_entry_eq
        (loop_run_safe _ (fun i => mkSt a ⟨i, i, i, 0, 0, 0⟩ zeroCursors 0) (step_1 c)
          (fun i _ => by
            rw [fchunk_run_a a b hab]
            exact mkSt_congr a (by simp) rfl rfl)
          (fun i _ => fchunk_safe_a a b hab true _ _ _ (by simp [cInv])
            (by simp [cInv, zeroCursors]) (by simp))
          (by rw [cursorInv_mkSt]; exact ⟨by simp [cInv], by simp [cInv, zeroCursors]⟩))
        (mkSt_reset a).symm ?_
      refine mkSt_congr a ?_ rfl rfl
      rw [hs1]
    have h1r : execOps [Op.recvF a none] (mkSt a ⟨S1, S1, S1, 0, 0, 0⟩ zeroCursors 0)
          = mkSt a ⟨S1 + 1, S1, S1, 0, 0, 0⟩ zeroCursors 0
        ∧ SafeAll (mkSt a ⟨S1, S1, S1, 0, 0, 0⟩ zeroCursors 0) [Op.recvF a none] := by
      constructor
      · rw [recvF_a_run a b hab]
      · exact recvF_a_safe a b hab _ _ _ (by simp [cInv]) (by simp [cInv, zeroCursors])
    -- phase 2
    have h2 : execOps ((List.range (step_2 c)).flatMap fun i =>
            iter2_blk a b mid (!mid || decide (i < step_2 c - 1)))
          (mkSt a ⟨S1 + 1, S1, S1, 0, 0, 0⟩ zeroCursors 0)
          = mkSt a ⟨S1 + (h + 1) + 1, S1 + (h + 1), S1 + (h + 1), 0, 0, 0⟩
              ⟨h + 1, h + 1, h + 1 - m01, 0, 0, 0⟩ 0
        ∧ SafeAll (mkSt a ⟨S1 + 1, S1, S1, 0, 0, 0⟩ zeroCursors 0)
          ((List.range (step_2 c)).flatMap fun i =>
            iter2_blk a b mid (!mid || decide (i < step_2 c - 1))) := by
      refine run_safe_entry_eq
        (loop_run_safe _
          (fun i => mkSt a ⟨S1 + 1 + i, S1 + i, S1 + i, 0, 0, 0⟩
            ⟨i, i, i - (if mid = true ∧ i = h + 1 then 1 else 0), 0, 0, 0⟩ 0)
          (step_2 c)
          (fun i hilt => by
            rw [iter2_run a b hab]
            rw [hs2] at hilt
            refine mkSt_congr a (by simp [Cursors.mk.injEq] <;> omega) ?_ rfl
            simp only [Cursors.mk.injEq, hs2]
            cases hmc : mid <;> simp [hmc, decide_eq_true_eq] <;>
              first | omega | (split_ifs <;> omega))
          (fun i hilt => by
            refine iter2_safe a b hab mid _ _ _ _ ?_ ?_ (by simp)
            · simp [cInv]
            · simp [cInv] <;> first | omega | (split_ifs <;> omega))
          (by
            rw [cursorInv_mkSt]
            refine ⟨by simp [cInv], ?_⟩
            simp [cInv] <;> first | omega | (split_ifs <;> omega)))
        ?_ ?_
      · refine mkSt_congr a (by simp [Cursors.mk.injEq] <;> omega) ?_ rfl
        simp [Cursors.mk.injEq, zeroCursors] <;> first | omega | (split_ifs <;> omega)
      · rw [hs2]
        refine mkSt_congr a (by simp [Cursors.mk.injEq] <;> omega) ?_ rfl
        simp [Cursors.mk.injEq, hm01] <;> first | omega | (split_ifs <;> omega)
    -- phase 3 (forward-only)
    have h3 : execOps ((List.range (step_3 c)).flatMap fun _ => iter3_fo_blk b)
          (mkSt a ⟨S1 + (h + 1) + 1, S1 + (h + 1), S1 + (h + 1), 0, 0, 0⟩
            ⟨h + 1, h + 1, h + 1 - m01, 0, 0, 0⟩ 0)
          = mkSt a ⟨S1 + (h + 1) + 1, S1 + (h + 1), S1 + (h + 1), 0, 0, 0⟩
              ⟨h + 1 + S3, h + 1 + S3, h + 1 - m01 + S3, 0, 0, 0⟩ 0
        ∧ SafeAll (mkSt a ⟨S1 + (h + 1) + 1, S1 + (h + 1), S1 + (h + 1), 0, 0, 0⟩
            ⟨h + 1, h + 1, h + 1 - m01, 0, 0, 0⟩ 0)
          ((List.range (step_3 c)).flatMap fun _ => iter3_fo_blk b) := by
      refine run_safe_entry_eq
        (loop_run_safe _
          (fun i => mkSt a ⟨S1 + (h + 1) + 1, S1 + (h + 1), S1 + (h + 1), 0, 0, 0⟩
            ⟨h + 1 + i, h + 1 + i, h + 1 - m01 + i, 0, 0, 0⟩ 0)
          (step_3 c)
          (fun i hilt => by
            rw [iter3_fo_run a b hab]
            exact mkSt_congr a rfl (by simp [Cursors.mk.injEq] <;> omega) rfl)
          (fun i hilt =>
            iter3_fo_safe a b hab _ _ _ (by simp [cInv])
              (by simp [cInv] <;> omega))
          (by
            rw [cursorInv_mkSt]
            exact ⟨by simp [cInv], by simp [cInv] <;> omega⟩))
        ?_ ?_
      · exact mkSt_congr a rfl (by simp [Cursors.mk.injEq] <;> omega) rfl
      · rw [hs3]
    -- phase 4 (forward-only)
    have h4 : execOps ((List.range (step_4 c)).flatMap (iter4_fo_full_blk a b mid))
          (mkSt a ⟨S1 + (h + 1) + 1, S1 + (h + 1), S1 + (h + 1), 0, 0, 0⟩
            ⟨h + 1 + S3, h + 1 + S3, h + 1 - m01 + S3, 0, 0, 0⟩ 0)
          = mkSt a ⟨S1 + (h + 1) + S4, S1 + (h + 1) + S4, S1 + (h + 1) + S4, 0, 0, 0⟩
              ⟨h + 1 + S3 + S4, h + 1 + S3 + S4, h + 1 + S3 + S4, 0, 0, 0⟩ 0
        ∧ SafeAll (mkSt a ⟨S1 + (h + 1) + 1, S1 + (h + 1), S1 + (h + 1), 0, 0, 0⟩
            ⟨h + 1 + S3, h + 1 + S3, h + 1 - m01 + S3, 0, 0, 0⟩ 0)
          ((List.range (step_4 c)).flatMap (iter4_fo_full_blk a b mid)) := by
      have hS4pos : 1 ≤ S4 := by omega
      refine run_safe_entry_eq
        (loop_run_safe _
          (fun i => mkSt a
            ⟨S1 + (h + 1) + max 1 i, S1 + (h + 1) + i, S1 + (h + 1) + i, 0, 0, 0⟩
            ⟨h + 1 + S3 + i, h + 1 + S3 + i,
              h + 1 + S3 + i - (if mid = true ∧ i = 0 then 1 else 0), 0, 0, 0⟩ 0)
          (step_4 c)
          (fun i hilt => by
            by_cases hi0 : i = 0
            · subst hi0
              cases hmc : mid with
              | true =>
                have hblk : iter4_fo_full_blk a b true 0
                    = iter4_fo_mid0_blk a b ++ fchunk_blk b true := by
                  simp [iter4_fo_full_blk]
                rw [hblk, execOps_append, iter4_fo_mid0_run a b hab, fchunk_run_b a b hab]
                refine mkSt_congr a (by simp [Cursors.mk.injEq] <;> omega) ?_ rfl
                simp [Cursors.mk.injEq] <;> first | omega | (split_ifs <;> omega)
              | false =>
                have hblk : iter4_fo_full_blk a b false 0
                    = fchunk_blk a false ++ fchunk_blk b true := by
                  simp [iter4_fo_full_blk]
                rw [hblk, execOps_append, fchunk_run_a a b hab, fchunk_run_b a b hab]
                refine mkSt_congr a (by simp [Cursors.mk.injEq] <;> omega) ?_ rfl
                simp [Cursors.mk.injEq] <;> first | omega | (split_ifs <;> omega)
            · have hblk : iter4_fo_full_blk a b mid i
                  = fchunk_blk a true ++ fchunk_blk b true := by
                simp [iter4_fo_full_blk, hi0]
              rw [hblk, execOps_append, fchunk_run_a a b hab, fchunk_run_b a b hab]
              refine mkSt_congr a (by simp [Cursors.mk.injEq] <;> omega) ?_ rfl
              simp [hi0, Cursors.mk.injEq] <;> first | omega | (split_ifs <;> omega))
          (fun i hilt => by
            by_cases hi0 : i = 0
            · subst hi0
              cases hmc : mid with
              | true =>
                have hblk : iter4_fo_full_blk a b true 0
                    = iter4_fo_mid0_blk a b ++ fchunk_blk b true := by
                  simp [iter4_fo_full_blk]
                rw [hblk]
                refine safeAll_append _ _ _ ?_ ?_
                · refine iter4_fo_mid0_safe a b hab _ _ _ ?_ ?_ (by simp <;> omega) ?_
                  · simp [cInv] <;> omega
                  · simp [cInv] <;> first | omega | (split_ifs <;> omega)
                  · simp <;> first | omega | (split_ifs <;> omega)
                · rw [iter4_fo_mid0_run a b hab]
                  refine fchunk_safe_b a b hab true _ _ _ ?_ ?_ (by simp)
                  · simp [cInv] <;> omega
                  · simp [cInv] <;> first | omega | (split_ifs <;> omega)
              | false =>
                have hblk : iter4_fo_full_blk a b false 0
                    = fchunk_blk a false ++ fchunk_blk b true := by
                  simp [iter4_fo_full_blk]
                rw [hblk]
                refine safeAll_append _ _ _ ?_ ?_
                · refine fchunk_safe_a a b hab false _ _ _ ?_ ?_ ?_
                  · simp [cInv] <;> omega
                  · simp [cInv] <;> first | omega | (split_ifs <;> omega)
                  · intro _
                    simp <;> omega
                · rw [fchunk_run_a a b hab]
                  refine fchunk_safe_b a b hab true _ _ _ ?_ ?_ (by simp)
                  · simp [cInv] <;> omega
                  · simp [cInv] <;> first | omega | (split_ifs <;> omega)
            · have hblk : iter4_fo_full_blk a b mid i
                  = fchunk_blk a true ++ fchunk_blk b true := by
                simp [iter4_fo_full_blk, hi0]
              rw [hblk]
              refine safeAll_append _ _ _ ?_ ?_
              · refine fchunk_safe_a a b hab true _ _ _ ?_ ?_ (by simp)
                · simp [cInv] <;> omega
                · simp [cInv] <;> first | omega | (split_ifs <;> omega)
              · rw [fchunk_run_a a b hab]
                refine fchunk_safe_b a b hab true _ _ _ ?_ ?_ (by simp)
                · simp [cInv] <;> omega
                · simp [cInv] <;> first | omega | (split_ifs <;> omega))
          (by
            rw [cursorInv_mkSt]
            refine ⟨by simp [cInv] <;> omega, ?_⟩
            simp [cInv] <;> first | omega | (split_ifs <;> omega)))
        ?_ ?_
      · refine mkSt_congr a (by simp [Cursors.mk.injEq] <;> omega) ?_ rfl
        simp [Cursors.mk.injEq, hm01] <;> first | omega | (split_ifs <;> omega)
      · rw [hs4]
        refine mkSt_congr a (by simp [Cursors.mk.injEq] <;> omega) ?_ rfl
        simp [Cursors.mk.injEq] <;> first | omega | (split_ifs <;> omega)
    -- phase 5 (forward-only)
    have h5 : execOps ((List.range (step_5 c)).flatMap fun _ => Op.commit :: fchunk_blk b true)
          (mkSt a ⟨S1 + (h + 1) + S4, S1 + (h + 1) + S4, S1 + (h + 1) + S4, 0, 0, 0⟩
            ⟨h + 1 + S3 + S4, h + 1 + S3 + S4, h + 1 + S3 + S4, 0, 0, 0⟩ 0)
          = mkSt a ⟨K, K, K, 0, 0, 0⟩ ⟨K, K, K, 0, 0, 0⟩ 0
        ∧ SafeAll (mkSt a ⟨S1 + (h + 1) + S4, S1 + (h + 1) + S4, S1 + (h + 1) + S4, 0, 0, 0⟩
            ⟨h + 1 + S3 + S4, h + 1 + S3 + S4, h + 1 + S3 + S4, 0, 0, 0⟩ 0)
          ((List.range (step_5 c)).flatMap fun _ => Op.commit :: fchunk_blk b true) := by
      refine run_safe_entry_eq
        (loop_run_safe _
          (fun i => mkSt a ⟨S1 + (h + 1) + S4, S1 + (h + 1) + S4, S1 + (h + 1) + S4, 0, 0, 0⟩
            ⟨h + 1 + S3 + S4 + i, h + 1 + S3 + S4 + i, h + 1 + S3 + S4 + i, 0, 0, 0⟩ 0)
          (step_5 c)
          (fun i hilt => by
            rw [show (Op.commit :: fchunk_blk b true)
                = [Op.commit] ++ fchunk_blk b true from rfl,
              execOps_append, commit_run, fchunk_run_b a b hab]
            exact mkSt_congr a rfl (by simp [Cursors.mk.injEq] <;> omega) rfl)
          (fun i hilt => by
            rw [show (Op.commit :: fchunk_blk b true)
                = [Op.commit] ++ fchunk_blk b true from rfl]
            refine safeAll_append _ _ _ ?_ ?_
            · refine commit_safe _ ?_
              rw [cursorInv_mkSt]
              exact ⟨by simp [cInv] <;> omega, by simp [cInv] <;> omega⟩
            · rw [commit_run]
              refine fchunk_safe_b a b hab true _ _ _ ?_ ?_ (by simp)
              · simp [cInv] <;> omega
              · simp [cInv] <;> omega)
          (by
            rw [cursorInv_mkSt]
            exact ⟨by simp [cInv] <;> omega, by simp [cInv] <;> omega⟩))
        ?_ ?_
      · exact mkSt_congr a rfl (by simp [Cursors.mk.injEq] <;> omega) rfl
      · rw [hs5]
        refine mkSt_congr a (by simp [Cursors.mk.injEq] <;> omega)
          (by simp [Cursors.mk.injEq] <;> omega) rfl
    -- phases 6 and 7 are pure commits in forward-only mode
    have h6 : execOps ((List.range (step_6 c)).flatMap fun _ => [Op.commit, Op.commit])
          (mkSt a ⟨K, K, K, 0, 0, 0⟩ ⟨K, K, K, 0, 0, 0⟩ 0)
          = mkSt a ⟨K, K, K, 0, 0, 0⟩ ⟨K, K, K, 0, 0, 0⟩ 0
        ∧ SafeAll (mkSt a ⟨K, K, K, 0, 0, 0⟩ ⟨K, K, K, 0, 0, 0⟩ 0)
          ((List.range (step_6 c)).flatMap fun _ => [Op.commit, Op.commit]) :=
      loop_run_safe _ (fun _ => mkSt a ⟨K, K, K, 0, 0, 0⟩ ⟨K, K, K, 0, 0, 0⟩ 0) (step_6 c)
        (fun i _ => commit2_run _)
        (fun i _ => commit2_safe _ (by rw [cursorInv_mkSt]; exact ⟨by simp [cInv], by simp [cInv]⟩))
        (by rw [cursorInv_mkSt]; exact ⟨by simp [cInv], by simp [cInv]⟩)
    have h7 : execOps ((List.range (step_7 c)).flatMap fun _ => [Op.commit])
          (mkSt a ⟨K, K, K, 0, 0, 0⟩ ⟨K, K, K, 0, 0, 0⟩ 0)
          = mkSt a ⟨K, K, K, 0, 0, 0⟩ ⟨K, K, K, 0, 0, 0⟩ 0
        ∧ SafeAll (mkSt a ⟨K, K, K, 0, 0, 0⟩ ⟨K, K, K, 0, 0, 0⟩ 0)
          ((List.range (step_7 c)).flatMap fun _ => [Op.commit]) :=
      loop_run_safe _ (fun _ => mkSt a ⟨K, K, K, 0, 0, 0⟩ ⟨K, K, K, 0, 0, 0⟩ 0) (step_7 c)
        (fun i _ => commit_run _)
        (fun i _ => commit_safe _ (by rw [cursorInv_mkSt]; exact ⟨by simp [cInv], by simp [cInv]⟩))
        (by rw [cursorInv_mkSt]; exact ⟨by simp [cInv], by simp [cInv]⟩)
    have hcommit : execOps [Op.commit] (mkSt a ⟨K, K, K, 0, 0, 0⟩ ⟨K, K, K, 0, 0, 0⟩ 0)
          = (⟨⟨K, K, K, 0, 0, 0⟩, ⟨K, K, K, 0, 0, 0⟩, 0, false⟩ : DPState)
        ∧ SafeAll (mkSt a ⟨K, K, K, 0, 0, 0⟩ ⟨K, K, K, 0, 0, 0⟩ 0) [Op.commit] := by
      constructor
      · rw [commit_run, mkSt_same]
      · exact commit_safe _ (by rw [cursorInv_mkSt]; exact ⟨by simp [cInv], by simp [cInv]⟩)
    have hall := run_safe_append _ _ _ _ _ h1 (run_safe_append _ _ _ _ _ h1r
      (run_safe_append _ _ _ _ _ h2 (run_safe_append _ _ _ _ _ h3
      (run_safe_append _ _ _ _ _ h4 (run_safe_append _ _ _ _ _ h5
      (run_safe_append _ _ _ _ _ h6 (run_safe_append _ _ _ _ _ h7 hcommit)))))))
    exact ⟨hall.1, hall.2⟩
  constructor
  · rw [← safeAll_strip]
    exact hmain.2
  · rw [← execOps_strip]
    exact hmain.1

/-- Witness for `weight_grad_queue_empty` at a concrete valid
configuration. -/
theorem weight_grad_queue_empty_witness :
    step_run true ⟨4, 1, 8, false, false⟩ true
      = Except.ok (execOps (sched_ops ⟨4, 1, 8, false, false⟩) resetState) :=
  (weight_grad_queue_empty ⟨4, 1, 8, false, false⟩).2.2.2 true true (by decide)

/-- Witness for `step6_zero_bubble_toggle` at a concrete gradient-tracking
configuration. -/
theorem step6_zero_bubble_toggle_witness :
    backward_zb_flags (step6_ops ⟨4, 1, 8, false, false⟩) =
      (List.range (2 * (half_rank ⟨4, 1, 8, false, false⟩ + 1))).map fun j =>
        decide ((if half_rank ⟨4, 1, 8, false, false⟩ % 2 = 1
          then 2 * ((half_rank ⟨4, 1, 8, false, false⟩ + 1) / 2)
          else 2 * ((half_rank ⟨4, 1, 8, false, false⟩ + 1) / 2) + 1) ≤ j) :=
  step6_zero_bubble_toggle ⟨4, 1, 8, false, false⟩ rfl

/-- A boundary rank: the first or the last logical rank of the pipeline,
in a group of at least two ranks. -/
def Boundary (c : Config) : Prop :=
  2 ≤ c.numRanks ∧ (c.rank = 0 ∨ c.rank + 1 = c.numRanks)

theorem boundary_first_stage_a (c : Config) (hb : Boundary c) :
    is_first_stage c (phys_phase c 0) = true := by
  obtain ⟨h2, hr | hr⟩ := hb <;>
    simp [is_first_stage, is_first_rank, is_last_rank, phys_phase, is_in_second_half, hr] <;>
    omega

theorem boundary_last_stage_b (c : Config) (hb : Boundary c) :
    is_last_stage c (phys_phase c 1) = true := by
  obtain ⟨h2, hr | hr⟩ := hb <;>
    simp [is_last_stage, is_first_rank, is_last_rank, phys_phase, is_in_second_half, hr] <;>
    omega

theorem boundary_first_stage_b (c : Config) (hb : Boundary c) :
    is_first_stage c (phys_phase c 1) = false := by
  obtain ⟨h2, hr | hr⟩ := hb <;>
    simp [is_first_stage, is_first_rank, is_last_rank, phys_phase, is_in_second_half, hr] <;>
    omega

theorem boundary_last_stage_a (c : Config) (hb : Boundary c) :
    is_last_stage c (phys_phase c 0) = false := by
  obtain ⟨h2, hr | hr⟩ := hb <;>
    simp [is_last_stage, is_first_rank, is_last_rank, phys_phase, is_in_second_half, hr] <;>
    omega

theorem boundary_mid (c : Config) (hb : Boundary c) (hev : c.numRanks % 2 = 0) :
    is_middle_rank c = false := by
  obtain ⟨h2, hr | hr⟩ := hb <;>
    simp [is_middle_rank, hr] <;>
    omega

theorem boundary_half_rank (c : Config) (hb : Boundary c) : half_rank c = 0 := by
  obtain ⟨h2, hr | hr⟩ := hb <;> simp [half_rank, hr] <;> omega

theorem recv_forward_bd_0 (c : Config) (hb : Boundary c) :
    recv_forward_ops c 0 = [] := by
  unfold recv_forward_ops
  simp [boundary_first_stage_a c hb]

theorem send_forward_bd_1 (c : Config) (hb : Boundary c) :
    send_forward_ops c 1 = [] := by
  unfold send_forward_ops
  simp [boundary_last_stage_b c hb]

theorem strip_recv_forward_bd_1 (c : Config) (hb : Boundary c) :
    (recv_forward_ops c 1).map stripPeers = [Op.recvF (phys_phase c 1) none] := by
  unfold recv_forward_ops
  simp [boundary_first_stage_b c hb, stripPeers]

theorem strip_send_forward_bd_0 (c : Config) (hb : Boundary c) :
    (send_forward_ops c 0).map stripPeers = [Op.sendF (phys_phase c 0) none] := by
  unfold send_forward_ops
  simp [boundary_last_stage_a c hb, stripPeers]

theorem strip_fchunk_bd_0 (c : Config) (hb : Boundary c) (r s : Bool) :
    (forward_chunk_ops c 0 r s).map stripPeers
      = [Op.commit, Op.compF (phys_phase c 0)]
        ++ (if s then [Op.sendF (phys_phase c 0) none] else []) := by
  unfold forward_chunk_ops forward_compute_ops
  cases r <;> cases s <;>
    simp [recv_forward_bd_0 c hb, strip_send_forward_bd_0 c hb, stripPeers]

theorem strip_fchunk_bd_1 (c : Config) (hb : Boundary c) (r s : Bool) :
    (forward_chunk_ops c 1 r s).map stripPeers
      = (if r then [Op.recvF (phys_phase c 1) none] else [])
        ++ [Op.commit, Op.compF (phys_phase c 1)] := by
  unfold forward_chunk_ops forward_compute_ops
  cases r <;> cases s <;>
    simp [strip_recv_forward_bd_1 c hb, send_forward_bd_1 c hb, stripPeers]

theorem strip_fb_chunk_fo_bd_01 (c : Config) (hb : Boundary c) (hfo : c.forwardOnly = true)
    (r0 : Bool) :
    (forward_backward_chunk_ops c 0 1 r0).map stripPeers
      = iter1_bd_blk (phys_phase c 0) := by
  unfold forward_backward_chunk_ops forward_backward_compute_ops forward_compute_ops
    recv_backward_ops send_backward_ops iter1_bd_blk
  cases r0 <;>
    simp [hfo, recv_forward_bd_0 c hb, strip_send_forward_bd_0 c hb, stripPeers]

theorem strip_fb_chunk_fo_bd_10 (c : Config) (hb : Boundary c) (hfo : c.forwardOnly = true) :
    (forward_backward_chunk_ops c 1 0 true).map stripPeers
      = [Op.recvF (phys_phase c 1) none, Op.commit, Op.compF (phys_phase c 1)] := by
  unfold forward_backward_chunk_ops forward_backward_compute_ops forward_compute_ops
    recv_backward_ops send_backward_ops
  simp [hfo, strip_recv_forward_bd_1 c hb, send_forward_bd_1 c hb, stripPeers]

theorem strip_step1_bd (c : Config) (hb : Boundary c) :
    (step1_ops c).map stripPeers
      = (List.range (step_1 c)).flatMap fun _ => iter1_bd_blk (phys_phase c 0) := by
  unfold step1_ops
  rw [List.map_flatMap]
  simp [strip_fchunk_bd_0 c hb, iter1_bd_blk]

theorem strip_step2_bd (c : Config) (hb : Boundary c) (hev : c.numRanks % 2 = 0) :
    (step2_ops c).map stripPeers
      = (List.range (step_2 c)).flatMap fun _ =>
          iter2_bd_blk (phys_phase c 0) (phys_phase c 1) := by
  unfold step2_ops step2_iter_ops
  rw [List.map_append, List.map_flatMap]
  simp [recv_forward_bd_0 c hb, strip_fchunk_bd_0 c hb, strip_fchunk_bd_1 c hb,
    strip_send_forward_bd_0 c hb, boundary_mid c hb hev, iter2_bd_blk]

theorem strip_step3_fo_bd (c : Config) (hb : Boundary c) (hfo : c.forwardOnly = true) :
    (step3_ops c).map stripPeers
      = (List.range (step_3 c)).flatMap fun _ => iter3_bd_blk (phys_phase c 1) := by
  unfold step3_ops step3_iter_ops
  rw [List.map_flatMap]
  simp [strip_backward_chunk_fo c hfo, strip_recv_forward_bd_1 c hb,
    strip_weight_chunk_fo c hfo, strip_fchunk_bd_1 c hb, iter3_bd_blk]

theorem strip_step4_iter_fo_bd (c : Config) (hb : Boundary c) (hev : c.numRanks % 2 = 0)
    (hfo : c.forwardOnly = true) (i : Nat) :
    (step4_iter_ops c i).map stripPeers
      = iter4_bd_blk (phys_phase c 0) (phys_phase c 1) := by
  unfold step4_iter_ops iter4_bd_blk
  have h01 := strip_fb_chunk_fo_bd_01 c hb hfo
  simp only [iter1_bd_blk] at h01
  by_cases h0 : i = 0 <;>
    simp [h0, boundary_mid c hb hev, List.map_append, h01,
      strip_fb_chunk_fo_bd_10 c hb hfo]

theorem strip_step4_fo_bd (c : Config) (hb : Boundary c) (hev : c.numRanks % 2 = 0)
    (hfo : c.forwardOnly = true) :
    (step4_ops c).map stripPeers
      = (List.range (step_4 c)).flatMap fun _ =>
          iter4_bd_blk (phys_phase c 0) (phys_phase c 1) := by
  unfold step4_ops
  rw [List.map_flatMap]
  simp [strip_step4_iter_fo_bd c hb hev hfo]

theorem strip_step5_fo_bd (c : Config) (hb : Boundary c) (hfo : c.forwardOnly = true) :
    (step5_ops c).map stripPeers
      = (List.range (step_5 c)).flatMap fun _ => iter3_bd_blk (phys_phase c 1) := by
  unfold step5_ops step5_iter_ops
  rw [List.map_flatMap]
  simp [strip_backward_chunk_fo c hfo, strip_fb_chunk_fo_bd_10 c hb hfo, iter3_bd_blk]

/-- The full stripped schedule of a forward-only step on a boundary rank. -/
theorem strip_sched_fo_bd (c : Config) (hb : Boundary c) (hev : c.numRanks % 2 = 0)
    (hfo : c.forwardOnly = true) :
    (sched_ops c).map stripPeers
      = ((List.range (step_1 c)).flatMap fun _ => iter1_bd_blk (phys_phase c 0))
        ++ (((List.range (step_2 c)).flatMap fun _ =>
              iter2_bd_blk (phys_phase c 0) (phys_phase c 1))
        ++ (((List.range (step_3 c)).flatMap fun _ => iter3_bd_blk (phys_phase c 1))
        ++ (((List.range (step_4 c)).flatMap fun _ =>
              iter4_bd_blk (phys_phase c 0) (phys_phase c 1))
        ++ (((List.range (step_5 c)).flatMap fun _ => iter3_bd_blk (phys_phase c 1))
        ++ (((List.range (step_6 c)).flatMap fun _ => [Op.commit, Op.commit])
        ++ (((List.range (step_7 c)).flatMap fun _ => [Op.commit])
        ++ [Op.commit])))))) := by
  unfold sched_ops
  simp only [List.map_append, List.append_assoc]
  rw [strip_step1_bd c hb, strip_step2_bd c hb hev, strip_step3_fo_bd c hb hfo,
    strip_step4_fo_bd c hb hev hfo, strip_step5_fo_bd c hb hfo, strip_step6_fo c hfo,
    strip_step7_fo c hfo, strip_step8_fo c hfo]
  simp [stripPeers]

theorem run_entry_eq {s s' t t' : DPState} {l : List Op}
    (h : execOps l s' = t') (hs : s = s') (ht : t' = t) :
    execOps l s = t := by
  rw [hs, h, ht]

/-- The final cursor state of a forward-only `step()` on a boundary rank:
the boundary stage receives nothing (first stage) or sends nothing (last
stage), every other forward cursor reaches `numChunks / 2`, and all
backward cursors stay zero. -/
theorem boundary_fo_master (c : Config) (hb : Boundary c) (hev : c.numRanks % 2 = 0)
    (hge : c.numRanks * 2 ≤ c.numChunks) (hfo : c.forwardOnly = true) :
    execOps (sched_ops c) resetState
      = mkSt (phys_phase c 0)
          ⟨0, half_num_chunks c, half_num_chunks c, 0, 0, 0⟩
          ⟨half_num_chunks c, half_num_chunks c, 0, 0, 0, 0⟩ 0 := by
  rw [← execOps_strip, strip_sched_fo_bd c hb hev hfo]
  have hab : PhasePair (phys_phase c 0) (phys_phase c 1) := phys_phase_pair c
  set a := phys_phase c 0
  set b := phys_phase c 1
  set H := num_half_ranks c with hH0
  set K := half_num_chunks c with hK0
  have hhr : half_rank c = 0 := boundary_half_rank c hb
  have h2 : 2 ≤ c.numRanks := hb.1
  have hH1 : 1 ≤ H := by
    rw [hH0]
    unfold num_half_ranks
    omega
  have hK : 2 * H ≤ K := by
    rw [hH0, hK0]
    unfold num_half_ranks half_num_chunks
    omega
  have hn2 : c.numRanks = 2 * H := by
    rw [hH0]
    unfold num_half_ranks
    omega
  have hs1 : step_1 c = (H - 1) * 2 := by
    show (num_half_ranks c - half_rank c - 1) * 2 = (H - 1) * 2
    rw [hhr, ← hH0]
    omega
  have hs2 : step_2 c = 1 := by
    show half_rank c + 1 = 1
    rw [hhr]
  have hs3 : step_3 c = H - 1 := by
    show num_half_ranks c - half_rank c - 1 = H - 1
    rw [hhr, ← hH0]
    omega
  have hs4 : step_4 c = K - 2 * H + 1 := by
    show half_num_chunks c - c.numRanks + half_rank c + 1 = K - 2 * H + 1
    rw [hhr, ← hK0, hn2]
  have hs5 : step_5 c = H - 1 := by
    show num_half_ranks c - half_rank c - 1 = H - 1
    rw [hhr, ← hH0]
    omega
  have e1 : execOps ((List.range (step_1 c)).flatMap fun _ => iter1_bd_blk a)
        (mkSt a zeroCursors zeroCursors 0)
      = mkSt a ⟨0, (H - 1) * 2, (H - 1) * 2, 0, 0, 0⟩ zeroCursors 0 := by
    refine run_entry_eq
      (loop_run (fun _ => iter1_bd_blk a)
        (fun i => mkSt a ⟨0, i, i, 0, 0, 0⟩ zeroCursors 0) (step_1 c)
        (fun i _ => by
          rw [iter1_bd_run a b hab]))
      (mkSt_congr a (by simp [zeroCursors]) rfl rfl) ?_
    rw [hs1]
  have e2 : execOps ((List.range (step_2 c)).flatMap fun _ => iter2_bd_blk a b)
        (mkSt a ⟨0, (H - 1) * 2, (H - 1) * 2, 0, 0, 0⟩ zeroCursors 0)
      = mkSt a ⟨0, (H - 1) * 2 + 1, (H - 1) * 2 + 1, 0, 0, 0⟩ ⟨1, 1, 0, 0, 0, 0⟩ 0 := by
    refine run_entry_eq
      (loop_run (fun _ => iter2_bd_blk a b)
        (fun i => mkSt a ⟨0, (H - 1) * 2 + i, (H - 1) * 2 + i, 0, 0, 0⟩
          ⟨i, i, 0, 0, 0, 0⟩ 0) (step_2 c)
        (fun i _ => by
          rw [iter2_bd_run a b hab]
          exact mkSt_congr a (by simp [Cursors.mk.injEq] <;> omega)
            (by simp [Cursors.mk.injEq] <;> omega) rfl))
      (mkSt_congr a (by simp) (by simp [zeroCursors]) rfl) ?_
    rw [hs2]
  have e3 : execOps ((List.range (step_3 c)).flatMap fun _ => iter3_bd_blk b)
        (mkSt a ⟨0, (H - 1) * 2 + 1, (H - 1) * 2 + 1, 0, 0, 0⟩ ⟨1, 1, 0, 0, 0, 0⟩ 0)
      = mkSt a ⟨0, (H - 1) * 2 + 1, (H - 1) * 2 + 1, 0, 0, 0⟩ ⟨H, H, 0, 0, 0, 0⟩ 0 := by
    refine run_entry_eq
      (loop_run (fun _ => iter3_bd_blk b)
        (fun i => mkSt a ⟨0, (H - 1) * 2 + 1, (H - 1) * 2 + 1, 0, 0, 0⟩
          ⟨1 + i, 1 + i, 0, 0, 0, 0⟩ 0) (step_3 c)
        (fun i _ => by
          rw [iter3_bd_run a b hab]
          exact mkSt_congr a rfl (by simp [Cursors.mk.injEq] <;> omega) rfl))
      (mkSt_congr a rfl (by simp) rfl) ?_
    rw [hs3]
    exact mkSt_congr a rfl (by simp [Cursors.mk.injEq] <;> omega) rfl
  have e4 : execOps ((List.range (step_4 c)).flatMap fun _ => iter4_bd_blk a b)
        (mkSt a ⟨0, (H - 1) * 2 + 1, (H - 1) * 2 + 1, 0, 0, 0⟩ ⟨H, H, 0, 0, 0, 0⟩ 0)
      = mkSt a ⟨0, K, K, 0, 0, 0⟩ ⟨H + (K - 2 * H + 1), H + (K - 2 * H + 1), 0, 0, 0, 0⟩ 0 := by
    refine run_entry_eq
      (loop_run (fun _ => iter4_bd_blk a b)
        (fun i => mkSt a ⟨0, (H - 1) * 2 + 1 + i, (H - 1) * 2 + 1 + i, 0, 0, 0⟩
          ⟨H + i, H + i, 0, 0, 0, 0⟩ 0) (step_4 c)
        (fun i _ => by
          rw [iter4_bd_run a b hab]
          exact mkSt_congr a (by simp [Cursors.mk.injEq] <;> omega)
            (by simp [Cursors.mk.injEq] <;> omega) rfl))
      (mkSt_congr a (by simp) rfl rfl) ?_
    rw [hs4]
    exact mkSt_congr a (by simp [Cursors.mk.injEq] <;> omega) rfl rfl
  have e5 : execOps ((List.range (step_5 c)).flatMap fun _ => iter3_bd_blk b)
        (mkSt a ⟨0, K, K, 0, 0, 0⟩ ⟨H + (K - 2 * H + 1), H + (K - 2 * H + 1), 0, 0, 0, 0⟩ 0)
      = mkSt a ⟨0, K, K, 0, 0, 0⟩ ⟨K, K, 0, 0, 0, 0⟩ 0 := by
    refine run_entry_eq
      (loop_run (fun _ => iter3_bd_blk b)
        (fun i => mkSt a ⟨0, K, K, 0, 0, 0⟩
          ⟨H + (K - 2 * H + 1) + i, H + (K - 2 * H + 1) + i, 0, 0, 0, 0⟩ 0) (step_5 c)
        (fun i _ => by
          rw [iter3_bd_run a b hab]
          exact mkSt_congr a rfl (by simp [Cursors.mk.injEq] <;> omega) rfl))
      (mkSt_congr a rfl (by simp) rfl) ?_
    rw [hs5]
    exact mkSt_congr a rfl (by simp [Cursors.mk.injEq] <;> omega) rfl
  have e6 : execOps ((List.range (step_6 c)).flatMap fun _ => [Op.commit, Op.commit])
        (mkSt a ⟨0, K, K, 0, 0, 0⟩ ⟨K, K, 0, 0, 0, 0⟩ 0)
      = mkSt a ⟨0, K, K, 0, 0, 0⟩ ⟨K, K, 0, 0, 0, 0⟩ 0 :=
    loop_run _ (fun _ => mkSt a ⟨0, K, K, 0, 0, 0⟩ ⟨K, K, 0, 0, 0, 0⟩ 0) (step_6 c)
      (fun i _ => commit2_run _)
  have e7 : execOps ((List.range (step_7 c)).flatMap fun _ => [Op.commit])
        (mkSt a ⟨0, K, K, 0, 0, 0⟩ ⟨K, K, 0, 0, 0, 0⟩ 0)
      = mkSt a ⟨0, K, K, 0, 0, 0⟩ ⟨K, K, 0, 0, 0, 0⟩ 0 :=
    loop_run _ (fun _ => mkSt a ⟨0, K, K, 0, 0, 0⟩ ⟨K, K, 0, 0, 0, 0⟩ 0) (step_7 c)
      (fun i _ => commit_run _)
  rw [show resetState = mkSt a zeroCursors zeroCursors 0 from (mkSt_reset a).symm,
    execOps_append, e1, execOps_append, e2, execOps_append, e3, execOps_append, e4,
    execOps_append, e5, execOps_append, e6, execOps_append, e7, commit_run]

/-- C3: throughout a `step()` on an interior rank the per-phase cursor
ordering `send ≤ compute ≤ recv` holds after every prefix of the schedule,
and in gradient-tracking mode all twelve cursors equal `numChunks / 2` at
the end.  (On the first and last ranks the invariant as stated fails: the
boundary stage computes chunks it never receives, see
`cursor_invariant_counterexample`.) -/
theorem cursor_invariant_and_finals (c : Config) (hi : Interior c)
    (hev : c.numRanks % 2 = 0) (hge : c.numRanks * 2 ≤ c.numChunks) :
    SafeAll resetState (sched_ops c)
    ∧ (c.forwardOnly = false →
        execOps (sched_ops c) resetState
          = ⟨⟨half_num_chunks c, half_num_chunks c, half_num_chunks c, half_num_chunks c,
              half_num_chunks c, half_num_chunks c⟩,
             ⟨half_num_chunks c, half_num_chunks c, half_num_chunks c, half_num_chunks c,
              half_num_chunks c, half_num_chunks c⟩, 0, false⟩) := by
  cases hfo : c.forwardOnly with
  | true =>
    exact ⟨(interior_fo_master c hi hev hge hfo).1,
      fun h => absurd h (by simp)⟩
  | false =>
    exact ⟨(interior_grad_master c hi hev hge hfo).1,
      fun _ => (interior_grad_master c hi hev hge hfo).2⟩

/-- C3 counterexample: on the first rank of a two-rank group the cursor
invariant `compute ≤ recv` is violated during the step, because the
boundary stage computes chunks that are never received. -/
theorem cursor_invariant_counterexample :
    ¬ SafeAll resetState (sched_ops ⟨2, 0, 4, false, false⟩) := by
  decide

/-- Witness for `cursor_invariant_and_finals` at a concrete interior-rank
configuration. -/
theorem cursor_invariant_and_finals_witness :
    SafeAll resetState (sched_ops ⟨4, 1, 8, false, false⟩)
    ∧ execOps (sched_ops ⟨4, 1, 8, false, false⟩) resetState
        = ⟨⟨4, 4, 4, 4, 4, 4⟩, ⟨4, 4, 4, 4, 4, 4⟩, 0, false⟩ := by
  have h := cursor_invariant_and_finals ⟨4, 1, 8, false, false⟩
    ⟨by decide, by decide⟩ (by decide) (by decide)
  exact ⟨h.1, h.2 rfl⟩

/-- C4: after a forward-only `step()` the compute cursors of both phases
reach `numChunks / 2`, the receive/send forward cursors reach
`numChunks / 2` except on the boundary stages (the globally first stage
receives nothing and the globally last stage sends nothing), all six
backward cursors stay zero — they do not reach `numChunks / 2` as claimed
— and the weight-gradient queue is empty. -/
theorem forward_only_final_state (c : Config) (hr : c.rank < c.numRanks)
    (h2 : 2 ≤ c.numRanks) (hev : c.numRanks % 2 = 0)
    (hge : c.numRanks * 2 ≤ c.numChunks) (hfo : c.forwardOnly = true) :
    (execOps (sched_ops c) resetState).c0.cf = half_num_chunks c
    ∧ (execOps (sched_ops c) resetState).c1.cf = half_num_chunks c
    ∧ (execOps (sched_ops c) resetState).c0.rf
        = (if is_first_stage c 0 then 0 else half_num_chunks c)
    ∧ (execOps (sched_ops c) resetState).c1.rf
        = (if is_first_stage c 1 then 0 else half_num_chunks c)
    ∧ (execOps (sched_ops c) resetState).c0.sf
        = (if is_last_stage c 0 then 0 else half_num_chunks c)
    ∧ (execOps (sched_ops c) resetState).c1.sf
        = (if is_last_stage c 1 then 0 else half_num_chunks c)
    ∧ (execOps (sched_ops c) resetState).c0.rb = 0
    ∧ (execOps (sched_ops c) resetState).c0.cb = 0
    ∧ (execOps (sched_ops c) resetState).c0.sb = 0
    ∧ (execOps (sched_ops c) resetState).c1.rb = 0
    ∧ (execOps (sched_ops c) resetState).c1.cb = 0
    ∧ (execOps (sched_ops c) resetState).c1.sb = 0
    ∧ (execOps (sched_ops c) resetState).wq = 0
    ∧ (execOps (sched_ops c) resetState).popFail = false := by
  by_cases h0 : c.rank = 0
  · have hb : Boundary c := ⟨h2, Or.inl h0⟩
    have hf := boundary_fo_master c hb hev hge hfo
    have hsh : is_in_second_half c = false := by
      simp [is_in_second_half, h0]
      omega
    have ha : phys_phase c 0 = 0 := by simp [phys_phase, hsh]
    have hfr : is_first_rank c = true := by simp [is_first_rank, h0]
    have hlr : is_last_rank c = false := by
      simp [is_last_rank]
      omega
    rw [ha] at hf
    rw [hf]
    simp [mkSt, is_first_stage, is_last_stage, hfr, hlr]
  · by_cases hl : c.rank + 1 = c.numRanks
    · have hb : Boundary c := ⟨h2, Or.inr hl⟩
      have hf := boundary_fo_master c hb hev hge hfo
      have hsh : is_in_second_half c = true := by
        simp [is_in_second_half]
        omega
      have ha : phys_phase c 0 = 1 := by simp [phys_phase, hsh]
      have hfr : is_first_rank c = false := by
        simp [is_first_rank]
        omega
      have hlr : is_last_rank c = true := by
        simp [is_last_rank]
        omega
      rw [ha] at hf
      rw [hf]
      simp [mkSt, is_first_stage, is_last_stage, hfr, hlr]
    · have hi : Interior c := ⟨by omega, by omega⟩
      have hf := (interior_fo_master c hi hev hge hfo).2
      rw [hf]
      simp [interior_first_stage c hi, interior_last_stage c hi]

/-- C4 counterexample: on an interior rank of a valid even configuration,
after a forward-only step the backward compute cursor is zero, not
`numChunks / 2`, so not all six per-phase cursors reach `numChunks / 2`. -/
theorem forward_only_counterexample :
    (execOps (sched_ops ⟨4, 1, 8, true, false⟩) resetState).c0.cb
      ≠ half_num_chunks ⟨4, 1, 8, true, false⟩ := by
  decide

/-- Witness for `forward_only_final_state` on the first rank of a four-rank
group. -/
theorem forward_only_final_state_witness :
    (execOps (sched_ops ⟨4, 0, 8, true, false⟩) resetState).c0.cf
        = half_num_chunks ⟨4, 0, 8, true, false⟩
    ∧ (execOps (sched_ops ⟨4, 0, 8, true, false⟩) resetState).wq = 0 :=
  ⟨(forward_only_final_state ⟨4, 0, 8, true, false⟩ (by decide) (by decide) (by decide)
      (by decide) rfl).1,
   (forward_only_final_state ⟨4, 0, 8, true, false⟩ (by decide) (by decide) (by decide)
      (by decide) rfl).2.2.2.2.2.2.2.2.2.2.2.2.1⟩

/-- The peer a communication operation is posted to, `none` for
non-communication operations. -/
def commPeer : Op → Option (Option Nat)
  | .recvF _ p => some p
  | .recvB _ p => some p
  | .sendF _ p => some p
  | .sendB _ p => some p
  | _ => none

/-- Every communication operation of the list is posted to an actual peer,
never to `None`. -/
def PeersOk (l : List Op) : Prop := ∀ op ∈ l, commPeer op ≠ some none

theorem peersOk_nil : PeersOk [] := by
  intro op hop
  cases hop

theorem peersOk_append {l1 l2 : List Op} (h1 : PeersOk l1) (h2 : PeersOk l2) :
    PeersOk (l1 ++ l2) := by
  intro op hop
  rcases List.mem_append.1 hop with h | h
  · exact h1 op h
  · exact h2 op h

theorem peersOk_flatMap {f : Nat → List Op} {n : Nat} (h : ∀ i, PeersOk (f i)) :
    PeersOk ((List.range n).flatMap f) := by
  intro op hop
  rw [List.mem_flatMap] at hop
  obtain ⟨i, _, hop⟩ := hop
  exact h i op hop

theorem peersOk_commit : PeersOk [Op.commit] := by
  intro op hop
  simp at hop
  subst hop
  simp [commPeer]

theorem peersOk_compF (q : Nat) : PeersOk [Op.compF q] := by
  intro op hop
  simp at hop
  subst hop
  simp [commPeer]

theorem peersOk_compB (q : Nat) (z : Bool) : PeersOk [Op.compB q z] := by
  intro op hop
  simp at hop
  subst hop
  simp [commPeer]

theorem peersOk_compFB (q0 q1 : Nat) : PeersOk [Op.compFB q0 q1] := by
  intro op hop
  simp at hop
  subst hop
  simp [commPeer]

theorem peersOk_weightPop : PeersOk [Op.weightPop] := by
  intro op hop
  simp at hop
  subst hop
  simp [commPeer]

theorem first_stage_zero (c : Config) : is_first_stage c 0 = is_first_rank c := by
  simp [is_first_stage]

theorem first_stage_one (c : Config) : is_first_stage c 1 = is_last_rank c := by
  simp [is_first_stage]

theorem last_stage_zero (c : Config) : is_last_stage c 0 = is_last_rank c := by
  simp [is_last_stage]

theorem last_stage_one (c : Config) : is_last_stage c 1 = is_first_rank c := by
  simp [is_last_stage]

theorem prev_rank_ne_none (c : Config) (hr : c.rank < c.numRanks)
    (h0 : is_first_rank c = false) : prev_rank c ≠ none := by
  rw [prev_rank_eq c hr]
  simp [is_first_rank] at h0
  simp [h0]

theorem next_rank_ne_none (c : Config) (hr : c.rank < c.numRanks)
    (h0 : is_last_rank c = false) : next_rank c ≠ none := by
  rw [next_rank_eq c hr]
  simp [is_last_rank] at h0
  simp [h0]

theorem phys_phase_cases (c : Config) (p : Nat) (hp : p ≤ 1) :
    phys_phase c p = 0 ∨ phys_phase c p = 1 := by
  unfold phys_phase
  split <;> omega

theorem peersOk_recv_forward (c : Config) (hr : c.rank < c.numRanks) (p : Nat)
    (hp : p ≤ 1) : PeersOk (recv_forward_ops c p) := by
  intro op hop
  simp only [recv_forward_ops] at hop
  rcases phys_phase_cases c p hp with hq | hq <;> rw [hq] at hop
  · rw [first_stage_zero] at hop
    cases hfr : is_first_rank c <;> rw [hfr] at hop <;> simp at hop
    subst hop
    simpa [commPeer] using prev_rank_ne_none c hr hfr
  · rw [first_stage_one] at hop
    cases hlr : is_last_rank c <;> rw [hlr] at hop <;> simp at hop
    subst hop
    simpa [commPeer] using next_rank_ne_none c hr hlr

theorem peersOk_send_forward (c : Config) (hr : c.rank < c.numRanks) (p : Nat)
    (hp : p ≤ 1) : PeersOk (send_forward_ops c p) := by
  intro op hop
  simp only [send_forward_ops] at hop
  rcases phys_phase_cases c p hp with hq | hq <;> rw [hq] at hop
  · rw [last_stage_zero] at hop
    cases hlr : is_last_rank c <;> rw [hlr] at hop <;> simp at hop
    subst hop
    simpa [commPeer] using next_rank_ne_none c hr hlr
  · rw [last_stage_one] at hop
    cases hfr : is_first_rank c <;> rw [hfr] at hop <;> simp at hop
    subst hop
    simpa [commPeer] using prev_rank_ne_none c hr hfr

theorem peersOk_recv_backward (c : Config) (hr : c.rank < c.numRanks) (p : Nat)
    (hp : p ≤ 1) : PeersOk (recv_backward_ops c p) := by
  intro op hop
  simp only [recv_backward_ops] at hop
  cases hfo : c.forwardOnly <;> rw [hfo] at hop
  · rcases phys_phase_cases c p hp with hq | hq <;> rw [hq] at hop
    · rw [last_stage_zero] at hop
      cases hlr : is_last_rank c <;> rw [hlr] at hop <;> simp at hop
      subst hop
      simpa [commPeer] using next_rank_ne_none c hr hlr
    · rw [last_stage_one] at hop
      cases hfr : is_first_rank c <;> rw [hfr] at hop <;> simp at hop
      subst hop
      simpa [commPeer] using prev_rank_ne_none c hr hfr
  · simp at hop

theorem peersOk_send_backward (c : Config) (hr : c.rank < c.numRanks) (p : Nat)
    (hp : p ≤ 1) : PeersOk (send_backward_ops c p) := by
  intro op hop
  simp only [send_backward_ops] at hop
  cases hfo : c.forwardOnly <;> rw [hfo] at hop
  · rcases phys_phase_cases c p hp with hq | hq <;> rw [hq] at hop
    · rw [first_stage_zero] at hop
      cases hfr : is_first_rank c <;> rw [hfr] at hop <;> simp at hop
      subst hop
      simpa [commPeer] using prev_rank_ne_none c hr hfr
    · rw [first_stage_one] at hop
      cases hlr : is_last_rank c <;> rw [hlr] at hop <;> simp at hop
      subst hop
      simpa [commPeer] using next_rank_ne_none c hr hlr
  · simp at hop

theorem peersOk_ite (b : Bool) {l : List Op} (h : PeersOk l) :
    PeersOk (if b then l else []) := by
  cases b
  · exact peersOk_nil
  · exact h

theorem peersOk_forward_compute (c : Config) (p : Nat) :
    PeersOk (forward_compute_ops c p) :=
  peersOk_compF _

theorem peersOk_backward_compute (c : Config) (p : Nat) (z : Bool) :
    PeersOk (backward_compute_ops c p z) := by
  unfold backward_compute_ops
  cases c.forwardOnly
  · simp only [Bool.false_eq_true, if_false]
    exact peersOk_compB _ _
  · simp only [if_true]
    exact peersOk_nil

theorem peersOk_fb_compute (c : Config) (p0 p1 : Nat) :
    PeersOk (forward_backward_compute_ops c p0 p1) := by
  unfold forward_backward_compute_ops
  split
  · exact peersOk_forward_compute c p0
  · split
    · exact peersOk_append (peersOk_forward_compute c p0) (peersOk_backward_compute c p1 false)
    · exact peersOk_compFB _ _

theorem peersOk_weight_chunk (c : Config) : PeersOk (weight_chunk_ops c) := by
  unfold weight_chunk_ops
  split
  · exact peersOk_nil
  · intro op hop
    simp at hop
    rcases hop with hop | hop <;> subst hop <;> simp [commPeer]

theorem peersOk_forward_chunk (c : Config) (hr : c.rank < c.numRanks) (p : Nat)
    (hp : p ≤ 1) (r s : Bool) : PeersOk (forward_chunk_ops c p r s) := by
  unfold forward_chunk_ops
  exact peersOk_append
    (peersOk_append
      (peersOk_append (peersOk_ite r (peersOk_recv_forward c hr p hp)) peersOk_commit)
      (peersOk_forward_compute c p))
    (peersOk_ite s (peersOk_send_forward c hr p hp))

theorem peersOk_backward_chunk (c : Config) (hr : c.rank < c.numRanks) (p : Nat)
    (hp : p ≤ 1) (z r s : Bool) : PeersOk (backward_chunk_ops c p z r s) := by
  unfold backward_chunk_ops
  exact peersOk_append
    (peersOk_append
      (peersOk_append (peersOk_ite r (peersOk_recv_backward c hr p hp)) peersOk_commit)
      (peersOk_backward_compute c p z))
    (peersOk_ite s (peersOk_send_backward c hr p hp))

theorem peersOk_fb_chunk (c : Config) (hr : c.rank < c.numRanks) (p0 p1 : Nat)
    (hp0 : p0 ≤ 1) (hp1 : p1 ≤ 1) (r0 : Bool) :
    PeersOk (forward_backward_chunk_ops c p0 p1 r0) := by
  unfold forward_backward_chunk_ops
  exact peersOk_append
    (peersOk_append
      (peersOk_append
        (peersOk_append
          (peersOk_append (peersOk_ite r0 (peersOk_recv_forward c hr p0 hp0))
            (peersOk_recv_backward c hr p1 hp1))
          peersOk_commit)
        (peersOk_fb_compute c p0 p1))
      (peersOk_send_forward c hr p0 hp0))
    (peersOk_send_backward c hr p1 hp1)

theorem peersOk_sched (c : Config) (hr : c.rank < c.numRanks) :
    PeersOk (sched_ops c) := by
  unfold sched_ops
  simp only [List.append_assoc]
  refine peersOk_append ?_ (peersOk_append ?_ (peersOk_append ?_ (peersOk_append ?_
    (peersOk_append ?_ (peersOk_append ?_ (peersOk_append ?_
      (peersOk_append ?_ peersOk_commit)))))))
  · exact peersOk_flatMap fun _ => peersOk_forward_chunk c hr 0 (by omega) true true
  · unfold step2_ops step2_iter_ops
    refine peersOk_append (peersOk_recv_forward c hr 0 (by omega)) ?_
    refine peersOk_flatMap fun i => ?_
    simp only [List.append_assoc]
    exact peersOk_append (peersOk_forward_chunk c hr 0 (by omega) false _)
      (peersOk_append (peersOk_recv_forward c hr 0 (by omega))
        (peersOk_append (peersOk_forward_chunk c hr 1 (by omega) true _)
          (peersOk_ite _ (peersOk_send_forward c hr 0 (by omega)))))
  · unfold step3_ops step3_iter_ops
    refine peersOk_flatMap fun _ => ?_
    simp only [List.append_assoc]
    exact peersOk_append (peersOk_backward_chunk c hr 1 (by omega) true true true)
      (peersOk_append (peersOk_recv_forward c hr 1 (by omega))
        (peersOk_append (peersOk_weight_chunk c)
          (peersOk_forward_chunk c hr 1 (by omega) false true)))
  · unfold step4_ops step4_iter_ops
    refine peersOk_flatMap fun i => ?_
    refine peersOk_append ?_ (peersOk_fb_chunk c hr 1 0 (by omega) (by omega) true)
    split
    · split
      · simp only [List.append_assoc]
        exact peersOk_append (peersOk_forward_chunk c hr 0 (by omega) false false)
          (peersOk_append (peersOk_send_forward c hr 1 (by omega))
            (peersOk_append (peersOk_backward_chunk c hr 1 (by omega) false true false)
              (peersOk_append (peersOk_send_forward c hr 0 (by omega))
                (peersOk_send_backward c hr 1 (by omega)))))
      · exact peersOk_fb_chunk c hr 0 1 (by omega) (by omega) false
    · exact peersOk_fb_chunk c hr 0 1 (by omega) (by omega) true
  · unfold step5_ops step5_iter_ops
    refine peersOk_flatMap fun _ => ?_
    exact peersOk_append (peersOk_backward_chunk c hr 1 (by omega) false true true)
      (peersOk_fb_chunk c hr 1 0 (by omega) (by omega) true)
  · rw [step6_ops_eq]
    refine peersOk_flatMap fun i => ?_
    exact peersOk_append (peersOk_backward_chunk c hr 1 (by omega) _ true true)
      (peersOk_backward_chunk c hr 0 (by omega) _ true true)
  · unfold step7_ops step7_iter_ops
    refine peersOk_flatMap fun _ => ?_
    exact peersOk_append (peersOk_weight_chunk c)
      (peersOk_backward_chunk c hr 0 (by omega) true true true)
  · unfold step8_ops
    exact peersOk_flatMap fun _ => peersOk_weight_chunk c

/-- C10: on a valid rank, `prev_rank` of logical rank 0 and `next_rank` of
logical rank `numRanks - 1` are `None`, yet no operation of the schedule
posts a communication descriptor to a `None` peer: every receive/send is
guarded away precisely on the boundary stages. -/
theorem no_post_to_none_peer (c : Config) (hr : c.rank < c.numRanks) :
    (c.rank = 0 → prev_rank c = none)
    ∧ (c.rank = c.numRanks - 1 → next_rank c = none)
    ∧ ∀ op ∈ sched_ops c, commPeer op ≠ some none := by
  refine ⟨?_, ?_, peersOk_sched c hr⟩
  · intro h0
    rw [prev_rank_eq c hr, if_pos h0]
  · intro hl
    rw [next_rank_eq c hr, if_pos hl]

/-- Witness for `no_post_to_none_peer` on the first rank of a four-rank
group. -/
theorem no_post_to_none_peer_witness :
    prev_rank ⟨4, 0, 8, false, true⟩ = none
    ∧ ∀ op ∈ sched_ops ⟨4, 0, 8, false, true⟩, commPeer op ≠ some none :=
  ⟨(no_post_to_none_peer ⟨4, 0, 8, false, true⟩ (by decide)).1 rfl,
   (no_post_to_none_peer ⟨4, 0, 8, false, true⟩ (by decide)).2.2⟩

end DualPipeModel
